import Mathlib

/-!
# struct-to-proto: a verification development

A shallow embedding of `main.go` (package `main` of kordax/struct-to-proto) and
theorems about it.  The Go program reads one struct declaration out of a parsed
Go file and prints a Protocol-Buffers-like message for it.

Conventions of the embedding

* A Go `string` is a Lean `String`.  Comparison of Go strings is bytewise
  lexicographic, which on UTF-8 text is the lexicographic order of the code
  points: `a.data < b.data`.
* `unicode.IsUpper`, `unicode.IsLower` and `unicode.ToLower` are embedded by
  `Char.isUpper`, `Char.isLower` and `Char.toLower`, with which they agree on
  ASCII text; there a rune is one byte, so `text[i-1]` is the previous rune.
* A Go `int` that can be negative (`threshold`) is an `Int`; `depth` (0 at the
  entry point and incremented from there) and the field counters are `Nat`.
* A run-time panic and an unbounded recursion are values of `Fault`.
* `*ast.StructType` pointers are references into a `Store`.
-/

namespace StructToProto

/-! ## Go library functions used by the source -/

/-- Go `strings.Repeat(" ", n)`. -/
def spaces (n : Nat) : String := String.mk (List.replicate n ' ')

/-- Go `strings.Join(elems, sep)`. -/
def stringsJoin (elems : List String) (sep : String) : String :=
  match elems with
  | [] => ""
  | [a] => a
  | a :: b :: rest => a ++ sep ++ stringsJoin (b :: rest) sep

/-- The verb `%d` of `fmt.Sprintf` at a non-negative integer. -/
def fmtInt (n : Nat) : String := toString n

/-- Go `a < b` on strings. -/
def strLess (a b : String) : Bool := decide (a.data < b.data)

/-- Go `sort.Strings`: the ascending arrangement of the strings. -/
def sortStrings (l : List String) : List String :=
  l.insertionSort (fun a b => a.data ≤ b.data)

/-- All matches of the regular expression `([A-Z][a-z]*)` in `name`, the result of
`pattern.FindAllString(name, -1)`: successive leftmost matches that do not overlap.
A match starts at every letter `A`-`Z` and takes the letters `a`-`z` that follow
it; a letter `a`-`z` starts no match, so resuming the search right after the
capital finds the same next match as resuming it after the whole token. -/
def findAllPascal : List Char → List String
  | [] => []
  | c :: cs =>
    if c.isUpper then String.mk (c :: cs.takeWhile Char.isLower) :: findAllPascal cs
    else findAllPascal cs

/-! ## Scalar table and names -/

/-- The function `convertTypeToProtobuf` of `main.go`. -/
def convertTypeToProtobuf (goType : String) : String :=
  match goType with
  | "string" => "string"
  | "int" | "int8" | "int16" | "int32" => "int32"
  | "uint" | "uint8" | "uint16" | "uint32" => "uint32"
  | "int64" => "int64"
  | "uint64" => "uint64"
  | "float32" | "float64" => "double"
  | "bool" => "bool"
  | "time.Time" => "int64"
  | _ => goType

/-- What one round of the loop of `convertToSnakeCase` writes for the rune `char`
whose predecessor in the text is `prev` (`none` at index 0). -/
def snakeStep (prev : Option Char) (char : Char) : List Char :=
  if char.isUpper then
    (if prev.any Char.isLower then ['_'] else []) ++ [char.toLower]
  else [char]

/-- The loop of `convertToSnakeCase` over the rest of the text. -/
def snakeLoop : Option Char → List Char → List Char
  | _, [] => []
  | prev, char :: rest => snakeStep prev char ++ snakeLoop (some char) rest

/-- The function `convertToSnakeCase` of `main.go`, on ASCII text (outside ASCII the
source goes by the Unicode tables and by the byte before the rune). -/
def convertToSnakeCase (text : String) : String := String.mk (snakeLoop none text.data)

/-! ## The parsed declarations (package `go/ast`) -/

/-- Go `ast.ObjKind`. -/
inductive ObjKind
  | Bad | Pkg | Con | Typ | Var | Fun | Lbl
  deriving DecidableEq, Repr

/-- A reference standing for a pointer `*ast.StructType`. -/
abbrev StructRef := Nat

/-- The `Type` of an `*ast.TypeSpec`, as far as the source looks at it: a struct
type, or any other type expression. -/
inductive SpecType
  | StructType (ref : StructRef)
  | Other
  deriving DecidableEq, Repr

/-- The node `Obj.Decl` of an `*ast.Object`: a type spec, or another declaring node
(a value spec, a function declaration, the field that declares a type parameter). -/
inductive DeclNode
  | TypeSpec (type : SpecType)
  | Other
  deriving DecidableEq, Repr

/-- Go `ast.Object`, the declaration an identifier was resolved to by the parser. -/
structure Object where
  Kind : ObjKind
  Decl : DeclNode
  deriving DecidableEq, Repr

/-- Go `ast.Expr` in the position of a field type.  `Other` stands for every node
the source has no case for (function, channel, interface and anonymous struct
types, ...).  The parser leaves no `X` nil. -/
inductive Expr
  | Ident (Name : String) (Obj : Option Object)
  | StarExpr (X : Expr)
  | ArrayType (Elt : Expr)
  | MapType (Key : Expr) (Value : Expr)
  | IndexExpr (X : Expr) (Index : Expr)
  | SelectorExpr (X : Expr) (Sel : String)
  | Other
  deriving DecidableEq, Repr

/-- Go `ast.Field`: the names declared together (none for an embedded field) and
their type. -/
structure Field where
  Names : List String
  type : Expr
  deriving DecidableEq, Repr

/-- The `Fields.List` of every struct type of the parsed file, by reference. -/
abbrev Store := StructRef → List Field

/-- Go `token.Token` of a general declaration. -/
inductive Token
  | IMPORT | CONST | TYPE | VAR
  deriving DecidableEq, Repr

/-- Go `ast.Spec`: a type spec with its name and type, or an import or value spec. -/
inductive Spec
  | TypeSpec (Name : String) (type : SpecType)
  | Other
  deriving DecidableEq, Repr

/-- Go `ast.Decl`: a general declaration, or a function declaration. -/
inductive Decl
  | GenDecl (Tok : Token) (Specs : List Spec)
  | Other
  deriving DecidableEq, Repr

/-- How a call ends when it does not return: a Go run-time panic (index out of
range, failed type assertion, slice bounds out of range), the panic that
`generateProtobufDefinition` raises for a self-referential struct, or the
recursion budget of the embedding running out. -/
inductive Fault
  | runtimePanic
  | recursionPanic (field : String)
  | outOfFuel
  deriving DecidableEq, Repr

/-- The name `field.Names[0].Name`; the index panics on an embedded field. -/
def firstName (field : Field) : Except Fault String :=
  match field.Names with
  | [] => .error .runtimePanic
  | name :: _ => .ok name

/-- The first name where there is one (the empty string stands in otherwise; every
use is behind a check that the field has a name). -/
def firstNameD (field : Field) : String := field.Names.headD ""

/-- The `less` closure handed to `sort.Slice` in both places of the source:
`fields[i].Names[0].Name < fields[j].Names[0].Name`. -/
def lessByName (a b : Field) : Bool := strLess (firstNameD a) (firstNameD b)

/-- The two library behaviours the source leaves open: the arrangement `sort.Slice`
returns (it is not a stable sort) and the order in which `range` visits the keys of
a map. -/
structure Runtime where
  sortSlice : List Field → List Field
  mapRange : List String → List String

/-- What the Go library promises of them: `sort.Slice` returns a permutation that
is sorted for `less`, and `range` visits every key once. -/
structure Runtime.Lawful (rt : Runtime) : Prop where
  sort_perm : ∀ l, (rt.sortSlice l).Perm l
  sort_sorted : ∀ l, (rt.sortSlice l).Pairwise (fun a b => lessByName b a = false)
  range_perm : ∀ ks, (rt.mapRange ks).Perm ks

/-- A runtime to evaluate with: insertion sort (what `sort.Slice` runs on a slice
of at most 12 elements) and keys visited in the order they were inserted. -/
def goRuntime : Runtime where
  sortSlice := List.insertionSort (fun a b => lessByName b a = false)
  mapRange := id

/-! ## Sorting and grouping -/

/-- The function `SortFieldsByName` of `main.go`.  The source sorts the slice in
place; the embedding returns the sorted slice and leaves the declaration as it
was parsed.  With fewer than two fields `sort.Slice` compares nothing; otherwise
it compares every element, and `less` panics on a field without a name. -/
def SortFieldsByName (rt : Runtime) (fields : List Field) : Except Fault (List Field) :=
  if 2 ≤ fields.length ∧ fields.any (fun f => f.Names.isEmpty) then .error .runtimePanic
  else .ok (rt.sortSlice fields)

/-- A Go `map[string][]*ast.Field`: its entries, one for every key. -/
abbrev Groups := List (String × List Field)

/-- The read `groups[key]`: nil for a key that is not in the map. -/
def Groups.get (groups : Groups) (key : String) : List Field :=
  match groups with
  | [] => []
  | (k, v) :: rest => if k = key then v else Groups.get rest key

/-- The assignment `groups[key] = value`. -/
def Groups.set (groups : Groups) (key : String) (value : List Field) : Groups :=
  match groups with
  | [] => [(key, value)]
  | (k, v) :: rest => if k = key then (key, value) :: rest else (k, v) :: Groups.set rest key value

/-- The call `delete(groups, key)`. -/
def Groups.delete (groups : Groups) (key : String) : Groups :=
  groups.filter (fun e => e.1 ≠ key)

/-- The keys of the map (`maputils.Keys(groups)`, and what `range` iterates). -/
def Groups.keys (groups : Groups) : List String := groups.map Prod.fst

/-- The first loop of `GroupFieldsByPascalCase`: every field goes to the group of
the first `threshold` PascalCase tokens of its first name, or to `ungrouped`.  The
slice `matches[:threshold]` panics for a negative threshold. -/
def groupLoop (threshold : Int) :
    List Field → Groups → List Field → Except Fault (Groups × List Field)
  | [], groups, ungrouped => .ok (groups, ungrouped)
  | field :: rest, groups, ungrouped =>
    match firstName field with
    | .error e => .error e
    | .ok name =>
      let found := findAllPascal name.data
      if (found.length : Int) ≥ threshold then
        if threshold < 0 then .error .runtimePanic
        else
          let group := stringsJoin (found.take threshold.toNat) ""
          groupLoop threshold rest (groups.set group (groups.get group ++ [field])) ungrouped
      else groupLoop threshold rest groups (ungrouped ++ [field])

/-- The second loop of `GroupFieldsByPascalCase`, over the keys in the order `range`
visits them: a group of one field is moved to `ungrouped` and deleted. -/
def dissolveLoop : List String → Groups → List Field → Groups × List Field
  | [], groups, ungrouped => (groups, ungrouped)
  | group :: rest, groups, ungrouped =>
    match groups.get group with
    | [single] => dissolveLoop rest (groups.delete group) (ungrouped ++ [single])
    | _ => dissolveLoop rest groups ungrouped

/-- The function `GroupFieldsByPascalCase` of `main.go`. -/
def GroupFieldsByPascalCase (rt : Runtime) (fields : List Field) (threshold : Int) :
    Except Fault Groups :=
  match groupLoop threshold fields [] [] with
  | .error e => .error e
  | .ok (groups, ungrouped) =>
    let moved := dissolveLoop (rt.mapRange groups.keys) groups ungrouped
    .ok (moved.1.set "ungrouped" moved.2)

/-! ## Type resolution and rendering -/

/-- The function `getFieldNames` of `main.go`. -/
def getFieldNames (names : List String) : List String :=
  names.foldl (fun fieldNames name => fieldNames ++ [name]) []

/-- The test `ident.X.(*ast.Ident)` with `xIdent.Name == "opt"` and
`ident.Sel.Name == "Opt"` on the `X` of an index expression. -/
def isOptSelector : Expr → Bool
  | .SelectorExpr (.Ident name _) sel => name = "opt" && sel = "Opt"
  | _ => false

/-- The function `fieldTypeToString` of `main.go`, with the call of
`generateProtobufStruct` for a known struct left to `gen` (name, struct type,
depth).  The chain `t.Obj.Decl.(*ast.TypeSpec).Type.(*ast.StructType)` panics when
the declaring node is no type spec. -/
def fieldTypeToStringWith (gen : String → StructRef → Nat → Except Fault String) :
    Expr → Nat → Except Fault String
  | .Ident name obj, depth =>
    match obj with
    | none => .ok name
    | some o =>
      if o.Kind = ObjKind.Typ then
        match o.Decl with
        | .TypeSpec (.StructType structType) => gen name structType (depth + 1)
        | .TypeSpec .Other => .ok name
        | .Other => .error .runtimePanic
      else .ok name
  | .StarExpr x, _ => fieldTypeToStringWith gen x 0
  | .ArrayType elt, _ =>
    match fieldTypeToStringWith gen elt 0 with
    | .error e => .error e
    | .ok eltType => .ok ("repeated " ++ eltType)
  | .MapType key value, _ =>
    match fieldTypeToStringWith gen key 0 with
    | .error e => .error e
    | .ok keyType =>
      match fieldTypeToStringWith gen value 0 with
      | .error e => .error e
      | .ok valueType => .ok ("map[" ++ keyType ++ "]" ++ valueType)
  | .IndexExpr x index, _ =>
    if isOptSelector x then
      match fieldTypeToStringWith gen index 0 with
      | .error e => .error e
      | .ok genericType =>
        if genericType ≠ "" then .ok (convertTypeToProtobuf genericType)
        else fieldTypeToStringWith gen x 0
    else fieldTypeToStringWith gen x 0
  | .SelectorExpr x sel, _ =>
    match x with
    | .Ident "opt" _ => if sel = "Opt" then .ok "opt.Opt" else .ok sel
    | _ =>
      match fieldTypeToStringWith gen x 0 with
      | .error e => .error e
      | .ok identType => if identType ≠ "" then .ok (identType ++ "." ++ sel) else .ok ""
  | .Other, _ => .ok ""

/-- The text `<indent><type> <snake_case(names)> = <number>;` that the source
formats in five places, for an indentation of `indent` spaces. -/
def fieldLine (indent : Nat) (typeToken : String) (fieldNames : List String)
    (fieldNumber : Nat) : String :=
  spaces indent ++ typeToken ++ " " ++ convertToSnakeCase (stringsJoin fieldNames ", ")
    ++ " = " ++ fmtInt fieldNumber ++ ";"

/-- The two-part text for a field whose identifier is resolved (`Obj != nil`): the
resolved type on a line of its own, then a field line whose type is the
identifier. -/
def nestedFieldLine (depth : Nat) (pbType identName : String) (fieldNames : List String)
    (fieldNumber : Nat) : String :=
  spaces ((depth + 1) * 2) ++ pbType ++ "\n"
    ++ fieldLine ((depth + 1) * 2) identName fieldNames fieldNumber

/-- The body of the loop over `sortedUngrouped` in `generateProtobufStruct`: the
line of one field.  `resolve` is `fieldTypeToString` at the threshold of the call.
The assertion `t.X.(*ast.Ident)` panics on a pointer to anything but an
identifier. -/
def ungroupedLine (resolve : Expr → Nat → Except Fault String) (depth : Nat)
    (field : Field) (fieldNumber : Nat) : Except Fault String :=
  let fieldNames := getFieldNames field.Names
  match resolve field.type depth with
  | .error e => .error e
  | .ok fieldType =>
    let pbType := convertTypeToProtobuf fieldType
    match field.type with
    | .StarExpr (.Ident name obj) =>
      if obj.isNone then .ok (fieldLine ((depth + 1) * 2) pbType fieldNames fieldNumber)
      else .ok (nestedFieldLine depth pbType name fieldNames fieldNumber)
    | .StarExpr _ => .error .runtimePanic
    | .Ident name obj =>
      if obj.isNone then .ok (fieldLine ((depth + 1) * 2) pbType fieldNames fieldNumber)
      else .ok (nestedFieldLine depth pbType name fieldNames fieldNumber)
    | _ => .ok (fieldLine ((depth + 1) * 2) pbType fieldNames fieldNumber)

/-- The loop over `sortedUngrouped`, carrying `lines` and `fieldNumber`. -/
def ungroupedLoop (resolve : Expr → Nat → Except Fault String) (depth : Nat) :
    List Field → List String → Nat → Except Fault (List String × Nat)
  | [], lines, fieldNumber => .ok (lines, fieldNumber)
  | field :: rest, lines, fieldNumber =>
    match ungroupedLine resolve depth field fieldNumber with
    | .error e => .error e
    | .ok line => ungroupedLoop resolve depth rest (lines ++ [line]) (fieldNumber + 1)

/-- The body of the loop over the fields of a group: the line of the field at
index `i`, numbered `i+1`. -/
def groupedLine (resolve : Expr → Nat → Except Fault String) (depth : Nat)
    (field : Field) (i : Nat) : Except Fault String :=
  let fieldNames := getFieldNames field.Names
  match resolve field.type depth with
  | .error e => .error e
  | .ok fieldType =>
    .ok (fieldLine ((depth + 2) * 2) (convertTypeToProtobuf fieldType) fieldNames (i + 1))

/-- The loop over `groups[group]`, carrying `nestedLines` and the index `i`. -/
def nestedLoop (resolve : Expr → Nat → Except Fault String) (depth : Nat) :
    List Field → List String → Nat → Except Fault (List String)
  | [], nestedLines, _ => .ok nestedLines
  | field :: rest, nestedLines, i =>
    match groupedLine resolve depth field i with
    | .error e => .error e
    | .ok line => nestedLoop resolve depth rest (nestedLines ++ [line]) (i + 1)

/-- The sub-message of a group; the source indents it by `depth+1*2` spaces. -/
def groupMessage (depth : Nat) (group : String) (nestedLines : List String) : String :=
  spaces (depth + 1 * 2) ++ "message " ++ group ++ " \x7b\n" ++ stringsJoin nestedLines "\n"
    ++ "\n" ++ spaces (depth + 1 * 2) ++ "\x7d"

/-- The field line that refers to the sub-message of a group. -/
def groupRefLine (depth : Nat) (group : String) (fieldNumber : Nat) : String :=
  spaces ((depth + 1) * 2) ++ group ++ " " ++ convertToSnakeCase group ++ " = "
    ++ fmtInt fieldNumber ++ ";"

/-- The loop over `sortedGroups`, carrying `lines` and `fieldNumber`. -/
def groupsLoop (resolve : Expr → Nat → Except Fault String) (depth : Nat) (groups : Groups) :
    List String → List String → Nat → Except Fault (List String × Nat)
  | [], lines, fieldNumber => .ok (lines, fieldNumber)
  | group :: rest, lines, fieldNumber =>
    if group = "ungrouped" then groupsLoop resolve depth groups rest lines fieldNumber
    else
      match nestedLoop resolve depth (groups.get group) [] 0 with
      | .error e => .error e
      | .ok nestedLines =>
        groupsLoop resolve depth groups rest
          (lines ++ [groupMessage depth group nestedLines, groupRefLine depth group fieldNumber])
          (fieldNumber + 1)

/-- The closing `fmt.Sprintf` of `generateProtobufStruct`. -/
def messageText (structName : String) (depth : Nat) (lines : List String) : String :=
  "message " ++ structName ++ " \x7b\n" ++ stringsJoin lines "\n" ++ "\n" ++ spaces (depth * 2) ++ "\x7d"

/-- The body of `generateProtobufStruct` on the field list of the struct type.
`resolve` is `fieldTypeToString` at the threshold of the call.  The source sorts
`structType.Fields.List` in place and goes on with that slice; here the sorted
slice is passed on.  (`sortedUngrouped` shares its array with `groups["ungrouped"]`,
an entry the loop over the groups skips; the closing `depth++` has no effect.) -/
def generateProtobufStructWith (rt : Runtime) (resolve : Expr → Nat → Except Fault String)
    (structName : String) (fields : List Field) (depth : Nat) (threshold : Int) :
    Except Fault String :=
  match SortFieldsByName rt fields with
  | .error e => .error e
  | .ok sorted =>
    match GroupFieldsByPascalCase rt sorted threshold with
    | .error e => .error e
    | .ok groups =>
      let sortedUngrouped := rt.sortSlice (groups.get "ungrouped")
      match ungroupedLoop resolve depth sortedUngrouped [] 1 with
      | .error e => .error e
      | .ok (lines, fieldNumber) =>
        let sortedGroups := sortStrings groups.keys
        match groupsLoop resolve depth groups sortedGroups lines fieldNumber with
        | .error e => .error e
        | .ok (lines, _) => .ok (messageText structName depth lines)

/-- The function `generateProtobufStruct` of `main.go`.  `fuel` bounds the number
of nested calls (the recursion through `fieldTypeToString`); a call that needs
more ends in `Fault.outOfFuel`. -/
def generateProtobufStruct (rt : Runtime) (store : Store) (fuel : Nat) (structName : String)
    (structType : StructRef) (depth : Nat) (threshold : Int) : Except Fault String :=
  match fuel with
  | 0 => .error .outOfFuel
  | fuel + 1 =>
    generateProtobufStructWith rt
      (fieldTypeToStringWith
        (fun name nested d => generateProtobufStruct rt store fuel name nested d threshold))
      structName (store structType) depth threshold

/-- The function `fieldTypeToString` of `main.go`, with `fuel` nested calls of
`generateProtobufStruct` at its disposal. -/
def fieldTypeToString (rt : Runtime) (store : Store) (fuel : Nat) (fieldType : Expr)
    (depth : Nat) (threshold : Int) : Except Fault String :=
  fieldTypeToStringWith
    (fun name nested d => generateProtobufStruct rt store fuel name nested d threshold)
    fieldType depth

/-! ## The recursion guard and the entry point -/

/-- The loop of `checkRecursiveStructRecursive` over the fields.  The assertion
`fieldType.X.(*ast.Ident)` panics on a pointer to anything but an identifier, and
`field.Names[0]` on an embedded field. -/
def checkRecursiveLoop (targetName : String) : List Field → Except Fault (Bool × String)
  | [] => .ok (false, "")
  | field :: rest =>
    match field.type with
    | .StarExpr (.Ident name _) =>
      if name = targetName then
        match firstName field with
        | .error e => .error e
        | .ok fieldName => .ok (true, fieldName)
      else checkRecursiveLoop targetName rest
    | .StarExpr _ => .error .runtimePanic
    | _ => checkRecursiveLoop targetName rest

/-- The function `checkRecursiveStructRecursive` of `main.go`; it uses neither
`targetType` nor `parentFieldName`. -/
def checkRecursiveStructRecursive (store : Store) (structType : StructRef)
    (_targetType : StructRef) (_parentFieldName : String) (targetName : String) :
    Except Fault (Bool × String) :=
  checkRecursiveLoop targetName (store structType)

/-- The function `checkRecursiveStruct` of `main.go`. -/
def checkRecursiveStruct (store : Store) (structType : StructRef) (targetName : String) :
    Except Fault (Bool × String) :=
  checkRecursiveStructRecursive store structType structType "" targetName

/-- The errors `generateProtobufDefinition` returns. -/
inductive GenError
  | zeroThreshold
  | parseFailure
  | notFound (structName : String)
  deriving DecidableEq, Repr

/-- The loop of `generateProtobufDefinition` over the specs of one type
declaration; `none` when no spec of that name with a struct type is among them. -/
def findInSpecs (rt : Runtime) (store : Store) (fuel : Nat) (structName : String)
    (depth : Nat) (threshold : Int) : List Spec → Option (Except Fault String)
  | [] => none
  | .TypeSpec name (.StructType structType) :: rest =>
    if name = structName then
      match checkRecursiveStruct store structType structName with
      | .error e => some (.error e)
      | .ok (true, fieldName) => some (.error (.recursionPanic fieldName))
      | .ok (false, _) =>
        some (generateProtobufStruct rt store fuel structName structType depth threshold)
    else findInSpecs rt store fuel structName depth threshold rest
  | _ :: rest => findInSpecs rt store fuel structName depth threshold rest

/-- The loop of `generateProtobufDefinition` over the declarations of the file. -/
def findInDecls (rt : Runtime) (store : Store) (fuel : Nat) (structName : String)
    (depth : Nat) (threshold : Int) : List Decl → Option (Except Fault String)
  | [] => none
  | .GenDecl .TYPE specs :: rest =>
    match findInSpecs rt store fuel structName depth threshold specs with
    | some r => some r
    | none => findInDecls rt store fuel structName depth threshold rest
  | _ :: rest => findInDecls rt store fuel structName depth threshold rest

/-- The function `generateProtobufDefinition` of `main.go`, on the outcome of
`parser.ParseFile` (`none` for a parse error).  It returns the text, returns an
error, or does not return (`Fault`). -/
def generateProtobufDefinition (rt : Runtime) (store : Store) (fuel : Nat)
    (parsed : Option (List Decl)) (structName : String) (depth : Nat) (threshold : Int) :
    Except Fault (Except GenError String) :=
  if threshold = 0 then .ok (.error .zeroThreshold)
  else
    match parsed with
    | none => .ok (.error .parseFailure)
    | some decls =>
      match findInDecls rt store fuel structName depth threshold decls with
      | some (.error e) => .error e
      | some (.ok text) => .ok (.ok text)
      | none => .ok (.error (.notFound structName))

/-! ## The declarations of `testdata/example.go` -/

/-- An identifier of the universe scope, which the parser leaves unresolved. -/
def prim (name : String) : Expr := .Ident name none

/-- An identifier resolved to the type spec of the struct at `ref`. -/
def structIdent (name : String) (ref : StructRef) : Expr :=
  .Ident name (some ⟨.Typ, .TypeSpec (.StructType ref)⟩)

/-- The four fields that the three structs of the test data start with. -/
def exampleFields : List Field :=
  [⟨["Field1"], prim "int32"⟩, ⟨["Field2"], prim "string"⟩, ⟨["Field3"], prim "bool"⟩,
   ⟨["Field4"], .ArrayType (prim "int64")⟩]

/-- The struct types of the file: `NestedStruct` at 0, `MyStruct` at 1 and
`MyStructRecursive` at 2. -/
def exampleStore : Store
  | 0 => exampleFields
  | 1 => exampleFields ++ [⟨["Nested"], .StarExpr (structIdent "NestedStruct" 0)⟩]
  | 2 => exampleFields ++ [⟨["Nested"], .StarExpr (structIdent "MyStructRecursive" 2)⟩]
  | _ => []

/-- The three type declarations of the file. -/
def exampleFile : List Decl :=
  [.GenDecl .TYPE [.TypeSpec "NestedStruct" (.StructType 0)],
   .GenDecl .TYPE [.TypeSpec "MyStruct" (.StructType 1)],
   .GenDecl .TYPE [.TypeSpec "MyStructRecursive" (.StructType 2)]]

/-- Go `math.MaxInt` on a 64-bit platform. -/
def maxInt : Int := 9223372036854775807

/-- The text `expected` of `TestGenerateProtobufDefinition`. -/
def expectedMyStruct : String :=
  "message MyStruct \x7b\n  int32 field1 = 1;\n  string field2 = 2;\n  bool field3 = 3;\n  repeated int64 field4 = 4;\n  message NestedStruct \x7b\n    int32 field1 = 1;\n    string field2 = 2;\n    bool field3 = 3;\n    repeated int64 field4 = 4;\n  \x7d\n  NestedStruct nested = 5;\n\x7d"

/-! ## Reference definitions, written from the specification -/

/-- The scalar table with the rows the specification lists: `string`; the 8-, 16- and
32-bit signed and unsigned integers; the 64-bit integers; the two floating-point
types; `bool`; the timestamp type. -/
def listedScalarTable : List (String × String) :=
  [("string", "string"), ("int8", "int32"), ("int16", "int32"), ("int32", "int32"),
   ("uint8", "uint32"), ("uint16", "uint32"), ("uint32", "uint32"), ("int64", "int64"),
   ("uint64", "uint64"), ("float32", "double"), ("float64", "double"), ("bool", "bool"),
   ("time.Time", "int64")]

/-- The listed rows together with the two the source has besides them, for the
platform-sized `int` and `uint`. -/
def scalarTable : List (String × String) :=
  ("int", "int32") :: ("uint", "uint32") :: listedScalarTable

/-- Reading a table: the row of `goType` if it has one, `goType` unchanged if not. -/
def tableLookup (table : List (String × String)) (goType : String) : String :=
  match table with
  | [] => goType
  | (k, v) :: rest => if k = goType then v else tableLookup rest goType

/-- Every rune of the text with the rune right before it (`none` for the first). -/
def withPrevious (text : List Char) : List (Option Char × Char) :=
  List.zip (none :: text.map some) text

/-- A lowercase-to-uppercase boundary: an uppercase rune right after a lowercase
one. -/
def isBoundary (p : Option Char × Char) : Bool :=
  p.2.isUpper && p.1.any Char.isLower

/-- The reference conversion of the specification: every rune lowercased, with one
underscore before it when it stands at a boundary. -/
def snakeReference (text : List Char) : List Char :=
  ((withPrevious text).map
    (fun p => (if isBoundary p then ['_'] else []) ++ [p.2.toLower])).flatten

/-- The number of lowercase-to-uppercase boundaries of the text. -/
def boundaryCount (text : List Char) : Nat := (withPrevious text).countP isBoundary

/-- The text is ASCII. -/
def IsASCII (text : String) : Prop := ∀ c ∈ text.data, c.toNat < 128

instance (text : String) : Decidable (IsASCII text) := by
  unfold IsASCII; infer_instance

/-- The name of a type with no declaration in the file: an identifier the parser
resolved to no declaration (a primitive, or a type of another file), or such a
package identifier qualifying a name (as in `time.Time`; the package `opt` is the
wrapper's own). -/
def plainTypeName : Expr → Option String
  | .Ident name none => if name = "" then none else some name
  | .SelectorExpr (.Ident pkg none) sel =>
    if pkg = "" ∨ pkg = "opt" then none else some (pkg ++ "." ++ sel)
  | _ => none

/-- The identifier `name` resolved to a type that the file declares and that is not
a struct, as `MyInt` after `type MyInt int`. -/
def declaredIdent (name : String) : Expr :=
  .Ident name (some ⟨.Typ, .TypeSpec .Other⟩)

/-- The name of a type that is a primitive or an opaque name, and whether the file
declares it: an identifier the file declares as a type that is not a struct
(`true`), or an identifier or package-qualified name with no declaration in the
file (`false`). -/
def opaqueTypeName (t : Expr) : Option (String × Bool) :=
  match t with
  | .Ident name (some ⟨.Typ, .TypeSpec .Other⟩) => if name = "" then none else some (name, true)
  | _ => (plainTypeName t).map (fun name => (name, false))

/-- The type expression `opt.Opt[inner]`. -/
def optOf (inner : Expr) : Expr :=
  .IndexExpr (.SelectorExpr (.Ident "opt" none) "Opt") inner

/-- The fields of `type Stats struct { Count int; Counts []int }`, at every
reference. -/
def statsStore : Store := fun _ =>
  [⟨["Count"], prim "int"⟩, ⟨["Counts"], .ArrayType (prim "int")⟩]

/-- The field has the type pointer-to-`target` (a pointer to the identifier
`target`). -/
def isPointerTo (target : String) (field : Field) : Bool :=
  match field.type with
  | .StarExpr (.Ident name _) => name = target
  | _ => false

/-- The field has a pointer type whose pointee is a plain identifier, or no
pointer type at all. -/
def pointsToIdent (field : Field) : Bool :=
  match field.type with
  | .StarExpr (.Ident _ _) => true
  | .StarExpr _ => false
  | _ => true

/-- The declaration locator over the specs of one type declaration: the first
type spec of that name whose type is a struct. -/
def locateInSpecs (structName : String) : List Spec → Option StructRef
  | [] => none
  | .TypeSpec name (.StructType structType) :: rest =>
    if name = structName then some structType else locateInSpecs structName rest
  | _ :: rest => locateInSpecs structName rest

/-- The declaration locator: the struct type of the first type spec of that name
with a struct type, among the type declarations of the file. -/
def locateStruct (structName : String) : List Decl → Option StructRef
  | [] => none
  | .GenDecl .TYPE specs :: rest =>
    match locateInSpecs structName specs with
    | some structType => some structType
    | none => locateStruct structName rest
  | _ :: rest => locateStruct structName rest

/-- What `generateProtobufDefinition` does with the struct it has located: the
guard, then the rendering. -/
def guardThenGenerate (rt : Runtime) (store : Store) (fuel : Nat) (structName : String)
    (depth : Nat) (threshold : Int) (structType : StructRef) : Except Fault String :=
  match checkRecursiveStruct store structType structName with
  | .error e => .error e
  | .ok (true, fieldName) => .error (.recursionPanic fieldName)
  | .ok (false, _) => generateProtobufStruct rt store fuel structName structType depth threshold

/-- The fields of `type T struct { *T }`: one embedded field, a pointer to `T`. -/
def embeddedSelfStore : Store := fun _ => [⟨[], .StarExpr (structIdent "T" 0)⟩]

/-- The PascalCase tokens of the first name of the field. -/
def tokensOf (field : Field) : List String := findAllPascal (firstNameD field).data

/-- The key the grouper derives for a field at threshold `g`: the first `g` tokens
of its first name, concatenated, when the name has at least `g` tokens. -/
def groupKey (g : Nat) (field : Field) : Option String :=
  if g ≤ (tokensOf field).length then some (stringsJoin ((tokensOf field).take g) "")
  else none

/-- The fields of the list whose derived key is `key`, in the order of the list. -/
def membersOf (g : Nat) (fields : List Field) (key : String) : List Field :=
  fields.filter (fun f => groupKey g f = some key)

/-- The fields of the list with fewer than `g` tokens, in the order of the list. -/
def shortOf (g : Nat) (fields : List Field) : List Field :=
  fields.filter (fun f => groupKey g f = none)

/-- The fields of `type User struct { UserName string; UserAge int; Id int64;
count int }`, at every reference. -/
def userFields : List Field :=
  [⟨["UserName"], prim "string"⟩, ⟨["UserAge"], prim "int"⟩, ⟨["Id"], prim "int64"⟩,
   ⟨["count"], prim "int"⟩]

/-- A PascalCase token: one letter `A`-`Z` followed by letters `a`-`z` only. -/
def IsToken (s : String) : Prop :=
  ∃ c rest, s = String.mk (c :: rest) ∧ c.isUpper = true ∧ ∀ x ∈ rest, x.isLower = true

/-- All the results in order, or the first fault. -/
def collect {α : Type} : List (Except Fault α) → Except Fault (List α)
  | [] => .ok []
  | r :: rest =>
    match r with
    | .error e => .error e
    | .ok a =>
      match collect rest with
      | .error e => .error e
      | .ok others => .ok (a :: others)

/-- The elements of the list with the consecutive numbers `start`, `start+1`, ... -/
def numberedFrom {α : Type} (start : Nat) (l : List α) : List (α × Nat) :=
  l.zip (List.range' start l.length)

/-- The line of a field inside a group sub-message, given its field number. -/
def groupedEntry (resolve : Expr → Nat → Except Fault String) (depth : Nat)
    (field : Field) (fieldNumber : Nat) : Except Fault String :=
  match resolve field.type depth with
  | .error e => .error e
  | .ok fieldType =>
    .ok (fieldLine ((depth + 2) * 2) (convertTypeToProtobuf fieldType) field.Names fieldNumber)

/-- The two lines a group contributes to the enclosing message: its sub-message,
whose fields are numbered 1, 2, ... in the order of the group, and the line that
refers to it under the number `fieldNumber`. -/
def groupBlock (resolve : Expr → Nat → Except Fault String) (depth : Nat) (groups : Groups)
    (group : String) (fieldNumber : Nat) : Except Fault (List String) :=
  match collect ((numberedFrom 1 (groups.get group)).map
      (fun p => groupedEntry resolve depth p.1 p.2)) with
  | .error e => .error e
  | .ok nestedLines =>
    .ok [groupMessage depth group nestedLines, groupRefLine depth group fieldNumber]

/-- The message in which the lines get their numbers from their position: the
ungrouped fields `own` are numbered 1, ..., u, and the groups `keys` follow with
the numbers u+1, ..., u+m. -/
def numberedRendering (resolve : Expr → Nat → Except Fault String) (structName : String)
    (depth : Nat) (groups : Groups) (own : List Field) (keys : List String) :
    Except Fault String :=
  match collect ((numberedFrom 1 own).map (fun p => ungroupedLine resolve depth p.1 p.2)) with
  | .error e => .error e
  | .ok ownLines =>
    match collect ((numberedFrom (own.length + 1) keys).map
        (fun p => groupBlock resolve depth groups p.1 p.2)) with
    | .error e => .error e
    | .ok blocks => .ok (messageText structName depth (ownLines ++ blocks.flatten))

/-- The struct `User` of `userFields`, at every reference. -/
def userStore : Store := fun _ => userFields

/-- The struct types of `type Addr struct { City string }` (at 0) and
`type Order struct { UserHome *Addr; UserWork Addr }` (at 1). -/
def orderStore : Store
  | 0 => [⟨["City"], prim "string"⟩]
  | 1 => [⟨["UserHome"], .StarExpr (structIdent "Addr" 0)⟩, ⟨["UserWork"], structIdent "Addr" 0⟩]
  | _ => []

/-- The type expression `time.Time`. -/
def timeTime : Expr := .SelectorExpr (prim "time") "Time"

/-- The fields of `type Event struct { When *time.Time }`, at every reference. -/
def eventStore : Store := fun _ => [⟨["When"], .StarExpr timeTime⟩]

/-- The file that declares `Event`. -/
def eventFile : List Decl := [.GenDecl .TYPE [.TypeSpec "Event" (.StructType 0)]]

/-- The struct types of `type Leaf struct { X int32 }` (at 0),
`type Mid struct { P *Leaf; Q Leaf }` (at 1) and `type Outer struct { M *Mid }`
(at 2). -/
def nestingStore : Store
  | 0 => [⟨["X"], prim "int32"⟩]
  | 1 => [⟨["P"], .StarExpr (structIdent "Leaf" 0)⟩, ⟨["Q"], structIdent "Leaf" 0⟩]
  | 2 => [⟨["M"], .StarExpr (structIdent "Mid" 1)⟩]
  | _ => []

/-- The file that declares `Leaf`, `Mid` and `Outer`. -/
def nestingFile : List Decl :=
  [.GenDecl .TYPE [.TypeSpec "Leaf" (.StructType 0)],
   .GenDecl .TYPE [.TypeSpec "Mid" (.StructType 1)],
   .GenDecl .TYPE [.TypeSpec "Outer" (.StructType 2)]]

/-- The struct types of `type User struct { UserName string; UserAge int }` (at 0)
and `type Account struct { Owner *User }` (at 1). -/
def accountStore : Store
  | 0 => [⟨["UserName"], prim "string"⟩, ⟨["UserAge"], prim "int"⟩]
  | 1 => [⟨["Owner"], .StarExpr (structIdent "User" 0)⟩]
  | _ => []

/-- The file that declares `User` and `Account`. -/
def accountFile : List Decl :=
  [.GenDecl .TYPE [.TypeSpec "User" (.StructType 0)],
   .GenDecl .TYPE [.TypeSpec "Account" (.StructType 1)]]

/-- The file `type MyInt int`: a declaration whose type is not a struct. -/
def aliasFile : List Decl := [.GenDecl .TYPE [.TypeSpec "MyInt" .Other]]

/-- The concatenation of all the lists of the map. -/
def Groups.all (groups : Groups) : List Field := (groups.map Prod.snd).flatten

/-- Every struct type of the file has a name for each field, and its first names
are distinct. -/
def DistinctNames (store : Store) : Prop :=
  ∀ ref, (∀ f ∈ store ref, f.Names ≠ []) ∧ ((store ref).map firstNameD).Nodup

/-- A runtime that sorts as `goRuntime` does and visits the keys of a map in the
reverse order. -/
def reverseRuntime : Runtime where
  sortSlice := goRuntime.sortSlice
  mapRange := List.reverse

/-- The known structs a type expression mentions, directly or under pointers,
slices, maps, wrappers and qualifiers. -/
def mentions : Expr → List StructRef
  | .Ident _ (some ⟨_, .TypeSpec (.StructType ref)⟩) => [ref]
  | .Ident _ _ => []
  | .StarExpr x => mentions x
  | .ArrayType elt => mentions elt
  | .MapType key value => mentions key ++ mentions value
  | .IndexExpr x index => mentions x ++ mentions index
  | .SelectorExpr x _ => mentions x
  | .Other => []

/-- The struct at `s` contains the struct at `s2`: a field type of `s` mentions
it. -/
def containsStruct (store : Store) (s s2 : StructRef) : Prop :=
  ∃ f ∈ store s, s2 ∈ mentions f.type

/-- Every containment chain that starts at `target` has at most `bound` structs. -/
def ChainsBounded (store : Store) (target : StructRef) (bound : Nat) : Prop :=
  ∀ chain : List StructRef, List.Chain' (containsStruct store) chain →
    chain.head? = some target → chain.length ≤ bound

/-- The outcome `a` is the outcome `b`, unless `a` is the recursion budget running
out. -/
def FuelLe {α : Type} (a b : Except Fault α) : Prop :=
  a = .error .outOfFuel ∨ a = b

/-- The struct types of `type A struct { B *B }` (at 0) and `type B struct { A *A }`
(at 1), a cycle through two structs. -/
def cycleStore : Store
  | 0 => [⟨["B"], .StarExpr (structIdent "B" 1)⟩]
  | 1 => [⟨["A"], .StarExpr (structIdent "A" 0)⟩]
  | _ => []

/-- The file that declares `A` and `B`. -/
def cycleFile : List Decl :=
  [.GenDecl .TYPE [.TypeSpec "A" (.StructType 0)],
   .GenDecl .TYPE [.TypeSpec "B" (.StructType 1)]]

/-- No containment cycle is reachable from `target`: no struct that `target` reaches
(in zero or more containment steps) reaches itself in one or more steps. -/
def NoCycleFrom (store : Store) (target : StructRef) : Prop :=
  ∀ s, Relation.ReflTransGen (containsStruct store) target s →
    ¬ Relation.TransGen (containsStruct store) s s

/-- The declaration set has `size` struct types: every struct type a field type
mentions is one of the first `size`. -/
def ClosedBelow (store : Store) (size : Nat) : Prop :=
  ∀ s, ∀ f ∈ store s, ∀ ref ∈ mentions f.type, ref < size

/-- No identifier of the type expression is resolved to a type that something other
than a type spec declares (a type parameter); on such an identifier the assertion
`t.Obj.Decl.(*ast.TypeSpec)` of `fieldTypeToString` panics. -/
def resolvable : Expr → Bool
  | .Ident _ (some ⟨.Typ, .Other⟩) => false
  | .Ident _ _ => true
  | .StarExpr x => resolvable x
  | .ArrayType elt => resolvable elt
  | .MapType key value => resolvable key && resolvable value
  | .IndexExpr x index => resolvable x && resolvable index
  | .SelectorExpr x _ => resolvable x
  | .Other => true

/-- A field the source can render: it has a name, its names are ASCII (where the
embedding of `convertToSnakeCase` agrees with the source), its type is resolvable,
and its type, if a pointer, points to an identifier. -/
def RenderableField (f : Field) : Prop :=
  f.Names ≠ [] ∧ (∀ name ∈ f.Names, IsASCII name) ∧ resolvable f.type = true ∧
    pointsToIdent f = true

instance (f : Field) : Decidable (RenderableField f) := by
  unfold RenderableField; infer_instance

/-- Every field of `target` and of every struct it reaches through containment is
renderable. -/
def RenderableFrom (store : Store) (target : StructRef) : Prop :=
  ∀ s, Relation.ReflTransGen (containsStruct store) target s →
    ∀ f ∈ store s, RenderableField f

/-! # Theorems -/

/-! ## Runes -/

theorem isUpper_iff_toNat (c : Char) : c.isUpper = true ↔ 65 ≤ c.toNat ∧ c.toNat ≤ 90 := by
  simp only [Char.isUpper, Char.toNat, Bool.and_eq_true, decide_eq_true_eq, ge_iff_le]
  exact Iff.rfl

theorem toLower_of_not_isUpper (c : Char) (h : c.isUpper = false) : c.toLower = c := by
  have h2 : ¬ (65 ≤ c.toNat ∧ c.toNat ≤ 90) := by
    rw [← isUpper_iff_toNat]; simp [h]
  simp only [Char.toLower, ge_iff_le]
  rw [if_neg h2]

theorem toLower_not_isUpper (c : Char) (h : c.isUpper = true) :
    c.toLower.isUpper = false := by
  obtain ⟨ha, hb⟩ := (isUpper_iff_toNat c).1 h
  have h3 : c = Char.ofNat c.toNat := (Char.ofNat_toNat c).symm
  generalize c.toNat = n at *
  subst h3
  interval_cases n <;> rfl

/-! ## The scalar table -/

theorem convertTypeToProtobuf_default (s : String) (h : s ∉ scalarTable.map Prod.fst) :
    convertTypeToProtobuf s = s := by
  unfold convertTypeToProtobuf
  split <;> first | rfl | exact absurd (by decide) h

theorem mem_scalarNames (s : String) (h : s ∈ scalarTable.map Prod.fst) :
    s = "int" ∨ s = "uint" ∨ s = "string" ∨ s = "int8" ∨ s = "int16" ∨ s = "int32" ∨
    s = "uint8" ∨ s = "uint16" ∨ s = "uint32" ∨ s = "int64" ∨ s = "uint64" ∨
    s = "float32" ∨ s = "float64" ∨ s = "bool" ∨ s = "time.Time" := by
  simpa [scalarTable, listedScalarTable] using h

theorem tableLookup_default (table : List (String × String)) (s : String)
    (h : s ∉ table.map Prod.fst) : tableLookup table s = s := by
  induction table with
  | nil => rfl
  | cons e rest ih =>
    obtain ⟨k, v⟩ := e
    simp only [List.map_cons, List.mem_cons, not_or] at h
    simp only [tableLookup]
    rw [if_neg (fun hk => h.1 hk.symm)]
    exact ih h.2

theorem convertTypeToProtobuf_eq_lookup (s : String) :
    convertTypeToProtobuf s = tableLookup scalarTable s := by
  by_cases h : s ∈ scalarTable.map Prod.fst
  · rcases mem_scalarNames s h with h | h | h | h | h | h | h | h | h | h | h | h | h | h | h <;>
      subst h <;> rfl
  · rw [convertTypeToProtobuf_default s h, tableLookup_default scalarTable s h]

theorem convertTypeToProtobuf_idem (s : String) :
    convertTypeToProtobuf (convertTypeToProtobuf s) = convertTypeToProtobuf s := by
  by_cases h : s ∈ scalarTable.map Prod.fst
  · rcases mem_scalarNames s h with h | h | h | h | h | h | h | h | h | h | h | h | h | h | h <;>
      subst h <;> rfl
  · rw [convertTypeToProtobuf_default s h, convertTypeToProtobuf_default s h]

/-- C7, as amended: `convertTypeToProtobuf` is the scalar table for every input
string, the table being the listed rows and the rows `int` to `int32` and `uint` to
`uint32`; a string without a row is returned unchanged. -/
theorem C7_convertTypeToProtobuf_table (s : String) :
    convertTypeToProtobuf s = tableLookup scalarTable s ∧
    (s ∉ scalarTable.map Prod.fst → convertTypeToProtobuf s = s) :=
  ⟨convertTypeToProtobuf_eq_lookup s, convertTypeToProtobuf_default s⟩

/-- C7, counterexample: `int` has no row among those listed, so the listed table
returns it unchanged, and `convertTypeToProtobuf` maps it to `int32`; likewise
`uint`. -/
theorem C7_counterexample_int :
    "int" ∉ listedScalarTable.map Prod.fst ∧
    tableLookup listedScalarTable "int" = "int" ∧
    convertTypeToProtobuf "int" = "int32" ∧
    convertTypeToProtobuf "int" ≠ tableLookup listedScalarTable "int" ∧
    convertTypeToProtobuf "uint" ≠ tableLookup listedScalarTable "uint" := by
  decide

/-! ## Snake case -/

theorem snakeStep_eq (prev : Option Char) (c : Char) :
    snakeStep prev c = (if isBoundary (prev, c) then ['_'] else []) ++ [c.toLower] := by
  unfold snakeStep isBoundary
  cases hc : c.isUpper
  · simp [toLower_of_not_isUpper c hc]
  · simp

theorem snakeLoop_eq_reference (text : List Char) (prev : Option Char) :
    snakeLoop prev text =
      ((List.zip (prev :: text.map some) text).map
        (fun p => (if isBoundary p then ['_'] else []) ++ [p.2.toLower])).flatten := by
  induction text generalizing prev with
  | nil => simp [snakeLoop]
  | cons c rest ih =>
    simp only [snakeLoop, List.map_cons, List.zip_cons_cons, List.flatten_cons]
    rw [ih (some c), snakeStep_eq]

theorem length_snakeStep (prev : Option Char) (c : Char) :
    (snakeStep prev c).length = 1 + (if isBoundary (prev, c) then 1 else 0) := by
  rw [snakeStep_eq]
  by_cases h : isBoundary (prev, c) = true <;> simp [h]

theorem length_snakeLoop (text : List Char) (prev : Option Char) :
    (snakeLoop prev text).length =
      text.length + (List.zip (prev :: text.map some) text).countP isBoundary := by
  induction text generalizing prev with
  | nil => simp [snakeLoop]
  | cons c rest ih =>
    simp only [snakeLoop, List.length_append, List.map_cons, List.zip_cons_cons,
      List.length_cons, List.countP_cons]
    rw [ih (some c), length_snakeStep]
    omega

theorem snakeStep_no_upper (prev : Option Char) (c : Char) :
    ∀ x ∈ snakeStep prev c, x.isUpper = false := by
  intro x hx
  unfold snakeStep at hx
  cases hc : c.isUpper
  · simp [hc] at hx
    rw [hx]; exact hc
  · simp only [hc, if_true, List.mem_append, List.mem_singleton] at hx
    rcases hx with hx | hx
    · by_cases hp : prev.any Char.isLower = true
      · simp [hp] at hx
        rw [hx]; rfl
      · simp [hp] at hx
    · rw [hx]; exact toLower_not_isUpper c hc

theorem snakeLoop_no_upper (text : List Char) (prev : Option Char) :
    ∀ x ∈ snakeLoop prev text, x.isUpper = false := by
  induction text generalizing prev with
  | nil => simp [snakeLoop]
  | cons c rest ih =>
    intro x hx
    simp only [snakeLoop, List.mem_append] at hx
    rcases hx with hx | hx
    · exact snakeStep_no_upper prev c x hx
    · exact ih (some c) x hx

theorem snakeLoop_of_no_upper (text : List Char) (prev : Option Char)
    (h : ∀ x ∈ text, x.isUpper = false) : snakeLoop prev text = text := by
  induction text generalizing prev with
  | nil => rfl
  | cons c rest ih =>
    have hc : c.isUpper = false := h c (List.mem_cons_self c rest)
    simp only [snakeLoop, snakeStep, hc, Bool.false_eq_true, if_false, List.singleton_append]
    rw [ih (some c) (fun x hx => h x (List.mem_cons_of_mem c hx))]

theorem convertToSnakeCase_of_no_upper (text : String)
    (h : ∀ x ∈ text.data, x.isUpper = false) : convertToSnakeCase text = text := by
  unfold convertToSnakeCase
  rw [snakeLoop_of_no_upper text.data none h]

theorem convertToSnakeCase_idem (text : String) :
    convertToSnakeCase (convertToSnakeCase text) = convertToSnakeCase text :=
  convertToSnakeCase_of_no_upper _ (snakeLoop_no_upper text.data none)

/-- C9: on ASCII text `convertToSnakeCase` is the reference conversion (every rune
lowercased, one underscore before exactly the uppercase runes that follow a
lowercase rune), so its output is longer than the input by the number of
lowercase-to-uppercase boundaries; `UserID` gives `user_id` and `HTTPStatus` gives
`httpstatus`. -/
theorem C9_convertToSnakeCase_reference (text : String) (hascii : IsASCII text) :
    convertToSnakeCase text = String.mk (snakeReference text.data) ∧
    (convertToSnakeCase text).length = text.length + boundaryCount text.data ∧
    convertToSnakeCase "UserID" = "user_id" ∧
    convertToSnakeCase "HTTPStatus" = "httpstatus" := by
  refine ⟨?_, ?_, by decide, by decide⟩
  · unfold convertToSnakeCase snakeReference withPrevious
    rw [snakeLoop_eq_reference]
  · unfold convertToSnakeCase boundaryCount withPrevious
    show (snakeLoop none text.data).length = _
    rw [length_snakeLoop]
    rfl

/-- C9 at `getUserID`: two boundaries, two underscores, length 9 + 2. -/
theorem C9_witness :
    IsASCII "getUserID" ∧
    convertToSnakeCase "getUserID" = String.mk (snakeReference "getUserID".data) ∧
    (convertToSnakeCase "getUserID").length = "getUserID".length + 2 ∧
    convertToSnakeCase "getUserID" = "get_user_id" :=
  ⟨by decide, (C9_convertToSnakeCase_reference "getUserID" (by decide)).1,
   (C9_convertToSnakeCase_reference "getUserID" (by decide)).2.1, by decide⟩

/-- C10: on ASCII text `convertToSnakeCase` is idempotent, and a text without an
uppercase letter is returned unchanged. -/
theorem C10_convertToSnakeCase_idempotent (text : String) (hascii : IsASCII text) :
    convertToSnakeCase (convertToSnakeCase text) = convertToSnakeCase text ∧
    ((∀ c ∈ text.data, c.isUpper = false) → convertToSnakeCase text = text) :=
  ⟨convertToSnakeCase_idem text, convertToSnakeCase_of_no_upper text⟩

/-- C10 at `HTTPStatus` and at the snake-case name `user_id`. -/
theorem C10_witness :
    IsASCII "HTTPStatus" ∧
    convertToSnakeCase (convertToSnakeCase "HTTPStatus") = convertToSnakeCase "HTTPStatus" ∧
    convertToSnakeCase "user_id" = "user_id" :=
  ⟨by decide, (C10_convertToSnakeCase_idempotent "HTTPStatus" (by decide)).1,
   (C10_convertToSnakeCase_idempotent "user_id" (by decide)).2 (by decide)⟩

/-! ## Resolution of plain names and of the optional wrapper -/

theorem getFieldNames_eq (names : List String) : getFieldNames names = names := by
  unfold getFieldNames
  have h : ∀ (acc l : List String),
      List.foldl (fun fieldNames name => fieldNames ++ [name]) acc l = acc ++ l := by
    intro acc l
    induction l generalizing acc with
    | nil => simp
    | cons a l ih => simp [ih]
  simpa using h [] names

theorem append_ne_empty_of_ne (a b : String) (h : a ≠ "") : a ++ b ≠ "" := by
  intro hab
  apply h
  have h1 : (a ++ b).data = [] := by rw [hab]
  rw [String.data_append] at h1
  have h2 : a.data = [] := (List.append_eq_nil.1 h1).1
  exact String.ext h2

theorem plainTypeName_ne_empty (t : Expr) (name : String) (h : plainTypeName t = some name) :
    name ≠ "" := by
  unfold plainTypeName at h
  split at h
  · split at h
    · exact absurd h (by simp)
    · rename_i hne
      simp only [Option.some.injEq] at h
      rw [← h]; exact hne
  · split at h
    · exact absurd h (by simp)
    · rename_i hne
      simp only [Option.some.injEq] at h
      rw [← h]
      simp only [not_or] at hne
      rw [String.append_assoc]
      exact append_ne_empty_of_ne _ _ hne.1
  · exact absurd h (by simp)

theorem resolve_plain (gen : String → StructRef → Nat → Except Fault String) (t : Expr)
    (name : String) (h : plainTypeName t = some name) (depth : Nat) :
    fieldTypeToStringWith gen t depth = .ok name := by
  unfold plainTypeName at h
  split at h
  · split at h
    · exact absurd h (by simp)
    · simp only [Option.some.injEq] at h
      rw [← h]; simp [fieldTypeToStringWith]
  · rename_i pkg sel
    split at h
    · exact absurd h (by simp)
    · rename_i hne
      simp only [not_or] at hne
      simp only [Option.some.injEq] at h
      rw [← h]
      unfold fieldTypeToStringWith
      split
      · rename_i heq
        simp only [Expr.Ident.injEq] at heq
        exact absurd heq.1 hne.2
      · simp [fieldTypeToStringWith, hne.1]
  · exact absurd h (by simp)

theorem resolve_optOf (gen : String → StructRef → Nat → Except Fault String) (t : Expr)
    (name : String) (h : plainTypeName t = some name) (depth : Nat) :
    fieldTypeToStringWith gen (optOf t) depth = .ok (convertTypeToProtobuf name) := by
  unfold optOf
  unfold fieldTypeToStringWith
  simp [isOptSelector, resolve_plain gen t name h 0, plainTypeName_ne_empty t name h]

theorem ungroupedLine_plain (resolve : Expr → Nat → Except Fault String) (depth : Nat)
    (names : List String) (t : Expr) (name ty : String) (n : Nat)
    (h : plainTypeName t = some name) (hr : resolve t depth = .ok ty) :
    ungroupedLine resolve depth ⟨names, t⟩ n =
      .ok (fieldLine ((depth + 1) * 2) (convertTypeToProtobuf ty) names n) := by
  unfold plainTypeName at h
  split at h
  · simp [ungroupedLine, hr, getFieldNames_eq]
  · simp [ungroupedLine, hr, getFieldNames_eq]
  · exact absurd h (by simp)

theorem resolve_declared (gen : String → StructRef → Nat → Except Fault String)
    (name : String) (depth : Nat) :
    fieldTypeToStringWith gen (declaredIdent name) depth = .ok name := by
  simp [declaredIdent, fieldTypeToStringWith]

theorem resolve_optOf_declared (gen : String → StructRef → Nat → Except Fault String)
    (name : String) (hne : name ≠ "") (depth : Nat) :
    fieldTypeToStringWith gen (optOf (declaredIdent name)) depth
      = .ok (convertTypeToProtobuf name) := by
  unfold optOf
  unfold fieldTypeToStringWith
  simp [isOptSelector, resolve_declared gen name 0, hne]

theorem opaqueTypeName_cases (t : Expr) (name : String) (declared : Bool)
    (h : opaqueTypeName t = some (name, declared)) :
    (declared = true ∧ t = declaredIdent name ∧ name ≠ "") ∨
    (declared = false ∧ plainTypeName t = some name) := by
  unfold opaqueTypeName at h
  split at h
  · split at h
    · cases h
    · rename_i hne
      simp only [Option.some.injEq, Prod.mk.injEq] at h
      obtain ⟨h1, h2⟩ := h
      subst h1
      exact Or.inl ⟨h2.symm, rfl, hne⟩
  · cases hp : plainTypeName t with
    | none => rw [hp] at h; cases h
    | some plain =>
      rw [hp] at h
      simp only [Option.map_some', Option.some.injEq, Prod.mk.injEq] at h
      exact Or.inr ⟨h.2.symm, by rw [h.1]⟩

theorem fieldLine_token_inj (indent : Nat) (a b : String) (names : List String) (n : Nat) :
    fieldLine indent a names n = fieldLine indent b names n ↔ a = b := by
  constructor
  · intro h
    have hd := congrArg String.data h
    simp only [fieldLine, String.data_append, List.append_assoc] at hd
    have h1 := List.append_cancel_left hd
    have h2 := List.append_cancel_right h1
    exact String.ext h2
  · intro h
    rw [h]

/-- C8: for an inner type `t` that is a primitive or an opaque name, `t` resolves
to its name and `opt.Opt[t]` to the scalar-table mapping of the name, and the entry
of a field of type `opt.Opt[t]` among the ungrouped fields is one field line whose
type token is that mapping.  When the file does not declare `t`, a field of type
`t` gets the very same entry.  When the file declares `t` (as a type that is not a
struct), the entry of a field of type `t` is a line carrying the mapping followed by
a field line whose type token is the name of `t` itself, so that the two field
lines are the same exactly when the scalar table leaves the name unchanged.  Inside
a group both fields get the same line, with the mapping as its type token.
Applying `convertTypeToProtobuf` twice is applying it once. -/
theorem C8_opt_wrapper_transparent (rt : Runtime) (store : Store) (fuel : Nat)
    (threshold : Int) (t : Expr) (name : String) (declared : Bool)
    (hinner : opaqueTypeName t = some (name, declared))
    (depth : Nat) (names : List String) (n : Nat) :
    fieldTypeToString rt store fuel t depth threshold = .ok name ∧
    fieldTypeToString rt store fuel (optOf t) depth threshold
      = .ok (convertTypeToProtobuf name) ∧
    ungroupedLine (fun e d => fieldTypeToString rt store fuel e d threshold) depth
        ⟨names, optOf t⟩ n
      = .ok (fieldLine ((depth + 1) * 2) (convertTypeToProtobuf name) names n) ∧
    ungroupedLine (fun e d => fieldTypeToString rt store fuel e d threshold) depth
        ⟨names, t⟩ n
      = .ok (if declared then
          spaces ((depth + 1) * 2) ++ convertTypeToProtobuf name ++ "\n"
            ++ fieldLine ((depth + 1) * 2) name names n
        else fieldLine ((depth + 1) * 2) (convertTypeToProtobuf name) names n) ∧
    (declared = false →
      ungroupedLine (fun e d => fieldTypeToString rt store fuel e d threshold) depth
          ⟨names, optOf t⟩ n
        = ungroupedLine (fun e d => fieldTypeToString rt store fuel e d threshold) depth
          ⟨names, t⟩ n) ∧
    (fieldLine ((depth + 1) * 2) (convertTypeToProtobuf name) names n
        = fieldLine ((depth + 1) * 2) name names n ↔ convertTypeToProtobuf name = name) ∧
    groupedLine (fun e d => fieldTypeToString rt store fuel e d threshold) depth
        ⟨names, optOf t⟩ n
      = groupedLine (fun e d => fieldTypeToString rt store fuel e d threshold) depth
        ⟨names, t⟩ n ∧
    groupedLine (fun e d => fieldTypeToString rt store fuel e d threshold) depth
        ⟨names, t⟩ n
      = .ok (fieldLine ((depth + 2) * 2) (convertTypeToProtobuf name) names (n + 1)) ∧
    (∀ s, convertTypeToProtobuf (convertTypeToProtobuf s) = convertTypeToProtobuf s) := by
  have hwrapped : ∀ ty, fieldTypeToString rt store fuel (optOf t) depth threshold = .ok ty →
      ungroupedLine (fun e d => fieldTypeToString rt store fuel e d threshold) depth
        ⟨names, optOf t⟩ n = .ok (fieldLine ((depth + 1) * 2) (convertTypeToProtobuf ty) names n) := by
    intro ty hty
    simp only [optOf] at hty
    simp only [ungroupedLine, optOf, hty, getFieldNames_eq]
  rcases opaqueTypeName_cases t name declared hinner with ⟨hd, ht, hne⟩ | ⟨hd, hplain⟩
  · subst hd ht
    have h1 : fieldTypeToString rt store fuel (declaredIdent name) depth threshold = .ok name :=
      resolve_declared _ name depth
    have h2 : fieldTypeToString rt store fuel (optOf (declaredIdent name)) depth threshold
        = .ok (convertTypeToProtobuf name) := resolve_optOf_declared _ name hne depth
    refine ⟨h1, h2, ?_, ?_, fun h => absurd h (by decide), fieldLine_token_inj _ _ _ _ _, ?_, ?_,
      convertTypeToProtobuf_idem⟩
    · rw [hwrapped _ h2, convertTypeToProtobuf_idem]
    · simp only [ungroupedLine, h1, getFieldNames_eq, declaredIdent, nestedFieldLine,
        Option.isNone_some, if_true]
      rfl
    · simp only [groupedLine, h1, h2, getFieldNames_eq, convertTypeToProtobuf_idem]
    · simp only [groupedLine, h1, getFieldNames_eq]
  · subst hd
    have h1 : fieldTypeToString rt store fuel t depth threshold = .ok name :=
      resolve_plain _ t name hplain depth
    have h2 : fieldTypeToString rt store fuel (optOf t) depth threshold
        = .ok (convertTypeToProtobuf name) := resolve_optOf _ t name hplain depth
    have h3 : ungroupedLine (fun e d => fieldTypeToString rt store fuel e d threshold) depth
        ⟨names, t⟩ n = .ok (fieldLine ((depth + 1) * 2) (convertTypeToProtobuf name) names n) :=
      ungroupedLine_plain _ depth names t name name n hplain h1
    have h4 := hwrapped _ h2
    rw [convertTypeToProtobuf_idem] at h4
    refine ⟨h1, h2, h4, by simpa using h3, fun _ => h4.trans h3.symm,
      fieldLine_token_inj _ _ _ _ _, ?_, ?_, convertTypeToProtobuf_idem⟩
    · simp only [groupedLine, h1, h2, getFieldNames_eq, convertTypeToProtobuf_idem]
    · simp only [groupedLine, h1, getFieldNames_eq]

/-- C8 at `opt.Opt[float32]` and `float32`, where both fields get the line with the
type `double`, and at `opt.Opt[MyInt]` and `MyInt` after `type MyInt int`, where
the field lines of the two entries are the same. -/
theorem C8_witness :
    opaqueTypeName (prim "float32") = some ("float32", false) ∧
    ungroupedLine (fun e d => fieldTypeToString goRuntime exampleStore 1 e d 3) 0
        ⟨["Ratio"], optOf (prim "float32")⟩ 2 = .ok "  double ratio = 2;" ∧
    ungroupedLine (fun e d => fieldTypeToString goRuntime exampleStore 1 e d 3) 0
        ⟨["Ratio"], prim "float32"⟩ 2 = .ok "  double ratio = 2;" ∧
    opaqueTypeName (declaredIdent "MyInt") = some ("MyInt", true) ∧
    ungroupedLine (fun e d => fieldTypeToString goRuntime exampleStore 1 e d 3) 0
        ⟨["X"], optOf (declaredIdent "MyInt")⟩ 1 = .ok "  MyInt x = 1;" ∧
    ungroupedLine (fun e d => fieldTypeToString goRuntime exampleStore 1 e d 3) 0
        ⟨["X"], declaredIdent "MyInt"⟩ 1 = .ok ("  MyInt" ++ "\n" ++ "  MyInt x = 1;") :=
  ⟨rfl,
   ((C8_opt_wrapper_transparent goRuntime exampleStore 1 3 (prim "float32") "float32" false rfl
      0 ["Ratio"] 2).2.2.1).trans (by rfl),
   by rfl,
   rfl,
   ((C8_opt_wrapper_transparent goRuntime exampleStore 1 3 (declaredIdent "MyInt") "MyInt" true
      rfl 0 ["X"] 1).2.2.1).trans (by rfl),
   ((C8_opt_wrapper_transparent goRuntime exampleStore 1 3 (declaredIdent "MyInt") "MyInt" true
      rfl 0 ["X"] 1).2.2.2.1).trans (by rfl)⟩

/-- C8 fails for an inner type the file declares under a name the scalar table
maps, as `int16` after `type int16 int`: the field of type `opt.Opt[int16]` gets
the type token `int32`, the field line of the field of type `int16` the type token
`int16`.  And after `type MyInt int` the field of type `MyInt` gets two lines where
the field of type `opt.Opt[MyInt]` gets one. -/
theorem C8_counterexample_declared :
    opaqueTypeName (declaredIdent "int16") = some ("int16", true) ∧
    ungroupedLine (fun e d => fieldTypeToString goRuntime exampleStore 1 e d maxInt) 0
        ⟨["X"], optOf (declaredIdent "int16")⟩ 1 = .ok "  int32 x = 1;" ∧
    ungroupedLine (fun e d => fieldTypeToString goRuntime exampleStore 1 e d maxInt) 0
        ⟨["X"], declaredIdent "int16"⟩ 1 = .ok "  int32\n  int16 x = 1;" ∧
    opaqueTypeName (declaredIdent "MyInt") = some ("MyInt", true) ∧
    ungroupedLine (fun e d => fieldTypeToString goRuntime exampleStore 1 e d maxInt) 0
        ⟨["X"], optOf (declaredIdent "MyInt")⟩ 1 = .ok "  MyInt x = 1;" ∧
    ungroupedLine (fun e d => fieldTypeToString goRuntime exampleStore 1 e d maxInt) 0
        ⟨["X"], declaredIdent "MyInt"⟩ 1 = .ok "  MyInt\n  MyInt x = 1;" := by
  refine ⟨rfl, by rfl, by rfl, rfl, by rfl, by rfl⟩

/-- C6, the source at `type Stats struct { Count int; Counts []int }`: the field of
type `int` is emitted as `int32`, the field of type `[]int` as `repeated int`. The
element type of the slice does not go through the scalar table, because the table
is applied to the whole text `repeated int`, which has no row. -/
theorem C6_slice_element_not_mapped :
    fieldTypeToString goRuntime statsStore 1 (.ArrayType (prim "int")) 0 maxInt
      = .ok "repeated int" ∧
    convertTypeToProtobuf "repeated int" = "repeated int" ∧
    convertTypeToProtobuf "int" = "int32" ∧
    generateProtobufStruct goRuntime statsStore 1 "Stats" 0 0 maxInt
      = .ok "message Stats \x7b\n  int32 count = 1;\n  repeated int counts = 2;\n\x7d" := by
  refine ⟨by rfl, by decide, by decide, by rfl⟩

/-! ## The recursion guard -/

theorem findInSpecs_eq_locate (rt : Runtime) (store : Store) (fuel : Nat) (structName : String)
    (depth : Nat) (threshold : Int) (specs : List Spec) :
    findInSpecs rt store fuel structName depth threshold specs =
      (locateInSpecs structName specs).map
        (guardThenGenerate rt store fuel structName depth threshold) := by
  induction specs with
  | nil => rfl
  | cons sp rest ih =>
    cases sp with
    | Other => simpa [findInSpecs, locateInSpecs] using ih
    | TypeSpec name ty =>
      cases ty with
      | Other => simpa [findInSpecs, locateInSpecs] using ih
      | StructType ref =>
        by_cases hn : name = structName
        · simp only [findInSpecs, locateInSpecs, hn, if_true, Option.map_some', guardThenGenerate]
          split <;> simp_all
        · simpa [findInSpecs, locateInSpecs, hn] using ih

theorem findInDecls_eq_locate (rt : Runtime) (store : Store) (fuel : Nat) (structName : String)
    (depth : Nat) (threshold : Int) (decls : List Decl) :
    findInDecls rt store fuel structName depth threshold decls =
      (locateStruct structName decls).map
        (guardThenGenerate rt store fuel structName depth threshold) := by
  induction decls with
  | nil => rfl
  | cons d rest ih =>
    cases d with
    | Other => simpa [findInDecls, locateStruct] using ih
    | GenDecl tok specs =>
      cases tok <;> try (simpa [findInDecls, locateStruct] using ih)
      simp only [findInDecls, locateStruct, findInSpecs_eq_locate]
      cases h : locateInSpecs structName specs with
      | none => simpa using ih
      | some ref => simp

theorem checkRecursiveLoop_none (target : String) (fields : List Field)
    (hptr : ∀ f ∈ fields, pointsToIdent f = true)
    (hnone : fields.find? (isPointerTo target) = none) :
    checkRecursiveLoop target fields = .ok (false, "") := by
  induction fields with
  | nil => rfl
  | cons f rest ih =>
    have hf : isPointerTo target f = false := by
      cases h : isPointerTo target f
      · rfl
      · simp [List.find?, h] at hnone
    have hrest : rest.find? (isPointerTo target) = none := by
      simpa [List.find?, hf] using hnone
    have hp := hptr f (List.mem_cons_self f rest)
    have ih2 := ih (fun g hg => hptr g (List.mem_cons_of_mem f hg)) hrest
    obtain ⟨names, ty⟩ := f
    cases ty with
    | StarExpr x =>
      cases x with
      | Ident name obj =>
        have hne : ¬ name = target := by simpa [isPointerTo] using hf
        simp only [checkRecursiveLoop, if_neg hne]
        exact ih2
      | _ => simp [pointsToIdent] at hp
    | _ => simpa [checkRecursiveLoop] using ih2

theorem checkRecursiveLoop_some (target : String) (fields : List Field) (f : Field)
    (hptr : ∀ g ∈ fields, pointsToIdent g = true)
    (hsome : fields.find? (isPointerTo target) = some f) :
    checkRecursiveLoop target fields =
      (match firstName f with
       | .error e => .error e
       | .ok fieldName => .ok (true, fieldName)) := by
  induction fields with
  | nil => simp at hsome
  | cons g rest ih =>
    have hp := hptr g (List.mem_cons_self g rest)
    by_cases hg : isPointerTo target g = true
    · have hfg : g = f := by simpa [List.find?, hg] using hsome
      subst hfg
      obtain ⟨names, ty⟩ := g
      cases ty with
      | StarExpr x =>
        cases x with
        | Ident name obj =>
          have hname : name = target := by simpa [isPointerTo] using hg
          simp only [checkRecursiveLoop, hname, if_true]
        | _ => simp [isPointerTo] at hg
      | _ => simp [isPointerTo] at hg
    · have hg2 : isPointerTo target g = false := by simpa using hg
      have hrest : rest.find? (isPointerTo target) = some f := by
        simpa [List.find?, hg2] using hsome
      have ih2 := ih (fun k hk => hptr k (List.mem_cons_of_mem g hk)) hrest
      obtain ⟨names, ty⟩ := g
      cases ty with
      | StarExpr x =>
        cases x with
        | Ident name obj =>
          have hne : ¬ name = target := by simpa [isPointerTo] using hg2
          simp only [checkRecursiveLoop, if_neg hne]
          exact ih2
        | _ => simp [pointsToIdent] at hp
      | _ => simpa [checkRecursiveLoop] using ih2

theorem firstName_of_names (f : Field) (h : f.Names ≠ []) :
    firstName f = .ok (firstNameD f) := by
  obtain ⟨names, ty⟩ := f
  cases names with
  | nil => exact absurd rfl h
  | cons a l => rfl

theorem generateProtobufDefinition_located (rt : Runtime) (store : Store) (fuel : Nat)
    (decls : List Decl) (structName : String) (depth : Nat) (threshold : Int)
    (structType : StructRef) (hthr : threshold ≠ 0)
    (hloc : locateStruct structName decls = some structType) :
    generateProtobufDefinition rt store fuel (some decls) structName depth threshold =
      (match guardThenGenerate rt store fuel structName depth threshold structType with
       | .error e => .error e
       | .ok text => .ok (.ok text)) := by
  simp only [generateProtobufDefinition, if_neg hthr, findInDecls_eq_locate, hloc,
    Option.map_some']
  cases guardThenGenerate rt store fuel structName depth threshold structType <;> rfl

/-- C2, as amended: for a target struct `T` whose pointer-typed direct fields all
point to a plain identifier and whose first field of type pointer-to-`T`, if there
is one, has a name, `checkRecursiveStruct` returns `(true, name)` exactly when some
direct field has the type pointer-to-`T`, `name` being the first name of the first
such field, and `(false, "")` otherwise; and when it returns true for the located
struct, `generateProtobufDefinition` (threshold not 0) ends in the self-reference
panic, with no text. -/
theorem C2_checkRecursiveStruct (store : Store) (structType : StructRef) (target : String)
    (hptr : ∀ f ∈ store structType, pointsToIdent f = true)
    (hnamed : ∀ f, (store structType).find? (isPointerTo target) = some f → f.Names ≠ []) :
    (∀ f, (store structType).find? (isPointerTo target) = some f →
      checkRecursiveStruct store structType target = .ok (true, firstNameD f)) ∧
    ((store structType).find? (isPointerTo target) = none →
      checkRecursiveStruct store structType target = .ok (false, "")) ∧
    ((∃ name, checkRecursiveStruct store structType target = .ok (true, name)) ↔
      ∃ f ∈ store structType, isPointerTo target f = true) ∧
    (∀ (rt : Runtime) (fuel : Nat) (decls : List Decl) (depth : Nat) (threshold : Int)
      (name : String), threshold ≠ 0 → locateStruct target decls = some structType →
      checkRecursiveStruct store structType target = .ok (true, name) →
      generateProtobufDefinition rt store fuel (some decls) target depth threshold
        = .error (.recursionPanic name)) := by
  have hsome : ∀ f, (store structType).find? (isPointerTo target) = some f →
      checkRecursiveStruct store structType target = .ok (true, firstNameD f) := by
    intro f hf
    unfold checkRecursiveStruct checkRecursiveStructRecursive
    rw [checkRecursiveLoop_some target _ f hptr hf, firstName_of_names f (hnamed f hf)]
  have hnone : (store structType).find? (isPointerTo target) = none →
      checkRecursiveStruct store structType target = .ok (false, "") := by
    intro hf
    unfold checkRecursiveStruct checkRecursiveStructRecursive
    exact checkRecursiveLoop_none target _ hptr hf
  refine ⟨hsome, hnone, ?_, ?_⟩
  · constructor
    · rintro ⟨name, hname⟩
      cases hfind : (store structType).find? (isPointerTo target) with
      | none =>
        rw [hnone hfind] at hname
        simp at hname
      | some f =>
        exact ⟨f, List.mem_of_find?_eq_some hfind, List.find?_some hfind⟩
    · rintro ⟨f, hf, hpf⟩
      cases hfind : (store structType).find? (isPointerTo target) with
      | none =>
        rw [List.find?_eq_none] at hfind
        exact absurd hpf (hfind f hf)
      | some g => exact ⟨firstNameD g, hsome g hfind⟩
  · intro rt fuel decls depth threshold name hthr hloc hcheck
    rw [generateProtobufDefinition_located rt store fuel decls target depth threshold
      structType hthr hloc]
    simp only [guardThenGenerate, hcheck]

/-- C2 at `MyStructRecursive` of the test data: the guard names the field `Nested`,
and `generateProtobufDefinition` ends in the self-reference panic. -/
theorem C2_witness :
    (∀ f ∈ exampleStore 2, pointsToIdent f = true) ∧
    checkRecursiveStruct exampleStore 2 "MyStructRecursive" = .ok (true, "Nested") ∧
    generateProtobufDefinition goRuntime exampleStore 2 (some exampleFile)
      "MyStructRecursive" 0 maxInt = .error (.recursionPanic "Nested") := by
  have hptr : ∀ f ∈ exampleStore 2, pointsToIdent f = true := by decide
  have hfind : (exampleStore 2).find? (isPointerTo "MyStructRecursive") =
      some ⟨["Nested"], .StarExpr (structIdent "MyStructRecursive" 2)⟩ := by rfl
  have hnamed : ∀ f, (exampleStore 2).find? (isPointerTo "MyStructRecursive") = some f →
      f.Names ≠ [] := by
    intro f hf
    rw [hfind] at hf
    cases hf
    simp
  have h := C2_checkRecursiveStruct exampleStore 2 "MyStructRecursive" hptr hnamed
  have h1 : checkRecursiveStruct exampleStore 2 "MyStructRecursive" = .ok (true, "Nested") :=
    h.1 _ hfind
  exact ⟨hptr, h1,
    h.2.2.2 goRuntime 2 exampleFile 0 maxInt "Nested" (by decide) (by rfl) h1⟩

/-- C2, counterexample: in `type T struct { *T }` the only pointer-typed field
points to the plain identifier `T` and has the type pointer-to-`T`, yet
`checkRecursiveStruct` returns nothing: `field.Names[0]` is out of range for the
embedded field. -/
theorem C2_counterexample_embedded :
    (∀ f ∈ embeddedSelfStore 0, pointsToIdent f = true) ∧
    (∃ f ∈ embeddedSelfStore 0, isPointerTo "T" f = true) ∧
    checkRecursiveStruct embeddedSelfStore 0 "T" = .error .runtimePanic ∧
    ¬ ∃ r, checkRecursiveStruct embeddedSelfStore 0 "T" = .ok r := by
  refine ⟨by decide, ⟨⟨[], .StarExpr (structIdent "T" 0)⟩, by decide, by decide⟩, by rfl, ?_⟩
  rintro ⟨r, hr⟩
  have h : checkRecursiveStruct embeddedSelfStore 0 "T" = .error .runtimePanic := by rfl
  rw [h] at hr
  cases hr

/-! ## The map of groups -/

theorem Groups.get_set (groups : Groups) (key key2 : String) (value : List Field) :
    (groups.set key value).get key2 = if key = key2 then value else groups.get key2 := by
  induction groups with
  | nil => simp [Groups.set, Groups.get]
  | cons e rest ih =>
    obtain ⟨k, v⟩ := e
    by_cases hk : k = key
    · subst hk
      simp only [Groups.set, if_true, Groups.get]
      by_cases hk2 : k = key2 <;> simp [hk2]
    · simp only [Groups.set, if_neg hk, Groups.get, ih]
      by_cases hk2 : k = key2
      · subst hk2
        simp [Ne.symm hk]
      · simp [hk2]

theorem Groups.mem_keys_set (groups : Groups) (key key2 : String) (value : List Field) :
    key2 ∈ (groups.set key value).keys ↔ key2 = key ∨ key2 ∈ groups.keys := by
  induction groups with
  | nil => simp [Groups.set, Groups.keys]
  | cons e rest ih =>
    obtain ⟨k, v⟩ := e
    by_cases hk : k = key
    · subst hk
      simp [Groups.set, Groups.keys]
    · simp only [Groups.keys] at ih
      simp only [Groups.set, if_neg hk, Groups.keys, List.map_cons, List.mem_cons, ih]
      tauto

theorem Groups.nodup_keys_set (groups : Groups) (key : String) (value : List Field)
    (h : groups.keys.Nodup) : (groups.set key value).keys.Nodup := by
  induction groups with
  | nil => simp [Groups.set, Groups.keys]
  | cons e rest ih =>
    obtain ⟨k, v⟩ := e
    simp only [Groups.keys, List.map_cons, List.nodup_cons] at h
    by_cases hk : k = key
    · subst hk
      simp only [Groups.set, if_true, Groups.keys, List.map_cons, List.nodup_cons]
      exact h
    · simp only [Groups.set, if_neg hk]
      have h2 := ih h.2
      have h3 : k ∉ (Groups.set rest key value).keys := by
        rw [Groups.mem_keys_set]
        intro h4
        rcases h4 with h4 | h4
        · exact hk h4
        · exact h.1 h4
      simp only [Groups.keys, List.map_cons, List.nodup_cons]
      exact ⟨h3, h2⟩

theorem Groups.get_delete (groups : Groups) (key key2 : String) :
    (groups.delete key).get key2 = if key2 = key then [] else groups.get key2 := by
  induction groups with
  | nil => simp [Groups.delete, Groups.get]
  | cons e rest ih =>
    obtain ⟨k, v⟩ := e
    simp only [Groups.delete] at ih
    by_cases hk : k = key
    · subst hk
      simp only [Groups.delete, List.filter, ne_eq, not_true_eq_false, decide_False, Groups.get]
      rw [ih]
      by_cases hk2 : key2 = k
      · simp [hk2]
      · simp [hk2, Ne.symm hk2]
    · simp only [Groups.delete, List.filter, ne_eq, hk, not_false_eq_true, decide_True,
        Groups.get]
      rw [ih]
      by_cases hk2 : k = key2
      · subst hk2
        simp [hk]
      · simp [hk2]

theorem Groups.mem_keys_delete (groups : Groups) (key key2 : String) :
    key2 ∈ (groups.delete key).keys ↔ key2 ∈ groups.keys ∧ key2 ≠ key := by
  simp only [Groups.delete, Groups.keys, List.mem_map, List.mem_filter, Prod.exists,
    decide_eq_true_eq]
  constructor
  · rintro ⟨a, b, ⟨hmem, hne⟩, rfl⟩
    exact ⟨⟨a, b, hmem, rfl⟩, hne⟩
  · rintro ⟨⟨a, b, hmem, rfl⟩, hne⟩
    exact ⟨a, b, ⟨hmem, hne⟩, rfl⟩

theorem Groups.nodup_keys_delete (groups : Groups) (key : String)
    (h : groups.keys.Nodup) : (groups.delete key).keys.Nodup := by
  unfold Groups.keys Groups.delete
  unfold Groups.keys at h
  exact (List.Nodup.sublist ((List.filter_sublist groups).map Prod.fst) h)

theorem Groups.get_of_not_mem (groups : Groups) (key : String) (h : key ∉ groups.keys) :
    groups.get key = [] := by
  induction groups with
  | nil => rfl
  | cons e rest ih =>
    obtain ⟨k, v⟩ := e
    simp only [Groups.keys, List.map_cons, List.mem_cons, not_or] at h
    simp only [Groups.get, if_neg (Ne.symm h.1)]
    exact ih h.2

/-! ## The two loops of the grouper -/

theorem groupLoop_step (threshold : Int) (hg : 0 ≤ threshold) (field : Field)
    (hname : field.Names ≠ []) (rest : List Field) (groups : Groups) (ungrouped : List Field) :
    groupLoop threshold (field :: rest) groups ungrouped =
      (match groupKey threshold.toNat field with
       | some group =>
         groupLoop threshold rest (groups.set group (groups.get group ++ [field])) ungrouped
       | none => groupLoop threshold rest groups (ungrouped ++ [field])) := by
  have hfirst := firstName_of_names field hname
  have hcond : ((findAllPascal (firstNameD field).data).length : Int) ≥ threshold ↔
      threshold.toNat ≤ (tokensOf field).length := by
    unfold tokensOf
    omega
  by_cases hc : threshold.toNat ≤ (tokensOf field).length
  · have hc2 := hcond.2 hc
    have hneg : ¬ threshold < 0 := by omega
    have hc3 : threshold.toNat ≤ (findAllPascal (firstNameD field).data).length := hc
    simp only [groupLoop, hfirst, hc2, if_true, if_neg hneg, groupKey, tokensOf, if_pos hc3]
  · have hc2 : ¬ ((findAllPascal (firstNameD field).data).length : Int) ≥ threshold :=
      fun h => hc (hcond.1 h)
    have hc3 : ¬ threshold.toNat ≤ (findAllPascal (firstNameD field).data).length := hc
    simp only [groupLoop, hfirst, if_neg hc2, groupKey, tokensOf, if_neg hc3]

theorem groupLoop_spec (threshold : Int) (hg : 0 ≤ threshold) (fields : List Field)
    (hnames : ∀ f ∈ fields, f.Names ≠ []) (groups : Groups) (ungrouped : List Field) :
    ∃ grown : Groups,
      groupLoop threshold fields groups ungrouped
        = .ok (grown, ungrouped ++ shortOf threshold.toNat fields) ∧
      (∀ key, grown.get key = groups.get key ++ membersOf threshold.toNat fields key) ∧
      (∀ key, key ∈ grown.keys ↔
        key ∈ groups.keys ∨ ∃ f ∈ fields, groupKey threshold.toNat f = some key) ∧
      (groups.keys.Nodup → grown.keys.Nodup) := by
  induction fields generalizing groups ungrouped with
  | nil =>
    refine ⟨groups, ?_, ?_, ?_, fun h => h⟩
    · simp [groupLoop, shortOf]
    · intro key; simp [membersOf]
    · intro key; simp
  | cons f rest ih =>
    have hf := hnames f (List.mem_cons_self f rest)
    have hrest : ∀ g ∈ rest, g.Names ≠ [] := fun g hg2 => hnames g (List.mem_cons_of_mem f hg2)
    rw [groupLoop_step threshold hg f hf]
    cases hkey : groupKey threshold.toNat f with
    | none =>
      obtain ⟨grown, h1, h2, h3, h4⟩ := ih hrest groups (ungrouped ++ [f])
      refine ⟨grown, ?_, ?_, ?_, h4⟩
      · simp only [h1, shortOf, List.filter_cons, hkey, decide_True, if_true,
          List.append_assoc, List.singleton_append]
      · intro key
        rw [h2 key]
        simp [membersOf, List.filter_cons, hkey]
      · intro key
        rw [h3 key]
        simp [hkey]
    | some group =>
      obtain ⟨grown, h1, h2, h3, h4⟩ :=
        ih hrest (groups.set group (groups.get group ++ [f])) ungrouped
      refine ⟨grown, ?_, ?_, ?_, ?_⟩
      · simp only [h1, shortOf, List.filter_cons, hkey]
        simp
      · intro key
        rw [h2 key, Groups.get_set]
        by_cases hk : group = key
        · subst hk
          simp [membersOf, List.filter_cons, hkey]
        · have hk2 : ¬ (some group = some key) := by simpa using hk
          simp [membersOf, List.filter_cons, hkey, hk, hk2]
      · intro key
        rw [h3 key, Groups.mem_keys_set]
        simp only [List.mem_cons, exists_eq_or_imp, hkey, Option.some.injEq]
        constructor
        · rintro ((h | h) | h)
          · exact Or.inr (Or.inl h.symm)
          · exact Or.inl h
          · exact Or.inr (Or.inr h)
        · rintro (h | h | h)
          · exact Or.inl (Or.inr h)
          · exact Or.inl (Or.inl h.symm)
          · exact Or.inr h
      · intro hnd
        exact h4 (Groups.nodup_keys_set groups group _ hnd)

theorem dissolveLoop_step (group : String) (rest : List String) (groups : Groups)
    (ungrouped : List Field) :
    dissolveLoop (group :: rest) groups ungrouped =
      if (groups.get group).length = 1 then
        dissolveLoop rest (groups.delete group) (ungrouped ++ groups.get group)
      else dissolveLoop rest groups ungrouped := by
  cases h : groups.get group with
  | nil => simp [dissolveLoop, h]
  | cons a l =>
    cases l with
    | nil => simp [dissolveLoop, h]
    | cons b l2 => simp [dissolveLoop, h]

theorem dissolveLoop_spec (visited : List String) (hnd : visited.Nodup) (groups : Groups)
    (ungrouped : List Field) :
    (∀ key, (dissolveLoop visited groups ungrouped).1.get key =
      if key ∈ visited ∧ (groups.get key).length = 1 then [] else groups.get key) ∧
    (∀ key, key ∈ (dissolveLoop visited groups ungrouped).1.keys ↔
      key ∈ groups.keys ∧ ¬ (key ∈ visited ∧ (groups.get key).length = 1)) ∧
    (groups.keys.Nodup → (dissolveLoop visited groups ungrouped).1.keys.Nodup) ∧
    (dissolveLoop visited groups ungrouped).2 = ungrouped ++
      ((visited.filter (fun k => (groups.get k).length = 1)).map groups.get).flatten := by
  induction visited generalizing groups ungrouped with
  | nil =>
    refine ⟨?_, ?_, fun h => h, ?_⟩
    · intro key; simp [dissolveLoop]
    · intro key; simp [dissolveLoop]
    · simp [dissolveLoop]
  | cons k rest ih =>
    have hk : k ∉ rest := (List.nodup_cons.1 hnd).1
    have hrest : rest.Nodup := (List.nodup_cons.1 hnd).2
    rw [dissolveLoop_step]
    by_cases hone : (groups.get k).length = 1
    · rw [if_pos hone]
      obtain ⟨h1, h2, h3, h4⟩ := ih hrest (groups.delete k) (ungrouped ++ groups.get k)
      have hsame : ∀ key ∈ rest, (groups.delete k).get key = groups.get key := by
        intro key hkey
        rw [Groups.get_delete]
        have hne : key ≠ k := fun h => hk (h ▸ hkey)
        simp [hne]
      refine ⟨?_, ?_, ?_, ?_⟩
      · intro key
        rw [h1 key, Groups.get_delete]
        by_cases hkk : key = k
        · subst hkk
          simp [hone]
        · simp [hkk]
      · intro key
        rw [h2 key, Groups.mem_keys_delete, Groups.get_delete]
        by_cases hkk : key = k
        · subst hkk
          simp [hone]
        · simp [hkk]
      · intro hn
        exact h3 (Groups.nodup_keys_delete groups k hn)
      · rw [h4]
        have hf : rest.filter (fun x => ((groups.delete k).get x).length = 1)
            = rest.filter (fun x => (groups.get x).length = 1) := by
          apply List.filter_congr
          intro x hx
          rw [hsame x hx]
        have hm : (rest.filter (fun x => (groups.get x).length = 1)).map (groups.delete k).get
            = (rest.filter (fun x => (groups.get x).length = 1)).map groups.get := by
          apply List.map_congr_left
          intro x hx
          exact hsame x (List.mem_of_mem_filter hx)
        rw [hf, hm]
        simp [List.filter_cons, hone]
    · rw [if_neg hone]
      obtain ⟨h1, h2, h3, h4⟩ := ih hrest groups ungrouped
      refine ⟨?_, ?_, h3, ?_⟩
      · intro key
        rw [h1 key]
        by_cases hkk : key = k
        · subst hkk
          simp [hone]
        · simp [hkk]
      · intro key
        rw [h2 key]
        by_cases hkk : key = k
        · subst hkk
          simp [hone]
        · simp [hkk]
      · rw [h4]
        simp [List.filter_cons, hone]

theorem groupLoop_ok_names (threshold : Int) (fields : List Field) (groups : Groups)
    (ungrouped : List Field) (r : Groups × List Field)
    (h : groupLoop threshold fields groups ungrouped = .ok r) :
    ∀ f ∈ fields, f.Names ≠ [] := by
  induction fields generalizing groups ungrouped with
  | nil => simp
  | cons f rest ih =>
    intro g hg
    have hf : f.Names ≠ [] := by
      intro hnil
      obtain ⟨names, ty⟩ := f
      simp only at hnil
      subst hnil
      simp [groupLoop, firstName] at h
    rcases List.mem_cons.1 hg with hgf | hgr
    · rw [hgf]; exact hf
    · rw [groupLoop, firstName_of_names f hf] at h
      simp only at h
      split at h
      · split at h
        · cases h
        · exact ih _ _ h g hgr
      · exact ih _ _ h g hgr

theorem mem_membersOf (g : Nat) (fields : List Field) (key : String) (f : Field) :
    f ∈ membersOf g fields key ↔ f ∈ fields ∧ groupKey g f = some key := by
  simp [membersOf, List.mem_filter]

theorem membersOf_ne_nil_iff (g : Nat) (fields : List Field) (key : String) :
    (∃ f ∈ fields, groupKey g f = some key) ↔ 1 ≤ (membersOf g fields key).length := by
  constructor
  · rintro ⟨f, hf, hk⟩
    have hm : f ∈ membersOf g fields key := (mem_membersOf g fields key f).2 ⟨hf, hk⟩
    exact List.length_pos_of_mem hm
  · intro h
    obtain ⟨f, hf⟩ := List.exists_mem_of_length_pos h
    exact ⟨f, ((mem_membersOf g fields key f).1 hf).1, ((mem_membersOf g fields key f).1 hf).2⟩

theorem GroupFieldsByPascalCase_spec (rt : Runtime)
    (hrange : ∀ ks, (rt.mapRange ks).Perm ks) (fields : List Field) (threshold : Int)
    (hg : 0 ≤ threshold) (hnames : ∀ f ∈ fields, f.Names ≠ []) :
    ∃ (groups : Groups) (visited : List String),
      GroupFieldsByPascalCase rt fields threshold = .ok groups ∧
      visited.Nodup ∧
      (∀ key, key ∈ visited ↔ 1 ≤ (membersOf threshold.toNat fields key).length) ∧
      groups.get "ungrouped" = shortOf threshold.toNat fields ++
        ((visited.filter (fun k => (membersOf threshold.toNat fields k).length = 1)).map
          (membersOf threshold.toNat fields)).flatten ∧
      (∀ key, key ≠ "ungrouped" → groups.get key =
        if (membersOf threshold.toNat fields key).length = 1 then []
        else membersOf threshold.toNat fields key) ∧
      (∀ key, key ∈ groups.keys ↔
        key = "ungrouped" ∨ 2 ≤ (membersOf threshold.toNat fields key).length) ∧
      groups.keys.Nodup := by
  obtain ⟨grown, h1, h2, h3, h4⟩ := groupLoop_spec threshold hg fields hnames [] []
  have hget : ∀ key, grown.get key = membersOf threshold.toNat fields key := by
    intro key
    rw [h2 key]
    simp [Groups.get]
  have hkeys : ∀ key, key ∈ grown.keys ↔ 1 ≤ (membersOf threshold.toNat fields key).length := by
    intro key
    rw [h3 key, ← membersOf_ne_nil_iff]
    simp [Groups.keys]
  have hnd : grown.keys.Nodup := h4 (by simp [Groups.keys])
  have hperm := hrange grown.keys
  have hvnd : (rt.mapRange grown.keys).Nodup := hperm.nodup_iff.2 hnd
  obtain ⟨d1, d2, d3, d4⟩ := dissolveLoop_spec (rt.mapRange grown.keys) hvnd grown
    ([] ++ shortOf threshold.toNat fields)
  have hfun : (fun k => grown.get k) = membersOf threshold.toNat fields := funext hget
  have hfun2 : grown.get = membersOf threshold.toNat fields := funext hget
  refine ⟨(dissolveLoop (rt.mapRange grown.keys) grown
      ([] ++ shortOf threshold.toNat fields)).1.set "ungrouped"
      (dissolveLoop (rt.mapRange grown.keys) grown ([] ++ shortOf threshold.toNat fields)).2,
    rt.mapRange grown.keys, ?_, hvnd, ?_, ?_, ?_, ?_, ?_⟩
  · simp only [GroupFieldsByPascalCase, h1]
  · intro key
    rw [hperm.mem_iff, hkeys key]
  · rw [Groups.get_set, if_pos rfl, d4]
    simp only [List.nil_append, hget, hfun2]
  · intro key hne
    have hmem : key ∈ rt.mapRange grown.keys ↔
        1 ≤ (membersOf threshold.toNat fields key).length := by
      rw [hperm.mem_iff, hkeys key]
    rw [Groups.get_set, if_neg (Ne.symm hne), d1 key, hget key]
    by_cases hone : (membersOf threshold.toNat fields key).length = 1
    · have hin : key ∈ rt.mapRange grown.keys := hmem.2 (by omega)
      simp [hone, hin]
    · simp [hone]
  · intro key
    rw [Groups.mem_keys_set, d2 key, hget key, hperm.mem_iff, hkeys key]
    constructor
    · rintro (h | ⟨ha, hb⟩)
      · exact Or.inl h
      · right
        have : (membersOf threshold.toNat fields key).length ≠ 1 := fun h => hb ⟨ha, h⟩
        omega
    · rintro (h | h)
      · exact Or.inl h
      · right
        refine ⟨by omega, ?_⟩
        rintro ⟨_, hb⟩
        omega
  · exact Groups.nodup_keys_set _ _ _ (d3 hnd)

theorem GroupFieldsByPascalCase_ok_names (rt : Runtime) (fields : List Field)
    (threshold : Int) (groups : Groups)
    (h : GroupFieldsByPascalCase rt fields threshold = .ok groups) :
    ∀ f ∈ fields, f.Names ≠ [] := by
  unfold GroupFieldsByPascalCase at h
  cases hloop : groupLoop threshold fields [] [] with
  | error e => rw [hloop] at h; cases h
  | ok r => exact groupLoop_ok_names threshold fields [] [] r hloop

theorem groupKey_some (g : Nat) (f : Field) (key : String) (h : groupKey g f = some key) :
    g ≤ (tokensOf f).length ∧ stringsJoin ((tokensOf f).take g) "" = key := by
  unfold groupKey at h
  by_cases hc : g ≤ (tokensOf f).length
  · rw [if_pos hc] at h
    exact ⟨hc, Option.some.inj h⟩
  · rw [if_neg hc] at h
    cases h

theorem groupKey_none (g : Nat) (f : Field) : groupKey g f = none ↔ (tokensOf f).length < g := by
  unfold groupKey
  by_cases hc : g ≤ (tokensOf f).length
  · rw [if_pos hc]
    constructor
    · intro h; cases h
    · intro h; omega
  · rw [if_neg hc]
    constructor
    · intro _; omega
    · intro _; rfl

/-- C4: for a threshold of at least 1, `GroupFieldsByPascalCase` returns a map when
every field has a name, and in every map it returns, each key other than
`ungrouped` holds at least 2 fields, each of them with at least `g` tokens in its
first name, the first `g` of which concatenate to the key; and every field with
fewer than `g` tokens is in the `ungrouped` list. -/
theorem C4_groups_invariant (rt : Runtime) (hrange : ∀ ks, (rt.mapRange ks).Perm ks)
    (fields : List Field) (threshold : Int) (hg : 1 ≤ threshold) :
    ((∀ f ∈ fields, f.Names ≠ []) →
      ∃ groups, GroupFieldsByPascalCase rt fields threshold = .ok groups) ∧
    (∀ groups, GroupFieldsByPascalCase rt fields threshold = .ok groups →
      (∀ key ∈ groups.keys, key ≠ "ungrouped" →
        2 ≤ (groups.get key).length ∧
        ∀ f ∈ groups.get key, threshold ≤ (tokensOf f).length ∧
          stringsJoin ((tokensOf f).take threshold.toNat) "" = key) ∧
      (∀ f ∈ fields, ((tokensOf f).length : Int) < threshold → f ∈ groups.get "ungrouped")) := by
  have hg0 : 0 ≤ threshold := by omega
  constructor
  · intro hnames
    obtain ⟨groups, _, h, _⟩ := GroupFieldsByPascalCase_spec rt hrange fields threshold hg0 hnames
    exact ⟨groups, h⟩
  · intro groups hgroups
    have hnames := GroupFieldsByPascalCase_ok_names rt fields threshold groups hgroups
    obtain ⟨groups2, visited, h, hvnd, hvis, hung, hget, hkeys, hnd⟩ :=
      GroupFieldsByPascalCase_spec rt hrange fields threshold hg0 hnames
    rw [hgroups] at h
    cases h
    constructor
    · intro key hkey hne
      have h2 : 2 ≤ (membersOf threshold.toNat fields key).length := by
        rcases (hkeys key).1 hkey with h | h
        · exact absurd h hne
        · exact h
      have hne1 : ¬ (membersOf threshold.toNat fields key).length = 1 := by omega
      rw [hget key hne, if_neg hne1]
      refine ⟨h2, ?_⟩
      intro f hf
      have hk := groupKey_some _ f key ((mem_membersOf _ fields key f).1 hf).2
      exact ⟨by omega, hk.2⟩
    · intro f hf hlt
      rw [hung]
      apply List.mem_append_left
      unfold shortOf
      rw [List.mem_filter]
      refine ⟨hf, ?_⟩
      have : groupKey threshold.toNat f = none := (groupKey_none _ f).2 (by omega)
      simp [this]

/-- C4 at `UserName`, `UserAge`, `Id`, `count` and threshold 1: the group `User`
holds the two fields whose first token is `User`; `Id`, alone under its key, and
`count`, without a token, are ungrouped. -/
theorem C4_witness :
    (1 : Int) ≤ 1 ∧
    GroupFieldsByPascalCase goRuntime userFields 1 =
      .ok [("User", [⟨["UserName"], prim "string"⟩, ⟨["UserAge"], prim "int"⟩]),
           ("ungrouped", [⟨["count"], prim "int"⟩, ⟨["Id"], prim "int64"⟩])] ∧
    (∀ key ∈ Groups.keys
        [("User", [⟨["UserName"], prim "string"⟩, ⟨["UserAge"], prim "int"⟩]),
         ("ungrouped", [⟨["count"], prim "int"⟩, ⟨["Id"], prim "int64"⟩])],
      key ≠ "ungrouped" →
      2 ≤ (Groups.get
        [("User", [⟨["UserName"], prim "string"⟩, ⟨["UserAge"], prim "int"⟩]),
         ("ungrouped", [⟨["count"], prim "int"⟩, ⟨["Id"], prim "int64"⟩])] key).length ∧
      ∀ f ∈ Groups.get
        [("User", [⟨["UserName"], prim "string"⟩, ⟨["UserAge"], prim "int"⟩]),
         ("ungrouped", [⟨["count"], prim "int"⟩, ⟨["Id"], prim "int64"⟩])] key,
        (1 : Int) ≤ (tokensOf f).length ∧
          stringsJoin ((tokensOf f).take (1 : Int).toNat) "" = key) :=
  ⟨by decide, by rfl,
   ((C4_groups_invariant goRuntime (fun ks => List.Perm.refl ks) userFields 1 (by decide)).2
      _ (by rfl)).1⟩

/-! ## PascalCase tokens -/

theorem isLower_iff_toNat (c : Char) : c.isLower = true ↔ 97 ≤ c.toNat ∧ c.toNat ≤ 122 := by
  simp only [Char.isLower, Char.toNat, Bool.and_eq_true, decide_eq_true_eq, ge_iff_le]
  exact Iff.rfl

theorem not_isUpper_of_isLower (c : Char) (h : c.isLower = true) : c.isUpper = false := by
  have h1 := (isLower_iff_toNat c).1 h
  cases hu : c.isUpper
  · rfl
  · have h2 := (isUpper_iff_toNat c).1 hu
    omega

theorem not_isLower_of_isUpper (c : Char) (h : c.isUpper = true) : c.isLower = false := by
  cases hl : c.isLower
  · rfl
  · rw [not_isUpper_of_isLower c hl] at h
    cases h

theorem findAllPascal_isToken (cs : List Char) : ∀ t ∈ findAllPascal cs, IsToken t := by
  induction cs with
  | nil => simp [findAllPascal]
  | cons c rest ih =>
    intro t ht
    unfold findAllPascal at ht
    by_cases hc : c.isUpper = true
    · rw [if_pos hc] at ht
      rcases List.mem_cons.1 ht with h | h
      · exact ⟨c, rest.takeWhile Char.isLower, h, hc, fun x hx => (List.mem_takeWhile_imp hx)⟩
      · exact ih t h
    · rw [if_neg hc] at ht
      exact ih t ht

theorem data_stringsJoin_empty (ts : List String) :
    (stringsJoin ts "").data = (ts.map String.data).flatten := by
  induction ts with
  | nil => rfl
  | cons a rest ih =>
    cases rest with
    | nil => simp [stringsJoin]
    | cons b rest2 =>
      rw [stringsJoin, String.data_append, String.data_append, ih]
      simp

theorem findAllPascal_lower_append (lows rest : List Char)
    (h : ∀ x ∈ lows, x.isLower = true) :
    findAllPascal (lows ++ rest) = findAllPascal rest := by
  induction lows with
  | nil => rfl
  | cons a l ih =>
    have ha : a.isUpper = false := not_isUpper_of_isLower a (h a (List.mem_cons_self a l))
    simp only [List.cons_append, findAllPascal, ha, Bool.false_eq_true, if_false]
    exact ih (fun x hx => h x (List.mem_cons_of_mem a hx))

theorem takeWhile_lower_append (lows rest : List Char)
    (h : ∀ x ∈ lows, x.isLower = true)
    (hrest : rest = [] ∨ ∃ c r, rest = c :: r ∧ c.isLower = false) :
    (lows ++ rest).takeWhile Char.isLower = lows := by
  induction lows with
  | nil =>
    rcases hrest with h1 | ⟨c, r, h1, h2⟩
    · simp [h1]
    · simp [h1, h2]
  | cons a l ih =>
    have ha : a.isLower = true := h a (List.mem_cons_self a l)
    simp only [List.cons_append, List.takeWhile_cons, ha, if_true]
    rw [ih (fun x hx => h x (List.mem_cons_of_mem a hx))]

theorem flatten_tokens_head (ts : List String) (h : ∀ t ∈ ts, IsToken t) :
    (ts.map String.data).flatten = [] ∨
      ∃ c r, (ts.map String.data).flatten = c :: r ∧ c.isLower = false := by
  cases ts with
  | nil => exact Or.inl rfl
  | cons t rest =>
    obtain ⟨c, lows, ht, hc, _⟩ := h t (List.mem_cons_self t rest)
    right
    refine ⟨c, lows ++ (rest.map String.data).flatten, ?_, not_isLower_of_isUpper c hc⟩
    simp [ht]

theorem findAllPascal_flatten_tokens (ts : List String) (h : ∀ t ∈ ts, IsToken t) :
    findAllPascal (ts.map String.data).flatten = ts := by
  induction ts with
  | nil => rfl
  | cons t rest ih =>
    obtain ⟨c, lows, ht, hc, hlows⟩ := h t (List.mem_cons_self t rest)
    have hrest : ∀ u ∈ rest, IsToken u := fun u hu => h u (List.mem_cons_of_mem t hu)
    have hdata : ((t :: rest).map String.data).flatten
        = c :: (lows ++ (rest.map String.data).flatten) := by
      simp [ht]
    rw [hdata, findAllPascal, if_pos hc,
      takeWhile_lower_append lows _ hlows (flatten_tokens_head rest hrest),
      findAllPascal_lower_append lows _ hlows, ih hrest, ← ht]

theorem take_eq_of_join_eq (t1 t2 : List String) (h1 : ∀ t ∈ t1, IsToken t)
    (h2 : ∀ t ∈ t2, IsToken t) (n m : Nat) (hnm : n ≤ m)
    (h : stringsJoin (t1.take m) "" = stringsJoin (t2.take m) "") :
    stringsJoin (t1.take n) "" = stringsJoin (t2.take n) "" := by
  have e1 := findAllPascal_flatten_tokens (t1.take m)
    (fun t ht => h1 t (List.mem_of_mem_take ht))
  have e2 := findAllPascal_flatten_tokens (t2.take m)
    (fun t ht => h2 t (List.mem_of_mem_take ht))
  rw [← data_stringsJoin_empty] at e1 e2
  rw [h, e2] at e1
  have e3 : (t1.take m).take n = (t2.take m).take n := by rw [e1]
  rw [List.take_take, List.take_take, Nat.min_eq_left hnm] at e3
  rw [e3]

theorem groupKey_mono (f h : Field) (n m : Nat) (hnm : n ≤ m) (key : String)
    (hf : groupKey m f = some key) (hh : groupKey m h = some key) :
    groupKey n h = groupKey n f := by
  obtain ⟨hf1, hf2⟩ := groupKey_some m f key hf
  obtain ⟨hh1, hh2⟩ := groupKey_some m h key hh
  have hjoin := take_eq_of_join_eq (tokensOf h) (tokensOf f)
    (findAllPascal_isToken _) (findAllPascal_isToken _) n m hnm (hh2.trans hf2.symm)
  unfold groupKey
  rw [if_pos (by omega), if_pos (by omega), hjoin]

/-! ## Which fields end up ungrouped -/

theorem GroupFieldsByPascalCase_mem_ungrouped (rt : Runtime)
    (hrange : ∀ ks, (rt.mapRange ks).Perm ks) (fields : List Field) (threshold : Int)
    (hg : 0 ≤ threshold) (groups : Groups)
    (h : GroupFieldsByPascalCase rt fields threshold = .ok groups) (f : Field) :
    f ∈ groups.get "ungrouped" ↔
      f ∈ fields ∧ (groupKey threshold.toNat f = none ∨
        ∃ key, groupKey threshold.toNat f = some key ∧
          (membersOf threshold.toNat fields key).length = 1) := by
  have hnames := GroupFieldsByPascalCase_ok_names rt fields threshold groups h
  obtain ⟨groups2, visited, h2, hvnd, hvis, hung, hget, hkeys, hnd⟩ :=
    GroupFieldsByPascalCase_spec rt hrange fields threshold hg hnames
  rw [h] at h2
  cases h2
  rw [hung, List.mem_append]
  constructor
  · rintro (hs | hd)
    · unfold shortOf at hs
      rw [List.mem_filter] at hs
      exact ⟨hs.1, Or.inl (by simpa using hs.2)⟩
    · rw [List.mem_flatten] at hd
      obtain ⟨l, hl, hfl⟩ := hd
      rw [List.mem_map] at hl
      obtain ⟨key, hkey, rfl⟩ := hl
      rw [List.mem_filter] at hkey
      have hm := (mem_membersOf _ fields key f).1 hfl
      exact ⟨hm.1, Or.inr ⟨key, hm.2, by simpa using hkey.2⟩⟩
  · rintro ⟨hf, hn | ⟨key, hk, hone⟩⟩
    · left
      unfold shortOf
      rw [List.mem_filter]
      exact ⟨hf, by simp [hn]⟩
    · right
      rw [List.mem_flatten]
      refine ⟨membersOf threshold.toNat fields key, ?_, (mem_membersOf _ fields key f).2 ⟨hf, hk⟩⟩
      rw [List.mem_map]
      refine ⟨key, ?_, rfl⟩
      rw [List.mem_filter]
      exact ⟨(hvis key).2 (by omega), by simp [hone]⟩

theorem membersOf_single_mono (fields : List Field) (f : Field) (n m : Nat) (hnm : n ≤ m)
    (hf : f ∈ fields) (key key2 : String) (hk : groupKey n f = some key)
    (hone : (membersOf n fields key).length = 1) (hk2 : groupKey m f = some key2) :
    (membersOf m fields key2).length = 1 := by
  have hsub : (membersOf m fields key2).Sublist (membersOf n fields key) := by
    unfold membersOf
    apply List.monotone_filter_right
    intro h hh
    have hh2 : groupKey m h = some key2 := by simpa using hh
    have := groupKey_mono f h n m hnm key2 hk2 hh2
    rw [this, hk]
    simp
  have hle := hsub.length_le
  have hpos : 1 ≤ (membersOf m fields key2).length :=
    List.length_pos_of_mem ((mem_membersOf m fields key2 f).2 ⟨hf, hk2⟩)
  omega

/-- C5: raising the threshold moves no field from ungrouped to grouped.  For
thresholds `1 ≤ g ≤ g'` (the two calls may visit their maps in different orders),
when the call at `g` returns, so does the call at `g'`, and every field in the
`ungrouped` list of the first is in the `ungrouped` list of the second. -/
theorem C5_threshold_monotone (rt rt2 : Runtime)
    (hrange : ∀ ks, (rt.mapRange ks).Perm ks) (hrange2 : ∀ ks, (rt2.mapRange ks).Perm ks)
    (fields : List Field) (g g2 : Int) (hg : 1 ≤ g) (hle : g ≤ g2) (groups : Groups)
    (h : GroupFieldsByPascalCase rt fields g = .ok groups) :
    ∃ groups2, GroupFieldsByPascalCase rt2 fields g2 = .ok groups2 ∧
      ∀ f ∈ groups.get "ungrouped", f ∈ groups2.get "ungrouped" := by
  have hnames := GroupFieldsByPascalCase_ok_names rt fields g groups h
  obtain ⟨groups2, _, h2, _⟩ :=
    GroupFieldsByPascalCase_spec rt2 hrange2 fields g2 (by omega) hnames
  refine ⟨groups2, h2, ?_⟩
  intro f hf
  rw [GroupFieldsByPascalCase_mem_ungrouped rt hrange fields g (by omega) groups h] at hf
  rw [GroupFieldsByPascalCase_mem_ungrouped rt2 hrange2 fields g2 (by omega) groups2 h2]
  obtain ⟨hmem, hcase⟩ := hf
  refine ⟨hmem, ?_⟩
  have hnat : g.toNat ≤ g2.toNat := by omega
  cases hk2 : groupKey g2.toNat f with
  | none => exact Or.inl rfl
  | some key2 =>
    right
    refine ⟨key2, rfl, ?_⟩
    rcases hcase with hn | ⟨key, hk, hone⟩
    · have h1 := (groupKey_none _ f).1 hn
      have h3 := (groupKey_some _ f key2 hk2).1
      omega
    · exact membersOf_single_mono fields f g.toNat g2.toNat hnat hmem key key2 hk hone hk2

/-- C5 at `UserName`, `UserAge`, `Id`, `count`, thresholds 1 and 2: `Id` and `count`
are ungrouped at 1 and stay so at 2, where `UserName` and `UserAge` join them. -/
theorem C5_witness :
    (1 : Int) ≤ 1 ∧ (1 : Int) ≤ 2 ∧
    GroupFieldsByPascalCase goRuntime userFields 1 =
      .ok [("User", [⟨["UserName"], prim "string"⟩, ⟨["UserAge"], prim "int"⟩]),
           ("ungrouped", [⟨["count"], prim "int"⟩, ⟨["Id"], prim "int64"⟩])] ∧
    GroupFieldsByPascalCase goRuntime userFields 2 =
      .ok [("ungrouped", [⟨["Id"], prim "int64"⟩, ⟨["count"], prim "int"⟩,
        ⟨["UserName"], prim "string"⟩, ⟨["UserAge"], prim "int"⟩])] ∧
    ∃ groups2, GroupFieldsByPascalCase goRuntime userFields 2 = .ok groups2 ∧
      ∀ f ∈ Groups.get
        [("User", [⟨["UserName"], prim "string"⟩, ⟨["UserAge"], prim "int"⟩]),
         ("ungrouped", [⟨["count"], prim "int"⟩, ⟨["Id"], prim "int64"⟩])] "ungrouped",
        f ∈ groups2.get "ungrouped" :=
  ⟨by decide, by decide, by rfl, by rfl,
   C5_threshold_monotone goRuntime goRuntime (fun ks => List.Perm.refl ks)
     (fun ks => List.Perm.refl ks) userFields 1 2 (by decide) (by decide) _ (by rfl)⟩

/-! ## The loops of the emitter in closed form -/

theorem numberedFrom_cons {α : Type} (start : Nat) (a : α) (l : List α) :
    numberedFrom start (a :: l) = (a, start) :: numberedFrom (start + 1) l := by
  simp [numberedFrom, List.range'_succ]

theorem ungroupedLoop_eq_collect (resolve : Expr → Nat → Except Fault String) (depth : Nat)
    (fields : List Field) (lines : List String) (n : Nat) :
    ungroupedLoop resolve depth fields lines n =
      (match collect ((numberedFrom n fields).map
          (fun p => ungroupedLine resolve depth p.1 p.2)) with
       | .error e => .error e
       | .ok more => .ok (lines ++ more, n + fields.length)) := by
  induction fields generalizing lines n with
  | nil => simp [ungroupedLoop, numberedFrom, collect]
  | cons f rest ih =>
    rw [numberedFrom_cons]
    simp only [ungroupedLoop, List.map_cons, collect]
    cases hline : ungroupedLine resolve depth f n with
    | error e => rfl
    | ok line =>
      simp only [ih]
      cases collect ((numberedFrom (n + 1) rest).map
          (fun p => ungroupedLine resolve depth p.1 p.2)) with
      | error e => rfl
      | ok more =>
        simp only [List.append_assoc, List.singleton_append, List.length_cons]
        congr 2
        omega

theorem groupedLine_eq_entry (resolve : Expr → Nat → Except Fault String) (depth : Nat)
    (field : Field) (i : Nat) :
    groupedLine resolve depth field i = groupedEntry resolve depth field (i + 1) := by
  simp only [groupedLine, groupedEntry, getFieldNames_eq]

theorem nestedLoop_eq_collect (resolve : Expr → Nat → Except Fault String) (depth : Nat)
    (fields : List Field) (nestedLines : List String) (i : Nat) :
    nestedLoop resolve depth fields nestedLines i =
      (match collect ((numberedFrom (i + 1) fields).map
          (fun p => groupedEntry resolve depth p.1 p.2)) with
       | .error e => .error e
       | .ok more => .ok (nestedLines ++ more)) := by
  induction fields generalizing nestedLines i with
  | nil => simp [nestedLoop, numberedFrom, collect]
  | cons f rest ih =>
    rw [numberedFrom_cons]
    simp only [nestedLoop, List.map_cons, collect, groupedLine_eq_entry]
    cases hline : groupedEntry resolve depth f (i + 1) with
    | error e => rfl
    | ok line =>
      simp only [ih]
      cases collect ((numberedFrom (i + 1 + 1) rest).map
          (fun p => groupedEntry resolve depth p.1 p.2)) with
      | error e => rfl
      | ok more => simp

theorem groupsLoop_cons_ne (resolve : Expr → Nat → Except Fault String) (depth : Nat)
    (groups : Groups) (k : String) (rest : List String) (lines : List String) (n : Nat)
    (hk : k ≠ "ungrouped") :
    groupsLoop resolve depth groups (k :: rest) lines n =
      (match groupBlock resolve depth groups k n with
       | .error e => .error e
       | .ok block => groupsLoop resolve depth groups rest (lines ++ block) (n + 1)) := by
  simp only [groupsLoop, if_neg hk, groupBlock, nestedLoop_eq_collect, List.nil_append]
  cases collect ((numberedFrom (0 + 1) (groups.get k)).map
      (fun p => groupedEntry resolve depth p.1 p.2)) with
  | error e => rfl
  | ok nested => rfl

theorem groupsLoop_eq_collect (resolve : Expr → Nat → Except Fault String) (depth : Nat)
    (groups : Groups) (keys : List String) (lines : List String) (n : Nat) :
    groupsLoop resolve depth groups keys lines n =
      (match collect ((numberedFrom n (keys.filter (fun k => k ≠ "ungrouped"))).map
          (fun p => groupBlock resolve depth groups p.1 p.2)) with
       | .error e => .error e
       | .ok blocks =>
         .ok (lines ++ blocks.flatten, n + (keys.filter (fun k => k ≠ "ungrouped")).length)) := by
  induction keys generalizing lines n with
  | nil => simp [groupsLoop, numberedFrom, collect]
  | cons k rest ih =>
    by_cases hk : k = "ungrouped"
    · have hfil : (k :: rest).filter (fun k => k ≠ "ungrouped")
          = rest.filter (fun k => k ≠ "ungrouped") := by
        simp [List.filter_cons, hk]
      rw [hfil, ← ih]
      simp only [groupsLoop, if_pos hk]
    · have hfil : (k :: rest).filter (fun k => k ≠ "ungrouped")
          = k :: rest.filter (fun k => k ≠ "ungrouped") := by
        simp [List.filter_cons, hk]
      rw [hfil, numberedFrom_cons, groupsLoop_cons_ne _ _ _ _ _ _ _ hk]
      simp only [List.map_cons, collect]
      cases groupBlock resolve depth groups k n with
      | error e => rfl
      | ok block =>
        simp only [ih]
        cases collect ((numberedFrom (n + 1) (rest.filter (fun k => k ≠ "ungrouped"))).map
            (fun p => groupBlock resolve depth groups p.1 p.2)) with
        | error e => rfl
        | ok blocks =>
          simp only [List.flatten_cons, List.append_assoc, List.length_cons]
          congr 2
          omega

/-! ## The body of `generateProtobufStruct` in closed form -/

theorem SortFieldsByName_of_names (rt : Runtime) (fields : List Field)
    (hnames : ∀ f ∈ fields, f.Names ≠ []) :
    SortFieldsByName rt fields = .ok (rt.sortSlice fields) := by
  unfold SortFieldsByName
  have hany : fields.any (fun f => f.Names.isEmpty) = false := by
    rw [List.any_eq_false]
    intro f hf
    have := hnames f hf
    simpa [List.isEmpty_iff] using this
  simp [hany]

theorem generateProtobufStructWith_eq (rt : Runtime)
    (resolve : Expr → Nat → Except Fault String) (structName : String) (fields : List Field)
    (depth : Nat) (threshold : Int) (groups : Groups)
    (hnames : ∀ f ∈ fields, f.Names ≠ [])
    (hgroups : GroupFieldsByPascalCase rt (rt.sortSlice fields) threshold = .ok groups) :
    generateProtobufStructWith rt resolve structName fields depth threshold =
      numberedRendering resolve structName depth groups
        (rt.sortSlice (groups.get "ungrouped"))
        ((sortStrings groups.keys).filter (fun k => k ≠ "ungrouped")) := by
  simp only [generateProtobufStructWith, SortFieldsByName_of_names rt fields hnames, hgroups,
    ungroupedLoop_eq_collect, numberedRendering, List.nil_append]
  cases collect ((numberedFrom 1 (rt.sortSlice (groups.get "ungrouped"))).map
      (fun p => ungroupedLine resolve depth p.1 p.2)) with
  | error e => rfl
  | ok own =>
    simp only [groupsLoop_eq_collect, Nat.add_comm 1]
    cases collect ((numberedFrom ((rt.sortSlice (groups.get "ungrouped")).length + 1)
        ((sortStrings groups.keys).filter (fun k => k ≠ "ungrouped"))).map
        (fun p => groupBlock resolve depth groups p.1 p.2)) with
    | error e => rfl
    | ok blocks => rfl

theorem length_filter_ne_of_nodup (l : List String) (a : String) (hnd : l.Nodup)
    (ha : a ∈ l) : (l.filter (fun k => k ≠ a)).length + 1 = l.length := by
  induction l with
  | nil => simp at ha
  | cons b rest ih =>
    have hb : b ∉ rest := (List.nodup_cons.1 hnd).1
    have hrest : rest.Nodup := (List.nodup_cons.1 hnd).2
    by_cases hba : b = a
    · subst hba
      have hall : rest.filter (fun k => k ≠ b) = rest := by
        rw [List.filter_eq_self]
        intro x hx
        have : x ≠ b := fun h => hb (h ▸ hx)
        simpa using this
      rw [List.filter_cons]
      simp only [ne_eq, not_true_eq_false, decide_False, Bool.false_eq_true, if_false, hall,
        List.length_cons]
    · have ha2 : a ∈ rest := by
        rcases List.mem_cons.1 ha with h | h
        · exact absurd h.symm hba
        · exact h
      have hlen := ih hrest ha2
      rw [List.filter_cons]
      simp only [ne_eq, hba, not_false_eq_true, decide_True, if_true, List.length_cons]
      rw [hlen]

/-! ## The evaluation runtime keeps the promises of the library -/

theorem lessByName_false_iff (a b : Field) :
    lessByName b a = false ↔ (firstNameD a).data ≤ (firstNameD b).data := by
  unfold lessByName strLess
  rw [decide_eq_false_iff_not, not_lt]

theorem lessByName_total : IsTotal Field (fun a b => lessByName b a = false) :=
  ⟨fun a b => by
    rw [lessByName_false_iff, lessByName_false_iff]
    exact le_total _ _⟩

theorem lessByName_trans : IsTrans Field (fun a b => lessByName b a = false) :=
  ⟨fun a b c => by
    rw [lessByName_false_iff, lessByName_false_iff, lessByName_false_iff]
    exact le_trans⟩

theorem goRuntime_lawful : goRuntime.Lawful where
  sort_perm := fun l => List.perm_insertionSort _ l
  sort_sorted := fun l =>
    @List.sorted_insertionSort Field (fun a b => lessByName b a = false) _
      lessByName_total lessByName_trans l
  range_perm := fun ks => List.Perm.refl ks

theorem numberedFrom_fst {α : Type} (start : Nat) (l : List α) :
    (numberedFrom start l).map Prod.fst = l := by
  unfold numberedFrom
  rw [List.map_fst_zip]
  simp

theorem numberedFrom_snd {α : Type} (start : Nat) (l : List α) :
    (numberedFrom start l).map Prod.snd = List.range' start l.length := by
  unfold numberedFrom
  rw [List.map_snd_zip]
  simp

/-- C3: for a struct whose fields all have a name and a threshold of at least 1,
the grouping succeeds and `generateProtobufStruct` is the rendering in which the
enclosing message numbers its own field lines 1, ..., u+m by position (the u
ungrouped fields, then one reference line for each of the m groups) and every
group sub-message numbers its field lines 1, ..., k; u is the length of the
`ungrouped` list and m the number of keys other than `ungrouped`. -/
theorem C3_field_numbers_contiguous (rt : Runtime) (hrt : rt.Lawful) (store : Store)
    (fuel : Nat) (structName : String) (structType : StructRef) (depth : Nat) (threshold : Int)
    (hnames : ∀ f ∈ store structType, f.Names ≠ []) (hg : 1 ≤ threshold) :
    ∃ groups : Groups,
      GroupFieldsByPascalCase rt (rt.sortSlice (store structType)) threshold = .ok groups ∧
      generateProtobufStruct rt store (fuel + 1) structName structType depth threshold =
        numberedRendering (fun e d => fieldTypeToString rt store fuel e d threshold)
          structName depth groups (rt.sortSlice (groups.get "ungrouped"))
          ((sortStrings groups.keys).filter (fun k => k ≠ "ungrouped")) ∧
      (rt.sortSlice (groups.get "ungrouped")).length = (groups.get "ungrouped").length ∧
      ((sortStrings groups.keys).filter (fun k => k ≠ "ungrouped")).length + 1
        = groups.keys.length := by
  have hsorted : ∀ f ∈ rt.sortSlice (store structType), f.Names ≠ [] :=
    fun f hf => hnames f ((hrt.sort_perm _).mem_iff.1 hf)
  obtain ⟨groups, visited, h, _, _, _, _, hkeys, hnd⟩ :=
    GroupFieldsByPascalCase_spec rt hrt.range_perm (rt.sortSlice (store structType)) threshold
      (by omega) hsorted
  refine ⟨groups, h, ?_, (hrt.sort_perm _).length_eq, ?_⟩
  · rw [generateProtobufStruct]
    exact generateProtobufStructWith_eq rt _ structName (store structType) depth threshold
      groups hnames h
  · have hperm : (sortStrings groups.keys).Perm groups.keys := List.perm_insertionSort _ _
    rw [length_filter_ne_of_nodup _ "ungrouped" (hperm.nodup_iff.2 hnd)
      (hperm.mem_iff.2 ((hkeys "ungrouped").2 (Or.inl rfl)))]
    exact hperm.length_eq

/-- C3 at `type User struct { UserName string; UserAge int; Id int64; count int }`
and threshold 1: the enclosing message carries the numbers 1, 2, 3 and the group
`User` the numbers 1, 2. -/
theorem C3_witness :
    (∀ f ∈ userStore 0, f.Names ≠ []) ∧ (1 : Int) ≤ 1 ∧
    generateProtobufStruct goRuntime userStore 1 "User" 0 0 1 =
      .ok "message User \x7b\n  int64 id = 1;\n  int32 count = 2;\n  message User \x7b\n    int32 user_age = 1;\n    string user_name = 2;\n  \x7d\n  User user = 3;\n\x7d" ∧
    ∃ groups : Groups,
      GroupFieldsByPascalCase goRuntime (goRuntime.sortSlice (userStore 0)) 1 = .ok groups ∧
      generateProtobufStruct goRuntime userStore (0 + 1) "User" 0 0 1 =
        numberedRendering (fun e d => fieldTypeToString goRuntime userStore 0 e d 1)
          "User" 0 groups (goRuntime.sortSlice (groups.get "ungrouped"))
          ((sortStrings groups.keys).filter (fun k => k ≠ "ungrouped")) ∧
      (goRuntime.sortSlice (groups.get "ungrouped")).length = (groups.get "ungrouped").length ∧
      ((sortStrings groups.keys).filter (fun k => k ≠ "ungrouped")).length + 1
        = groups.keys.length :=
  ⟨by decide, by decide, by rfl,
   C3_field_numbers_contiguous goRuntime goRuntime_lawful userStore 0 "User" 0 0 1
     (by decide) (by decide)⟩

/-! ## Fields with distinct first names: the sorted arrangement is unique -/

theorem sortSlice_strict (rt : Runtime) (hrt : rt.Lawful) (l : List Field)
    (hdistinct : (l.map firstNameD).Nodup) :
    (rt.sortSlice l).Pairwise (fun a b => (firstNameD a).data < (firstNameD b).data) := by
  have hnd : ((rt.sortSlice l).map firstNameD).Nodup :=
    ((hrt.sort_perm l).map firstNameD).nodup_iff.2 hdistinct
  have hne : (rt.sortSlice l).Pairwise (fun a b => firstNameD a ≠ firstNameD b) :=
    List.pairwise_map.1 hnd
  have hle := hrt.sort_sorted l
  refine (hle.and hne).imp ?_
  intro a b hab
  have h1 : (firstNameD a).data ≤ (firstNameD b).data := (lessByName_false_iff a b).1 hab.1
  have h2 : (firstNameD a).data ≠ (firstNameD b).data := fun h => hab.2 (String.ext h)
  exact lt_of_le_of_ne h1 h2

theorem eq_of_perm_of_strict (l1 l2 : List Field) (hperm : l1.Perm l2)
    (h1 : l1.Pairwise (fun a b => (firstNameD a).data < (firstNameD b).data))
    (h2 : l2.Pairwise (fun a b => (firstNameD a).data < (firstNameD b).data)) : l1 = l2 :=
  @List.eq_of_perm_of_sorted Field (fun a b => (firstNameD a).data < (firstNameD b).data)
    ⟨fun _ _ hab hba => absurd hab (lt_asymm hba)⟩ l1 l2 hperm h1 h2

theorem sortSlice_idem (rt : Runtime) (hrt : rt.Lawful) (l : List Field)
    (hdistinct : (l.map firstNameD).Nodup) :
    rt.sortSlice (rt.sortSlice l) = rt.sortSlice l := by
  have hnd : ((rt.sortSlice l).map firstNameD).Nodup :=
    ((hrt.sort_perm l).map firstNameD).nodup_iff.2 hdistinct
  exact eq_of_perm_of_strict _ _ (hrt.sort_perm _)
    (sortSlice_strict rt hrt _ hnd) (sortSlice_strict rt hrt l hdistinct)

/-! ## A threshold above every token count: no group -/

theorem groupLoop_all_short (threshold : Int) (fields : List Field)
    (hnames : ∀ f ∈ fields, f.Names ≠ [])
    (hshort : ∀ f ∈ fields, ((tokensOf f).length : Int) < threshold)
    (groups : Groups) (ungrouped : List Field) :
    groupLoop threshold fields groups ungrouped = .ok (groups, ungrouped ++ fields) := by
  induction fields generalizing ungrouped with
  | nil => simp [groupLoop]
  | cons f rest ih =>
    have hf := hshort f (List.mem_cons_self f rest)
    have hkey : groupKey threshold.toNat f = none := (groupKey_none _ f).2 (by omega)
    rw [groupLoop_step threshold (by omega) f (hnames f (List.mem_cons_self f rest)), hkey]
    simp only
    rw [ih (fun g hg => hnames g (List.mem_cons_of_mem f hg))
      (fun g hg => hshort g (List.mem_cons_of_mem f hg))]
    simp

theorem GroupFieldsByPascalCase_all_short (rt : Runtime)
    (hrange : ∀ ks, (rt.mapRange ks).Perm ks) (threshold : Int) (fields : List Field)
    (hnames : ∀ f ∈ fields, f.Names ≠ [])
    (hshort : ∀ f ∈ fields, ((tokensOf f).length : Int) < threshold) :
    GroupFieldsByPascalCase rt fields threshold = .ok [("ungrouped", fields)] := by
  have hnil : rt.mapRange [] = [] := List.Perm.eq_nil (hrange [])
  simp [GroupFieldsByPascalCase, groupLoop_all_short threshold fields hnames hshort,
    Groups.keys, hnil, dissolveLoop, Groups.set]

/-! ## A field that points to a known struct -/

theorem messageText_head (structName : String) (depth : Nat) (lines : List String) :
    (messageText structName depth lines).data.head? = some 'm' := by
  simp [messageText, String.data_append]

theorem convertTypeToProtobuf_messageText (structName : String) (depth : Nat)
    (lines : List String) :
    convertTypeToProtobuf (messageText structName depth lines)
      = messageText structName depth lines := by
  apply convertTypeToProtobuf_default
  intro hmem
  have hd := messageText_head structName depth lines
  rcases mem_scalarNames _ hmem with h | h | h | h | h | h | h | h | h | h | h | h | h | h | h <;>
    (rw [h] at hd; revert hd; decide)

theorem generateProtobufStruct_ok_form (rt : Runtime) (store : Store) (fuel : Nat)
    (structName : String) (structType : StructRef) (depth : Nat) (threshold : Int)
    (text : String)
    (h : generateProtobufStruct rt store fuel structName structType depth threshold = .ok text) :
    ∃ lines, text = messageText structName depth lines := by
  cases fuel with
  | zero => simp [generateProtobufStruct] at h
  | succ fuel =>
    rw [generateProtobufStruct] at h
    unfold generateProtobufStructWith at h
    split at h
    · cases h
    · split at h
      · cases h
      · simp only at h
        split at h
        · cases h
        · split at h
          · cases h
          · rename_i lines _ _
            simp only [Except.ok.injEq] at h
            exact ⟨lines, h.symm⟩

theorem ungroupedLine_pointer_to_struct (rt : Runtime) (store : Store) (fuel : Nat)
    (threshold : Int) (depth : Nat) (f : Field) (S : String) (nested : StructRef) (n : Nat)
    (hf : f.type = .StarExpr (structIdent S nested)) :
    ungroupedLine (fun e d => fieldTypeToString rt store fuel e d threshold) depth f n =
      (match generateProtobufStruct rt store fuel S nested 1 threshold with
       | .error e => .error e
       | .ok text =>
         .ok (spaces ((depth + 1) * 2) ++ text ++ "\n"
           ++ fieldLine ((depth + 1) * 2) S f.Names n)) := by
  obtain ⟨names, ty⟩ := f
  simp only at hf
  subst hf
  simp only [ungroupedLine, fieldTypeToString, fieldTypeToStringWith, structIdent,
    getFieldNames_eq, if_true, Nat.zero_add]
  cases hgen : generateProtobufStruct rt store fuel S nested 1 threshold with
  | error e => rfl
  | ok text =>
    obtain ⟨lines, hl⟩ := generateProtobufStruct_ok_form rt store fuel S nested 1 threshold
      text hgen
    simp [nestedFieldLine, hl, convertTypeToProtobuf_messageText]

set_option maxRecDepth 100000 in
theorem generateProtobufStruct_MyStruct :
    generateProtobufStruct goRuntime exampleStore 2 "MyStruct" 1 0 maxInt
      = .ok expectedMyStruct := by
  rfl

theorem generateProtobufStruct_succ (rt : Runtime) (store : Store) (fuel : Nat)
    (structName : String) (structType : StructRef) (depth : Nat) (threshold : Int) :
    generateProtobufStruct rt store (fuel + 1) structName structType depth threshold =
      generateProtobufStructWith rt (fun e d => fieldTypeToString rt store fuel e d threshold)
        structName (store structType) depth threshold := by
  rfl

theorem collect_ok_of_forall {α : Type} (l : List (Except Fault α))
    (h : ∀ r ∈ l, ∃ a, r = .ok a) : ∃ results, collect l = .ok results ∧ results.length = l.length := by
  induction l with
  | nil => exact ⟨[], rfl, rfl⟩
  | cons r rest ih =>
    obtain ⟨a, ha⟩ := h r (List.mem_cons_self r rest)
    obtain ⟨others, ho, hlen⟩ := ih (fun x hx => h x (List.mem_cons_of_mem r hx))
    refine ⟨a :: others, ?_, by simp [hlen]⟩
    simp only [collect, ha, ho]

theorem generateProtobufStruct_all_short (rt : Runtime) (hrt : rt.Lawful) (store : Store)
    (fuel : Nat) (structName : String) (structType : StructRef) (depth : Nat) (threshold : Int)
    (hnames : ∀ f ∈ store structType, f.Names ≠ [])
    (hdistinct : ((store structType).map firstNameD).Nodup)
    (hshort : ∀ f ∈ store structType, ((tokensOf f).length : Int) < threshold) :
    GroupFieldsByPascalCase rt (rt.sortSlice (store structType)) threshold
      = .ok [("ungrouped", rt.sortSlice (store structType))] ∧
    generateProtobufStruct rt store (fuel + 1) structName structType depth threshold =
      (match collect ((numberedFrom 1 (rt.sortSlice (store structType))).map (fun p =>
          ungroupedLine (fun e d => fieldTypeToString rt store fuel e d threshold)
            depth p.1 p.2)) with
       | .error e => .error e
       | .ok lines => .ok (messageText structName depth lines)) := by
  have hperm := hrt.sort_perm (store structType)
  have hsnames : ∀ f ∈ rt.sortSlice (store structType), f.Names ≠ [] :=
    fun f hf => hnames f (hperm.mem_iff.1 hf)
  have hsshort : ∀ f ∈ rt.sortSlice (store structType), ((tokensOf f).length : Int) < threshold :=
    fun f hf => hshort f (hperm.mem_iff.1 hf)
  have hgroups := GroupFieldsByPascalCase_all_short rt hrt.range_perm threshold
    (rt.sortSlice (store structType)) hsnames hsshort
  refine ⟨hgroups, ?_⟩
  rw [generateProtobufStruct_succ,
    generateProtobufStructWith_eq rt _ structName (store structType) depth threshold
      _ hnames hgroups]
  have hkeys : (sortStrings (Groups.keys [("ungrouped", rt.sortSlice (store structType))])).filter
      (fun k => k ≠ "ungrouped") = [] := by
    simp [Groups.keys, sortStrings]
  have hget : Groups.get [("ungrouped", rt.sortSlice (store structType))] "ungrouped"
      = rt.sortSlice (store structType) := by
    simp [Groups.get]
  rw [hkeys, hget, sortSlice_idem rt hrt _ hdistinct]
  unfold numberedRendering
  cases collect ((numberedFrom 1 (rt.sortSlice (store structType))).map (fun p =>
      ungroupedLine (fun e d => fieldTypeToString rt store fuel e d threshold)
        depth p.1 p.2)) with
  | error e => rfl
  | ok lines => simp [numberedFrom, collect]

theorem generateProtobufStruct_congr_runtime (rt : Runtime) (hrt : rt.Lawful) (store : Store)
    (fuel : Nat) (structName : String) (structType : StructRef) (depth : Nat) (threshold : Int)
    (hnames : ∀ f ∈ store structType, f.Names ≠ [])
    (hdistinct : ((store structType).map firstNameD).Nodup)
    (hshort : ∀ f ∈ store structType, ((tokensOf f).length : Int) < threshold)
    (hlines : ∀ f ∈ store structType, ∀ n,
      ungroupedLine (fun e d => fieldTypeToString rt store fuel e d threshold) depth f n =
      ungroupedLine (fun e d => fieldTypeToString goRuntime store fuel e d threshold) depth f n) :
    generateProtobufStruct rt store (fuel + 1) structName structType depth threshold =
      generateProtobufStruct goRuntime store (fuel + 1) structName structType depth threshold := by
  rw [(generateProtobufStruct_all_short rt hrt store fuel structName structType depth threshold
      hnames hdistinct hshort).2,
    (generateProtobufStruct_all_short goRuntime goRuntime_lawful store fuel structName structType
      depth threshold hnames hdistinct hshort).2]
  have hsame : rt.sortSlice (store structType) = goRuntime.sortSlice (store structType) :=
    eq_of_perm_of_strict _ _
      ((hrt.sort_perm _).trans (goRuntime_lawful.sort_perm _).symm)
      (sortSlice_strict rt hrt _ hdistinct)
      (sortSlice_strict goRuntime goRuntime_lawful _ hdistinct)
  rw [hsame]
  have hmap : (numberedFrom 1 (goRuntime.sortSlice (store structType))).map (fun p =>
        ungroupedLine (fun e d => fieldTypeToString rt store fuel e d threshold) depth p.1 p.2)
      = (numberedFrom 1 (goRuntime.sortSlice (store structType))).map (fun p =>
        ungroupedLine (fun e d => fieldTypeToString goRuntime store fuel e d threshold)
          depth p.1 p.2) := by
    apply List.map_congr_left
    intro p hp
    have hmem : p.1 ∈ goRuntime.sortSlice (store structType) := by
      obtain ⟨a, n⟩ := p
      exact (List.of_mem_zip hp).1
    exact hlines p.1 ((goRuntime_lawful.sort_perm _).mem_iff.1 hmem) p.2
  rw [hmap]

theorem generateProtobufStruct_NestedStruct (rt : Runtime) (hrt : rt.Lawful) (fuel depth : Nat) :
    generateProtobufStruct rt exampleStore (fuel + 1) "NestedStruct" 0 depth maxInt =
      generateProtobufStruct goRuntime exampleStore (fuel + 1) "NestedStruct" 0 depth maxInt := by
  apply generateProtobufStruct_congr_runtime rt hrt exampleStore fuel "NestedStruct" 0 depth
    maxInt (by decide) (by decide) (by decide)
  intro f hf n
  have hf2 : f ∈ exampleFields := hf
  simp only [exampleFields, List.mem_cons, List.mem_singleton, List.not_mem_nil, or_false] at hf2
  rcases hf2 with h | h | h | h <;> subst h <;> rfl

theorem generateProtobufStruct_MyStruct_any (rt : Runtime) (hrt : rt.Lawful) :
    generateProtobufStruct rt exampleStore 2 "MyStruct" 1 0 maxInt = .ok expectedMyStruct := by
  rw [← generateProtobufStruct_MyStruct]
  apply generateProtobufStruct_congr_runtime rt hrt exampleStore 1 "MyStruct" 1 0
    maxInt (by decide) (by decide) (by decide)
  intro f hf n
  have hf2 : f ∈ exampleFields ++ [⟨["Nested"], .StarExpr (structIdent "NestedStruct" 0)⟩] := hf
  simp only [exampleFields, List.cons_append, List.nil_append, List.mem_cons, List.mem_singleton,
    List.not_mem_nil, or_false] at hf2
  rcases hf2 with h | h | h | h | h
  · subst h; rfl
  · subst h; rfl
  · subst h; rfl
  · subst h; rfl
  · subst h
    rw [ungroupedLine_pointer_to_struct rt exampleStore 1 maxInt 0 _ "NestedStruct" 0 n rfl,
      ungroupedLine_pointer_to_struct goRuntime exampleStore 1 maxInt 0 _ "NestedStruct" 0 n rfl,
      generateProtobufStruct_NestedStruct rt hrt 0 1]

theorem generateProtobufDefinition_MyStruct_any (rt : Runtime) (hrt : rt.Lawful) :
    generateProtobufDefinition rt exampleStore 2 (some exampleFile) "MyStruct" 0 maxInt
      = .ok (.ok expectedMyStruct) := by
  rw [generateProtobufDefinition_located rt exampleStore 2 exampleFile "MyStruct" 0 maxInt 1
    (by decide) (by rfl)]
  have hguard : checkRecursiveStruct exampleStore 1 "MyStruct" = .ok (false, "") := by rfl
  simp only [guardThenGenerate, hguard, generateProtobufStruct_MyStruct_any rt hrt]

/-! ## The source at inputs where it leaves the specification -/

set_option maxRecDepth 100000 in
/-- C12, the source at `type Order struct { UserHome *Addr; UserWork Addr }` and
threshold 1, where both fields fall into the group `User`: inside the group the
nested message text of `Addr` is the type token of the field line (`message Addr
... user_home = 1;`), for the pointer and for the plain struct field alike; the
same field among the ungrouped fields gets the nested message text on lines of
its own and then the field line `Addr user_home = 1;`. -/
theorem C12_grouped_struct_field :
    groupedLine (fun e d => fieldTypeToString goRuntime orderStore 1 e d 1) 0
        ⟨["UserHome"], .StarExpr (structIdent "Addr" 0)⟩ 0
      = .ok "    message Addr \x7b\n    string city = 1;\n  \x7d user_home = 1;" ∧
    groupedLine (fun e d => fieldTypeToString goRuntime orderStore 1 e d 1) 0
        ⟨["UserWork"], structIdent "Addr" 0⟩ 1
      = .ok "    message Addr \x7b\n    string city = 1;\n  \x7d user_work = 2;" ∧
    ungroupedLine (fun e d => fieldTypeToString goRuntime orderStore 1 e d 1) 0
        ⟨["UserHome"], .StarExpr (structIdent "Addr" 0)⟩ 1
      = .ok "  message Addr \x7b\n    string city = 1;\n  \x7d\n  Addr user_home = 1;" ∧
    generateProtobufStruct goRuntime orderStore 2 "Order" 1 0 1
      = .ok "message Order \x7b\n  message User \x7b\n    message Addr \x7b\n    string city = 1;\n  \x7d user_home = 1;\n    message Addr \x7b\n    string city = 1;\n  \x7d user_work = 2;\n  \x7d\n  User user = 1;\n\x7d" := by
  refine ⟨by rfl, by rfl, by rfl, by rfl⟩

set_option maxRecDepth 100000 in
/-- C13, the source at `type Event struct { When *time.Time }`: resolving the
type of the field gives `time.Time`, which the scalar table maps to `int64`, but
the guard panics at `fieldType.X.(*ast.Ident)` and the emitter at
`t.X.(*ast.Ident)`, so that neither `checkRecursiveStruct` nor
`generateProtobufStruct` nor `generateProtobufDefinition` returns. -/
theorem C13_pointer_to_qualified_type :
    fieldTypeToString goRuntime eventStore 1 (.StarExpr timeTime) 0 maxInt = .ok "time.Time" ∧
    convertTypeToProtobuf "time.Time" = "int64" ∧
    checkRecursiveStruct eventStore 0 "Event" = .error .runtimePanic ∧
    generateProtobufStruct goRuntime eventStore 1 "Event" 0 0 maxInt = .error .runtimePanic ∧
    generateProtobufDefinition goRuntime eventStore 1 (some eventFile) "Event" 0 maxInt
      = .error .runtimePanic := by
  refine ⟨by rfl, by decide, by rfl, by rfl, by rfl⟩

set_option maxRecDepth 100000 in
/-- C14, the source at threshold -1 and `MyStruct` of the test data, whose fields
all have a name: the threshold passes the check against 0, and
`GroupFieldsByPascalCase` panics at the slice `matches[:threshold]` on the first
field, so that `generateProtobufDefinition` does not return. -/
theorem C14_negative_threshold :
    (∀ f ∈ exampleStore 1, f.Names ≠ []) ∧
    GroupFieldsByPascalCase goRuntime (exampleStore 1) (-1) = .error .runtimePanic ∧
    generateProtobufDefinition goRuntime exampleStore 2 (some exampleFile) "MyStruct" 0 (-1)
      = .error .runtimePanic := by
  refine ⟨by decide, by rfl, by rfl⟩

set_option maxRecDepth 100000 in
/-- C16, the source on `type Mid struct { P *Leaf; Q Leaf }`, rendered at depth 1
as the struct of the field `M *Mid` of `Outer`: at depth 1 the pointer to `Leaf`
resolves to the rendering of `Leaf` at depth 1 and the plain `Leaf` to its
rendering at depth 2, two different texts (at depth 0 they agree), because
`fieldTypeToString` goes on below a pointer with depth 0. -/
theorem C16_pointer_resets_depth :
    fieldTypeToString goRuntime nestingStore 1 (.StarExpr (structIdent "Leaf" 0)) 1 maxInt
      = .ok "message Leaf \x7b\n    int32 x = 1;\n  \x7d" ∧
    fieldTypeToString goRuntime nestingStore 1 (structIdent "Leaf" 0) 1 maxInt
      = .ok "message Leaf \x7b\n      int32 x = 1;\n    \x7d" ∧
    fieldTypeToString goRuntime nestingStore 1 (.StarExpr (structIdent "Leaf" 0)) 1 maxInt
      ≠ fieldTypeToString goRuntime nestingStore 1 (structIdent "Leaf" 0) 1 maxInt ∧
    fieldTypeToString goRuntime nestingStore 1 (.StarExpr (structIdent "Leaf" 0)) 0 maxInt
      = fieldTypeToString goRuntime nestingStore 1 (structIdent "Leaf" 0) 0 maxInt ∧
    generateProtobufDefinition goRuntime nestingStore 3 (some nestingFile) "Outer" 0 maxInt
      = .ok (.ok "message Outer \x7b\n  message Mid \x7b\n    message Leaf \x7b\n    int32 x = 1;\n  \x7d\n    Leaf p = 1;\n    message Leaf \x7b\n      int32 x = 1;\n    \x7d\n    Leaf q = 2;\n  \x7d\n  Mid m = 1;\n\x7d") := by
  have h1 : fieldTypeToString goRuntime nestingStore 1 (.StarExpr (structIdent "Leaf" 0)) 1 maxInt
      = .ok "message Leaf \x7b\n    int32 x = 1;\n  \x7d" := by rfl
  have h2 : fieldTypeToString goRuntime nestingStore 1 (structIdent "Leaf" 0) 1 maxInt
      = .ok "message Leaf \x7b\n      int32 x = 1;\n    \x7d" := by rfl
  refine ⟨h1, h2, ?_, by rfl, by rfl⟩
  rw [h1, h2]
  intro h
  have h3 := Except.ok.inj h
  revert h3
  decide

set_option maxRecDepth 100000 in
/-- C17, the source on `type User struct { UserName string; UserAge int }` with
threshold 1, rendered at depth 1 as the struct of the field `Owner *User` of
`Account`: the opening line and the closing brace of the group `User` are indented
by 1+1*2 = 3 spaces, not by 2*(1+1) = 4 as the field lines of the enclosing
message are; the field lines of the group are indented by 2*(1+2) = 6 spaces. -/
theorem C17_group_indentation :
    groupMessage 1 "User" ["      int32 user_age = 1;", "      string user_name = 2;"]
      = "   message User \x7b\n      int32 user_age = 1;\n      string user_name = 2;\n   \x7d" ∧
    groupRefLine 1 "User" 1 = "    User user = 1;" ∧
    generateProtobufStruct goRuntime accountStore 1 "User" 0 1 1
      = .ok "message User \x7b\n   message User \x7b\n      int32 user_age = 1;\n      string user_name = 2;\n   \x7d\n    User user = 1;\n  \x7d" ∧
    generateProtobufDefinition goRuntime accountStore 2 (some accountFile) "Account" 0 1
      = .ok (.ok "message Account \x7b\n  message User \x7b\n   message User \x7b\n      int32 user_age = 1;\n      string user_name = 2;\n   \x7d\n    User user = 1;\n  \x7d\n  User owner = 1;\n\x7d") := by
  refine ⟨by rfl, by rfl, by rfl, by rfl⟩

/-! ## The errors of the entry point -/

theorem generateProtobufDefinition_zero (rt : Runtime) (store : Store) (fuel : Nat)
    (parsed : Option (List Decl)) (structName : String) (depth : Nat) :
    generateProtobufDefinition rt store fuel parsed structName depth 0
      = .ok (.error .zeroThreshold) := by
  simp [generateProtobufDefinition]

theorem generateProtobufDefinition_not_located (rt : Runtime) (store : Store) (fuel : Nat)
    (decls : List Decl) (structName : String) (depth : Nat) (threshold : Int)
    (hthr : threshold ≠ 0) (hloc : locateStruct structName decls = none) :
    generateProtobufDefinition rt store fuel (some decls) structName depth threshold
      = .ok (.error (.notFound structName)) := by
  simp only [generateProtobufDefinition, if_neg hthr, findInDecls_eq_locate, hloc, Option.map_none']

theorem find_isPointerTo_none (target : String) (fields : List Field)
    (h : ∀ f ∈ fields, isPointerTo target f = false) :
    fields.find? (isPointerTo target) = none := by
  rw [List.find?_eq_none]
  intro f hf
  simp [h f hf]

/-- C15: for a parsed declaration set `D`, a name `n` and a threshold `g`, where the
struct named `n`, if there is one, has no direct field of type pointer-to-`n`,
`generateProtobufDefinition` returns an error exactly when `g = 0` or `D` has no
declaration named `n` whose type is a struct.  With `g = 0` the error is the
grouping-value error, whatever was parsed and whatever the name; with `g` not 0
and no struct of that name it is the not-found error; and when the struct is
there (its pointer fields pointing to identifiers) the call ends as
`generateProtobufStruct` does, with the text or without returning. -/
theorem C15_generateProtobufDefinition_errors (rt : Runtime) (store : Store) (fuel : Nat)
    (decls : List Decl) (structName : String) (depth : Nat) (threshold : Int)
    (hself : ∀ ref, locateStruct structName decls = some ref →
      ∀ f ∈ store ref, isPointerTo structName f = false) :
    ((∃ e, generateProtobufDefinition rt store fuel (some decls) structName depth threshold
        = .ok (.error e)) ↔ (threshold = 0 ∨ locateStruct structName decls = none)) ∧
    (threshold = 0 → ∀ (parsed : Option (List Decl)) (name : String),
      generateProtobufDefinition rt store fuel parsed name depth threshold
        = .ok (.error .zeroThreshold)) ∧
    (threshold ≠ 0 → locateStruct structName decls = none →
      generateProtobufDefinition rt store fuel (some decls) structName depth threshold
        = .ok (.error (.notFound structName))) ∧
    (threshold ≠ 0 → ∀ ref, locateStruct structName decls = some ref →
      (∀ f ∈ store ref, pointsToIdent f = true) →
      generateProtobufDefinition rt store fuel (some decls) structName depth threshold =
        (match generateProtobufStruct rt store fuel structName ref depth threshold with
         | .error e => .error e
         | .ok text => .ok (.ok text))) := by
  refine ⟨?_, ?_, ?_, ?_⟩
  · constructor
    · rintro ⟨e, he⟩
      by_cases hthr : threshold = 0
      · exact Or.inl hthr
      · right
        cases hloc : locateStruct structName decls with
        | none => rfl
        | some ref =>
          rw [generateProtobufDefinition_located rt store fuel decls structName depth threshold
            ref hthr hloc] at he
          cases hgen : guardThenGenerate rt store fuel structName depth threshold ref with
          | error f => rw [hgen] at he; cases he
          | ok text => rw [hgen] at he; cases he
    · rintro (hthr | hloc)
      · subst hthr
        exact ⟨_, generateProtobufDefinition_zero rt store fuel (some decls) structName depth⟩
      · by_cases hthr : threshold = 0
        · subst hthr
          exact ⟨_, generateProtobufDefinition_zero rt store fuel (some decls) structName depth⟩
        · exact ⟨_, generateProtobufDefinition_not_located rt store fuel decls structName depth
            threshold hthr hloc⟩
  · intro hthr parsed name
    subst hthr
    exact generateProtobufDefinition_zero rt store fuel parsed name depth
  · intro hthr hloc
    exact generateProtobufDefinition_not_located rt store fuel decls structName depth
      threshold hthr hloc
  · intro hthr ref hloc hptr
    rw [generateProtobufDefinition_located rt store fuel decls structName depth threshold
      ref hthr hloc]
    have hguard : checkRecursiveStruct store ref structName = .ok (false, "") := by
      unfold checkRecursiveStruct checkRecursiveStructRecursive
      exact checkRecursiveLoop_none structName _ hptr
        (find_isPointerTo_none structName _ (hself ref hloc))
    simp only [guardThenGenerate, hguard]

set_option maxRecDepth 100000 in
/-- C15 at the test data: `MyStruct` has no pointer to itself; with threshold 0
the grouping-value error, for the absent name `Missing` and for `MyInt`, declared
with a type that is no struct, the not-found error, and for `MyStruct` no error
but the text. -/
theorem C15_witness :
    (∀ ref, locateStruct "MyStruct" exampleFile = some ref →
      ∀ f ∈ exampleStore ref, isPointerTo "MyStruct" f = false) ∧
    generateProtobufDefinition goRuntime exampleStore 2 (some exampleFile) "MyStruct" 0 0
      = .ok (.error .zeroThreshold) ∧
    generateProtobufDefinition goRuntime exampleStore 2 (some exampleFile) "Missing" 0 maxInt
      = .ok (.error (.notFound "Missing")) ∧
    generateProtobufDefinition goRuntime exampleStore 2 (some aliasFile) "MyInt" 0 maxInt
      = .ok (.error (.notFound "MyInt")) ∧
    ((∃ e, generateProtobufDefinition goRuntime exampleStore 2 (some exampleFile) "MyStruct" 0
        maxInt = .ok (.error e)) ↔
      (maxInt = 0 ∨ locateStruct "MyStruct" exampleFile = none)) ∧
    ¬ ∃ e, generateProtobufDefinition goRuntime exampleStore 2 (some exampleFile) "MyStruct" 0
        maxInt = .ok (.error e) := by
  have hloc : locateStruct "MyStruct" exampleFile = some 1 := by rfl
  have hself : ∀ ref, locateStruct "MyStruct" exampleFile = some ref →
      ∀ f ∈ exampleStore ref, isPointerTo "MyStruct" f = false := by
    intro ref href
    rw [hloc] at href
    cases href
    decide
  have h := C15_generateProtobufDefinition_errors goRuntime exampleStore 2 exampleFile
    "MyStruct" 0 maxInt hself
  refine ⟨hself, by rfl, by rfl, by rfl, h.1, ?_⟩
  intro hex
  rcases h.1.1 hex with h0 | hnone
  · exact absurd h0 (by decide)
  · rw [hloc] at hnone
    cases hnone

/-! ## The grouper partitions its input -/

theorem Groups.all_cons (k : String) (v : List Field) (rest : Groups) :
    Groups.all ((k, v) :: rest) = v ++ Groups.all rest := by
  simp [Groups.all]

theorem Groups.all_set_append (groups : Groups) (key : String) (f : Field) :
    (Groups.all (groups.set key (groups.get key ++ [f]))).Perm (Groups.all groups ++ [f]) := by
  induction groups with
  | nil => simp [Groups.set, Groups.get, Groups.all]
  | cons e rest ih =>
    obtain ⟨k, v⟩ := e
    by_cases hk : k = key
    · subst hk
      simp only [Groups.set, Groups.get, if_true, Groups.all_cons, List.append_assoc]
      exact List.Perm.append_left v List.perm_append_comm
    · simp only [Groups.set, Groups.get, if_neg hk, Groups.all_cons, List.append_assoc]
      exact List.Perm.append_left v ih

theorem Groups.delete_of_not_mem (groups : Groups) (key : String) (h : key ∉ groups.keys) :
    groups.delete key = groups := by
  unfold Groups.delete
  rw [List.filter_eq_self]
  intro e he
  have hne : e.1 ≠ key := by
    intro heq
    apply h
    rw [← heq]
    exact List.mem_map_of_mem Prod.fst he
  simpa using hne

theorem Groups.all_delete_single (groups : Groups) (key : String) (single : Field)
    (hnd : groups.keys.Nodup) (hget : groups.get key = [single]) :
    (Groups.all (groups.delete key) ++ [single]).Perm (Groups.all groups) := by
  induction groups with
  | nil => simp [Groups.get] at hget
  | cons e rest ih =>
    obtain ⟨k, v⟩ := e
    have hk : k ∉ Groups.keys rest := by
      simp only [Groups.keys, List.map_cons, List.nodup_cons] at hnd
      exact hnd.1
    have hrest : (Groups.keys rest).Nodup := by
      simp only [Groups.keys, List.map_cons, List.nodup_cons] at hnd
      exact hnd.2
    by_cases hkk : k = key
    · subst hkk
      have hv : v = [single] := by simpa [Groups.get] using hget
      have hdel : Groups.delete ((k, v) :: rest) k = rest := by
        have h1 := Groups.delete_of_not_mem rest k hk
        unfold Groups.delete at h1 ⊢
        rw [List.filter_cons]
        simp only [ne_eq, not_true_eq_false, decide_False, Bool.false_eq_true, if_false]
        exact h1
      rw [hdel, Groups.all_cons, hv]
      exact List.perm_append_comm
    · have hget2 : Groups.get rest key = [single] := by
        simpa [Groups.get, hkk] using hget
      have hdel : Groups.delete ((k, v) :: rest) key = (k, v) :: Groups.delete rest key := by
        unfold Groups.delete
        rw [List.filter_cons]
        simp [hkk]
      rw [hdel, Groups.all_cons, Groups.all_cons, List.append_assoc]
      exact List.Perm.append_left v (ih hrest hget2)

theorem Groups.set_of_not_mem (groups : Groups) (key : String) (value : List Field)
    (h : key ∉ groups.keys) : groups.set key value = groups ++ [(key, value)] := by
  induction groups with
  | nil => rfl
  | cons e rest ih =>
    obtain ⟨k, v⟩ := e
    simp only [Groups.keys, List.map_cons, List.mem_cons, not_or] at h
    simp only [Groups.set, if_neg (Ne.symm h.1), List.cons_append]
    rw [ih h.2]

theorem groupLoop_perm (threshold : Int) (hg : 0 ≤ threshold) (fields : List Field)
    (hnames : ∀ f ∈ fields, f.Names ≠ []) (groups : Groups) (ungrouped : List Field)
    (r : Groups × List Field) (h : groupLoop threshold fields groups ungrouped = .ok r) :
    (Groups.all r.1 ++ r.2).Perm (Groups.all groups ++ ungrouped ++ fields) := by
  induction fields generalizing groups ungrouped with
  | nil =>
    simp only [groupLoop, Except.ok.injEq] at h
    subst h
    simp
  | cons f rest ih =>
    have hrest : ∀ g ∈ rest, g.Names ≠ [] := fun g hg2 => hnames g (List.mem_cons_of_mem f hg2)
    rw [groupLoop_step threshold hg f (hnames f (List.mem_cons_self f rest))] at h
    cases hkey : groupKey threshold.toNat f with
    | none =>
      rw [hkey] at h
      refine (ih hrest groups (ungrouped ++ [f]) h).trans ?_
      simp
    | some group =>
      rw [hkey] at h
      refine (ih hrest _ ungrouped h).trans ?_
      have hp := Groups.all_set_append groups group f
      refine ((hp.append_right ungrouped).append_right rest).trans ?_
      simp only [List.append_assoc]
      apply List.Perm.append_left
      simp only [List.singleton_append]
      exact List.perm_middle.symm

theorem dissolveLoop_perm (visited : List String) (groups : Groups) (ungrouped : List Field)
    (hnd : groups.keys.Nodup) :
    (Groups.all (dissolveLoop visited groups ungrouped).1
      ++ (dissolveLoop visited groups ungrouped).2).Perm (Groups.all groups ++ ungrouped) := by
  induction visited generalizing groups ungrouped with
  | nil => simp [dissolveLoop]
  | cons k rest ih =>
    rw [dissolveLoop_step]
    by_cases hone : (groups.get k).length = 1
    · rw [if_pos hone]
      obtain ⟨single, hsingle⟩ := List.length_eq_one.1 hone
      refine (ih (groups.delete k) (ungrouped ++ groups.get k)
        (Groups.nodup_keys_delete groups k hnd)).trans ?_
      rw [hsingle]
      have hd := Groups.all_delete_single groups k single hnd hsingle
      have hswap : (Groups.all (groups.delete k) ++ (ungrouped ++ [single])).Perm
          (Groups.all (groups.delete k) ++ [single] ++ ungrouped) := by
        rw [List.append_assoc]
        exact List.Perm.append_left _ List.perm_append_comm
      exact hswap.trans (List.Perm.append_right ungrouped hd)
    · rw [if_neg hone]
      exact ih groups ungrouped hnd

theorem tokensOf_isToken (f : Field) : ∀ t ∈ tokensOf f, IsToken t :=
  findAllPascal_isToken _

theorem groupKey_ne_ungrouped (g : Nat) (hg : 1 ≤ g) (f : Field) :
    groupKey g f ≠ some "ungrouped" := by
  intro h
  obtain ⟨hlen, hjoin⟩ := groupKey_some g f "ungrouped" h
  cases htok : tokensOf f with
  | nil =>
    rw [htok] at hlen
    simp at hlen
    omega
  | cons t rest =>
    obtain ⟨c, lows, ht, hc, _⟩ := tokensOf_isToken f t (by rw [htok]; exact List.mem_cons_self t rest)
    obtain ⟨n, hn⟩ : ∃ n, g = n + 1 := ⟨g - 1, by omega⟩
    rw [htok, hn, List.take_succ_cons] at hjoin
    have hdata := congrArg String.data hjoin
    rw [data_stringsJoin_empty, ht] at hdata
    simp only [List.map_cons, List.flatten_cons, List.cons_append] at hdata
    have hhead : c = 'u' := by
      have := congrArg List.head? hdata
      simpa using this
    rw [hhead] at hc
    revert hc
    decide

/-- C20: for a threshold of at least 1 no field gets the key `ungrouped`, the
call returns a map when every field has a name, and in every map it returns the
keys are distinct and the lists, concatenated, are a permutation of the input:
every field is in one list, once. -/
theorem C20_grouper_partitions (rt : Runtime) (hrange : ∀ ks, (rt.mapRange ks).Perm ks)
    (fields : List Field) (threshold : Int) (hg : 1 ≤ threshold) :
    (∀ f, groupKey threshold.toNat f ≠ some "ungrouped") ∧
    ((∀ f ∈ fields, f.Names ≠ []) →
      ∃ groups, GroupFieldsByPascalCase rt fields threshold = .ok groups) ∧
    (∀ groups, GroupFieldsByPascalCase rt fields threshold = .ok groups →
      (Groups.all groups).Perm fields ∧ groups.keys.Nodup ∧
      ∀ f, List.count f (Groups.all groups) = List.count f fields) := by
  have hg0 : 0 ≤ threshold := by omega
  have hkey : ∀ f, groupKey threshold.toNat f ≠ some "ungrouped" :=
    fun f => groupKey_ne_ungrouped threshold.toNat (by omega) f
  refine ⟨hkey, ?_, ?_⟩
  · intro hnames
    obtain ⟨groups, _, h, _⟩ := GroupFieldsByPascalCase_spec rt hrange fields threshold hg0 hnames
    exact ⟨groups, h⟩
  · intro groups hgroups
    have hnames := GroupFieldsByPascalCase_ok_names rt fields threshold groups hgroups
    obtain ⟨grown, h1, _, h3, h4⟩ := groupLoop_spec threshold hg0 fields hnames [] []
    have hnd : grown.keys.Nodup := h4 (by simp [Groups.keys])
    have hvnd : (rt.mapRange grown.keys).Nodup := (hrange grown.keys).nodup_iff.2 hnd
    obtain ⟨_, d2, d3, _⟩ := dissolveLoop_spec (rt.mapRange grown.keys) hvnd grown
      ([] ++ shortOf threshold.toNat fields)
    have hnot : "ungrouped" ∉
        (dissolveLoop (rt.mapRange grown.keys) grown ([] ++ shortOf threshold.toNat fields)).1.keys := by
      intro hmem
      have hin := ((d2 "ungrouped").1 hmem).1
      rcases (h3 "ungrouped").1 hin with hnil | ⟨f, _, hf⟩
      · simp [Groups.keys] at hnil
      · exact hkey f hf
    have hres : groups =
        (dissolveLoop (rt.mapRange grown.keys) grown ([] ++ shortOf threshold.toNat fields)).1
          ++ [("ungrouped",
            (dissolveLoop (rt.mapRange grown.keys) grown
              ([] ++ shortOf threshold.toNat fields)).2)] := by
      have hdef := hgroups
      simp only [GroupFieldsByPascalCase, h1, Except.ok.injEq] at hdef
      rw [← hdef, Groups.set_of_not_mem _ _ _ hnot]
    have hperm : (Groups.all groups).Perm fields := by
      rw [hres]
      have hp1 := dissolveLoop_perm (rt.mapRange grown.keys) grown
        ([] ++ shortOf threshold.toNat fields) hnd
      have hp2 := groupLoop_perm threshold hg0 fields hnames [] [] _ h1
      have hall : Groups.all
          ((dissolveLoop (rt.mapRange grown.keys) grown ([] ++ shortOf threshold.toNat fields)).1
            ++ [("ungrouped",
              (dissolveLoop (rt.mapRange grown.keys) grown
                ([] ++ shortOf threshold.toNat fields)).2)])
          = Groups.all
            (dissolveLoop (rt.mapRange grown.keys) grown ([] ++ shortOf threshold.toNat fields)).1
            ++ (dissolveLoop (rt.mapRange grown.keys) grown
              ([] ++ shortOf threshold.toNat fields)).2 := by
        simp [Groups.all]
      rw [hall]
      refine hp1.trans (hp2.trans ?_)
      simp [Groups.all]
    refine ⟨hperm, ?_, fun f => hperm.count_eq f⟩
    rw [hres]
    have hk : Groups.keys
        ((dissolveLoop (rt.mapRange grown.keys) grown ([] ++ shortOf threshold.toNat fields)).1
          ++ [("ungrouped",
            (dissolveLoop (rt.mapRange grown.keys) grown
              ([] ++ shortOf threshold.toNat fields)).2)])
        = Groups.keys
          (dissolveLoop (rt.mapRange grown.keys) grown ([] ++ shortOf threshold.toNat fields)).1
          ++ ["ungrouped"] := by
      simp [Groups.keys]
    rw [hk]
    refine List.Nodup.append (d3 hnd) (List.nodup_singleton _) ?_
    intro x hx1 hx2
    rw [List.mem_singleton] at hx2
    exact hnot (hx2 ▸ hx1)

/-- C20 at `UserName`, `UserAge`, `Id`, `count` and threshold 1: the lists `User`
and `ungrouped` together hold the four fields, each once. -/
theorem C20_witness :
    (1 : Int) ≤ 1 ∧
    GroupFieldsByPascalCase goRuntime userFields 1 =
      .ok [("User", [⟨["UserName"], prim "string"⟩, ⟨["UserAge"], prim "int"⟩]),
           ("ungrouped", [⟨["count"], prim "int"⟩, ⟨["Id"], prim "int64"⟩])] ∧
    (Groups.all [("User", [⟨["UserName"], prim "string"⟩, ⟨["UserAge"], prim "int"⟩]),
           ("ungrouped", [⟨["count"], prim "int"⟩, ⟨["Id"], prim "int64"⟩])]).Perm userFields :=
  ⟨by decide, by rfl,
   ((C20_grouper_partitions goRuntime (fun ks => List.Perm.refl ks) userFields 1
      (by decide)).2.2 _ (by rfl)).1⟩

/-! ## The order of the body -/

theorem sortStrings_perm (l : List String) : (sortStrings l).Perm l :=
  List.perm_insertionSort _ l

theorem sortStrings_sorted (l : List String) :
    (sortStrings l).Pairwise (fun a b => a.data ≤ b.data) :=
  @List.sorted_insertionSort String (fun a b => a.data ≤ b.data) _
    ⟨fun a b => le_total a.data b.data⟩ ⟨fun _ _ _ h1 h2 => le_trans h1 h2⟩ l

theorem sortStrings_strict (l : List String) (hnd : l.Nodup) :
    (sortStrings l).Pairwise (fun a b => a.data < b.data) := by
  have hnd2 : (sortStrings l).Nodup := (sortStrings_perm l).nodup_iff.2 hnd
  refine ((sortStrings_sorted l).and hnd2).imp ?_
  intro a b hab
  exact lt_of_le_of_ne hab.1 (fun h => hab.2 (String.ext h))

theorem Groups.get_sublist_all (groups : Groups) (key : String) :
    (groups.get key).Sublist (Groups.all groups) := by
  induction groups with
  | nil => simp [Groups.get]
  | cons e rest ih =>
    obtain ⟨k, v⟩ := e
    rw [Groups.all_cons]
    by_cases hk : k = key
    · simp only [Groups.get, if_pos hk]
      exact List.sublist_append_left v _
    · simp only [Groups.get, if_neg hk]
      exact ih.trans (List.sublist_append_right v _)

theorem nodup_names_of_sublist_perm (l all fields : List Field) (hsub : l.Sublist all)
    (hperm : all.Perm fields) (hdistinct : (fields.map firstNameD).Nodup) :
    (l.map firstNameD).Nodup :=
  ((hperm.map firstNameD).nodup_iff.2 hdistinct).sublist (hsub.map firstNameD)

theorem membersOf_strict (g : Nat) (fields : List Field) (key : String)
    (h : fields.Pairwise (fun a b => (firstNameD a).data < (firstNameD b).data)) :
    (membersOf g fields key).Pairwise (fun a b => (firstNameD a).data < (firstNameD b).data) :=
  h.sublist (List.filter_sublist fields)

/-- C11: for a struct whose fields have distinct first names and a threshold of at
least 1, `generateProtobufStruct` is the rendering that puts first the lines of the
ungrouped fields, taken in ascending order of first name, and then, for the group
keys in ascending order, the sub-message of the group (its fields in ascending
order of first name) with, right after it, the line that refers to it; the
ungrouped fields are those of the `ungrouped` list, and the keys are the keys of
the map other than `ungrouped`. -/
theorem C11_body_order (rt : Runtime) (hrt : rt.Lawful) (store : Store) (fuel : Nat)
    (structName : String) (structType : StructRef) (depth : Nat) (threshold : Int)
    (hnames : ∀ f ∈ store structType, f.Names ≠ [])
    (hdistinct : ((store structType).map firstNameD).Nodup) (hg : 1 ≤ threshold) :
    ∃ (groups : Groups) (own : List Field) (keys : List String),
      GroupFieldsByPascalCase rt (rt.sortSlice (store structType)) threshold = .ok groups ∧
      generateProtobufStruct rt store (fuel + 1) structName structType depth threshold =
        numberedRendering (fun e d => fieldTypeToString rt store fuel e d threshold)
          structName depth groups own keys ∧
      own.Perm (groups.get "ungrouped") ∧
      own.Pairwise (fun a b => (firstNameD a).data < (firstNameD b).data) ∧
      (∀ key, key ∈ keys ↔ key ∈ groups.keys ∧ key ≠ "ungrouped") ∧
      keys.Pairwise (fun a b => a.data < b.data) ∧
      (∀ key ∈ keys, (groups.get key).Pairwise
        (fun a b => (firstNameD a).data < (firstNameD b).data)) ∧
      (∀ key ∈ keys, ∀ (nestedLines : List String) (n : Nat),
        groupMessage depth key nestedLines =
          spaces (depth + 1 * 2) ++ "message " ++ key ++ " \x7b\n"
            ++ stringsJoin nestedLines "\n" ++ "\n" ++ spaces (depth + 1 * 2) ++ "\x7d" ∧
        groupRefLine depth key n =
          spaces ((depth + 1) * 2) ++ key ++ " " ++ convertToSnakeCase key ++ " = "
            ++ fmtInt n ++ ";") := by
  have hperm := hrt.sort_perm (store structType)
  have hsnames : ∀ f ∈ rt.sortSlice (store structType), f.Names ≠ [] :=
    fun f hf => hnames f (hperm.mem_iff.1 hf)
  have hsdistinct : ((rt.sortSlice (store structType)).map firstNameD).Nodup :=
    (hperm.map firstNameD).nodup_iff.2 hdistinct
  have hg0 : 0 ≤ threshold := by omega
  obtain ⟨groups, visited, h, _, _, _, hget, hkeys, hnd⟩ :=
    GroupFieldsByPascalCase_spec rt hrt.range_perm (rt.sortSlice (store structType)) threshold
      hg0 hsnames
  have hall : (Groups.all groups).Perm (rt.sortSlice (store structType)) := by
    have hp := groupLoop_perm threshold hg0 _ hsnames [] []
    obtain ⟨grown, h1, _, h3, h4⟩ :=
      groupLoop_spec threshold hg0 (rt.sortSlice (store structType)) hsnames [] []
    have hgnd : grown.keys.Nodup := h4 (by simp [Groups.keys])
    have hvnd : (rt.mapRange grown.keys).Nodup := (hrt.range_perm grown.keys).nodup_iff.2 hgnd
    obtain ⟨_, d2, _, _⟩ := dissolveLoop_spec (rt.mapRange grown.keys) hvnd grown
      ([] ++ shortOf threshold.toNat (rt.sortSlice (store structType)))
    have hnot : "ungrouped" ∉ (dissolveLoop (rt.mapRange grown.keys) grown
        ([] ++ shortOf threshold.toNat (rt.sortSlice (store structType)))).1.keys := by
      intro hmem
      have hin := ((d2 "ungrouped").1 hmem).1
      rcases (h3 "ungrouped").1 hin with hnil | ⟨f, _, hf⟩
      · simp [Groups.keys] at hnil
      · exact groupKey_ne_ungrouped threshold.toNat (by omega) f hf
    have hdef := h
    simp only [GroupFieldsByPascalCase, h1, Except.ok.injEq] at hdef
    rw [← hdef, Groups.set_of_not_mem _ _ _ hnot]
    have hp1 := dissolveLoop_perm (rt.mapRange grown.keys) grown
      ([] ++ shortOf threshold.toNat (rt.sortSlice (store structType))) hgnd
    have hp2 := hp _ h1
    have hcat : ∀ (a : Groups) (u : List Field),
        Groups.all (a ++ [("ungrouped", u)]) = Groups.all a ++ u := by
      intro a u
      simp [Groups.all]
    rw [hcat]
    refine hp1.trans (hp2.trans ?_)
    simp [Groups.all]
  have hstrict := sortSlice_strict rt hrt (store structType) hdistinct
  refine ⟨groups, rt.sortSlice (groups.get "ungrouped"),
    (sortStrings groups.keys).filter (fun k => k ≠ "ungrouped"), h, ?_,
    hrt.sort_perm _, ?_, ?_, ?_, ?_, ?_⟩
  · rw [generateProtobufStruct_succ]
    exact generateProtobufStructWith_eq rt _ structName (store structType) depth threshold
      groups hnames h
  · exact sortSlice_strict rt hrt _
      (nodup_names_of_sublist_perm _ _ _ (Groups.get_sublist_all groups "ungrouped") hall
        hsdistinct)
  · intro key
    rw [List.mem_filter, (sortStrings_perm groups.keys).mem_iff]
    simp
  · exact (sortStrings_strict groups.keys hnd).sublist (List.filter_sublist _)
  · intro key hkey
    rw [List.mem_filter] at hkey
    have hne : key ≠ "ungrouped" := by simpa using hkey.2
    rw [hget key hne]
    by_cases hone : (membersOf threshold.toNat (rt.sortSlice (store structType)) key).length = 1
    · rw [if_pos hone]
      exact List.Pairwise.nil
    · rw [if_neg hone]
      exact membersOf_strict _ _ key hstrict
  · intro key _ nestedLines n
    exact ⟨rfl, rfl⟩

set_option maxRecDepth 100000 in
/-- C11 at `type User struct { UserName string; UserAge int; Id int64; count int }`
and threshold 1: `Id` and `count` first, then the group `User` with `UserAge`
before `UserName`, then the line that refers to the group. -/
theorem C11_witness :
    (∀ f ∈ userStore 0, f.Names ≠ []) ∧ ((userStore 0).map firstNameD).Nodup ∧
    (1 : Int) ≤ 1 ∧
    generateProtobufStruct goRuntime userStore 1 "User" 0 0 1 =
      .ok "message User \x7b\n  int64 id = 1;\n  int32 count = 2;\n  message User \x7b\n    int32 user_age = 1;\n    string user_name = 2;\n  \x7d\n  User user = 3;\n\x7d" ∧
    ∃ (groups : Groups) (own : List Field) (keys : List String),
      GroupFieldsByPascalCase goRuntime (goRuntime.sortSlice (userStore 0)) 1 = .ok groups ∧
      generateProtobufStruct goRuntime userStore (0 + 1) "User" 0 0 1 =
        numberedRendering (fun e d => fieldTypeToString goRuntime userStore 0 e d 1)
          "User" 0 groups own keys ∧
      own.Perm (groups.get "ungrouped") ∧
      own.Pairwise (fun a b => (firstNameD a).data < (firstNameD b).data) ∧
      (∀ key, key ∈ keys ↔ key ∈ groups.keys ∧ key ≠ "ungrouped") ∧
      keys.Pairwise (fun a b => a.data < b.data) ∧
      (∀ key ∈ keys, (groups.get key).Pairwise
        (fun a b => (firstNameD a).data < (firstNameD b).data)) ∧
      (∀ key ∈ keys, ∀ (nestedLines : List String) (n : Nat),
        groupMessage 0 key nestedLines =
          spaces (0 + 1 * 2) ++ "message " ++ key ++ " \x7b\n"
            ++ stringsJoin nestedLines "\n" ++ "\n" ++ spaces (0 + 1 * 2) ++ "\x7d" ∧
        groupRefLine 0 key n =
          spaces ((0 + 1) * 2) ++ key ++ " " ++ convertToSnakeCase key ++ " = "
            ++ fmtInt n ++ ";") :=
  ⟨by decide, by decide, by decide, by rfl,
   C11_body_order goRuntime goRuntime_lawful userStore 0 "User" 0 0 1
     (by decide) (by decide) (by decide)⟩

/-! ## The text does not depend on the runtime -/

theorem GroupFieldsByPascalCase_perm (rt : Runtime) (hrange : ∀ ks, (rt.mapRange ks).Perm ks)
    (fields : List Field) (threshold : Int) (hg : 1 ≤ threshold) (groups : Groups)
    (h : GroupFieldsByPascalCase rt fields threshold = .ok groups) :
    (Groups.all groups).Perm fields := by
  have hg0 : 0 ≤ threshold := by omega
  have hnames := GroupFieldsByPascalCase_ok_names rt fields threshold groups h
  obtain ⟨grown, h1, _, h3, h4⟩ := groupLoop_spec threshold hg0 fields hnames [] []
  have hgnd : grown.keys.Nodup := h4 (by simp [Groups.keys])
  have hvnd : (rt.mapRange grown.keys).Nodup := (hrange grown.keys).nodup_iff.2 hgnd
  obtain ⟨_, d2, _, _⟩ := dissolveLoop_spec (rt.mapRange grown.keys) hvnd grown
    ([] ++ shortOf threshold.toNat fields)
  have hnot : "ungrouped" ∉ (dissolveLoop (rt.mapRange grown.keys) grown
      ([] ++ shortOf threshold.toNat fields)).1.keys := by
    intro hmem
    have hin := ((d2 "ungrouped").1 hmem).1
    rcases (h3 "ungrouped").1 hin with hnil | ⟨f, _, hf⟩
    · simp [Groups.keys] at hnil
    · exact groupKey_ne_ungrouped threshold.toNat (by omega) f hf
  have hdef := h
  simp only [GroupFieldsByPascalCase, h1, Except.ok.injEq] at hdef
  rw [← hdef, Groups.set_of_not_mem _ _ _ hnot]
  have hp1 := dissolveLoop_perm (rt.mapRange grown.keys) grown
    ([] ++ shortOf threshold.toNat fields) hgnd
  have hp2 := groupLoop_perm threshold hg0 fields hnames [] [] _ h1
  have hcat : ∀ (a : Groups) (u : List Field),
      Groups.all (a ++ [("ungrouped", u)]) = Groups.all a ++ u := by
    intro a u
    simp [Groups.all]
  rw [hcat]
  refine hp1.trans (hp2.trans ?_)
  simp [Groups.all]

theorem sortSlice_eq_of_perm (rt rt2 : Runtime) (hrt : rt.Lawful) (hrt2 : rt2.Lawful)
    (l1 l2 : List Field) (hperm : l1.Perm l2) (hdistinct : (l1.map firstNameD).Nodup) :
    rt.sortSlice l1 = rt2.sortSlice l2 :=
  eq_of_perm_of_strict _ _
    ((hrt.sort_perm l1).trans (hperm.trans (hrt2.sort_perm l2).symm))
    (sortSlice_strict rt hrt l1 hdistinct)
    (sortSlice_strict rt2 hrt2 l2 ((hperm.map firstNameD).nodup_iff.1 hdistinct))

theorem sortStrings_eq_of_perm (l1 l2 : List String) (hperm : l1.Perm l2) (hnd : l1.Nodup) :
    sortStrings l1 = sortStrings l2 :=
  @List.eq_of_perm_of_sorted String (fun a b => a.data < b.data)
    ⟨fun _ _ hab hba => absurd hab (lt_asymm hba)⟩ _ _
    ((sortStrings_perm l1).trans (hperm.trans (sortStrings_perm l2).symm))
    (sortStrings_strict l1 hnd) (sortStrings_strict l2 (hperm.nodup_iff.1 hnd))

theorem numberedRendering_congr (resolve : Expr → Nat → Except Fault String)
    (structName : String) (depth : Nat) (groups groups2 : Groups) (own : List Field)
    (keys : List String) (h : ∀ key ∈ keys, groups.get key = groups2.get key) :
    numberedRendering resolve structName depth groups own keys =
      numberedRendering resolve structName depth groups2 own keys := by
  have hmap : (numberedFrom (own.length + 1) keys).map
        (fun p => groupBlock resolve depth groups p.1 p.2)
      = (numberedFrom (own.length + 1) keys).map
        (fun p => groupBlock resolve depth groups2 p.1 p.2) := by
    apply List.map_congr_left
    intro p hp
    have hmem : p.1 ∈ keys := by
      obtain ⟨a, n⟩ := p
      exact (List.of_mem_zip hp).1
    simp only [groupBlock, h p.1 hmem]
  simp only [numberedRendering, hmap]

theorem generateProtobufStructWith_congr (rt rt2 : Runtime) (hrt : rt.Lawful)
    (hrt2 : rt2.Lawful) (resolve : Expr → Nat → Except Fault String) (structName : String)
    (fields fields2 : List Field) (depth : Nat) (threshold : Int) (hg : 1 ≤ threshold)
    (hperm : fields2.Perm fields) (hnames : ∀ f ∈ fields, f.Names ≠ [])
    (hdistinct : (fields.map firstNameD).Nodup) :
    generateProtobufStructWith rt resolve structName fields depth threshold =
      generateProtobufStructWith rt2 resolve structName fields2 depth threshold := by
  have hg0 : 0 ≤ threshold := by omega
  have hnames2 : ∀ f ∈ fields2, f.Names ≠ [] := fun f hf => hnames f (hperm.mem_iff.1 hf)
  have hsorted : rt2.sortSlice fields2 = rt.sortSlice fields :=
    (sortSlice_eq_of_perm rt rt2 hrt hrt2 fields fields2 hperm.symm hdistinct).symm
  have hsperm := hrt.sort_perm fields
  have hsnames : ∀ f ∈ rt.sortSlice fields, f.Names ≠ [] :=
    fun f hf => hnames f (hsperm.mem_iff.1 hf)
  have hsdistinct : ((rt.sortSlice fields).map firstNameD).Nodup :=
    (hsperm.map firstNameD).nodup_iff.2 hdistinct
  obtain ⟨groups, _, h, _, _, _, hget, hkeys, hnd⟩ :=
    GroupFieldsByPascalCase_spec rt hrt.range_perm (rt.sortSlice fields) threshold hg0 hsnames
  obtain ⟨groups2, _, h2, _, _, _, hget2, hkeys2, hnd2⟩ :=
    GroupFieldsByPascalCase_spec rt2 hrt2.range_perm (rt.sortSlice fields) threshold hg0 hsnames
  have h2b : GroupFieldsByPascalCase rt2 (rt2.sortSlice fields2) threshold = .ok groups2 := by
    rw [hsorted]; exact h2
  rw [generateProtobufStructWith_eq rt resolve structName fields depth threshold groups hnames h,
    generateProtobufStructWith_eq rt2 resolve structName fields2 depth threshold groups2
      hnames2 h2b]
  have hall := GroupFieldsByPascalCase_perm rt hrt.range_perm _ threshold hg groups h
  have hall2 := GroupFieldsByPascalCase_perm rt2 hrt2.range_perm _ threshold hg groups2 h2
  have hun1 := nodup_names_of_sublist_perm _ _ _ (Groups.get_sublist_all groups "ungrouped")
    hall hsdistinct
  have hun2 := nodup_names_of_sublist_perm _ _ _ (Groups.get_sublist_all groups2 "ungrouped")
    hall2 hsdistinct
  have hunperm : (groups.get "ungrouped").Perm (groups2.get "ungrouped") := by
    rw [List.perm_ext_iff_of_nodup (List.Nodup.of_map _ hun1) (List.Nodup.of_map _ hun2)]
    intro f
    rw [GroupFieldsByPascalCase_mem_ungrouped rt hrt.range_perm _ threshold hg0 groups h,
      GroupFieldsByPascalCase_mem_ungrouped rt2 hrt2.range_perm _ threshold hg0 groups2 h2]
  have hown : rt.sortSlice (groups.get "ungrouped") = rt2.sortSlice (groups2.get "ungrouped") :=
    sortSlice_eq_of_perm rt rt2 hrt hrt2 _ _ hunperm hun1
  have hkperm : groups.keys.Perm groups2.keys := by
    rw [List.perm_ext_iff_of_nodup hnd hnd2]
    intro key
    rw [hkeys key, hkeys2 key]
  have hsk : sortStrings groups.keys = sortStrings groups2.keys :=
    sortStrings_eq_of_perm _ _ hkperm hnd
  rw [← hown, ← hsk]
  apply numberedRendering_congr
  intro key hkey
  rw [List.mem_filter] at hkey
  have hne : key ≠ "ungrouped" := by simpa using hkey.2
  rw [hget key hne, hget2 key hne]

theorem generateProtobufStruct_congr (rt rt2 : Runtime) (hrt : rt.Lawful) (hrt2 : rt2.Lawful)
    (store store2 : Store) (hnames : DistinctNames store)
    (hperm : ∀ ref, (store2 ref).Perm (store ref)) (threshold : Int) (hg : 1 ≤ threshold)
    (fuel : Nat) (structName : String) (structType : StructRef) (depth : Nat) :
    generateProtobufStruct rt store fuel structName structType depth threshold =
      generateProtobufStruct rt2 store2 fuel structName structType depth threshold := by
  induction fuel generalizing structName structType depth with
  | zero => rfl
  | succ fuel ih =>
    rw [generateProtobufStruct_succ, generateProtobufStruct_succ]
    have hres : (fun e d => fieldTypeToString rt store fuel e d threshold)
        = (fun e d => fieldTypeToString rt2 store2 fuel e d threshold) := by
      funext e d
      unfold fieldTypeToString
      have hgen : (fun name nested d => generateProtobufStruct rt store fuel name nested d threshold)
          = (fun name nested d =>
              generateProtobufStruct rt2 store2 fuel name nested d threshold) := by
        funext name nested d2
        exact ih name nested d2
      rw [hgen]
    rw [hres]
    exact generateProtobufStructWith_congr rt rt2 hrt hrt2 _ structName (store structType)
      (store2 structType) depth threshold hg (hperm structType) (hnames structType).1
      (hnames structType).2

theorem reverseRuntime_lawful : reverseRuntime.Lawful where
  sort_perm := goRuntime_lawful.sort_perm
  sort_sorted := goRuntime_lawful.sort_sorted
  range_perm := fun ks => List.reverse_perm ks

theorem userStore_distinct : DistinctNames userStore := by
  intro ref
  have h1 : ∀ f ∈ userFields, f.Names ≠ [] := by decide
  have h2 : (userFields.map firstNameD).Nodup := by decide
  exact ⟨h1, h2⟩

/-- C18: when the struct types of the file have distinct first field names and the
threshold is at least 1, the text (or the fault) of `generateProtobufStruct` is the
same for every order in which `range` visits the map of groups, and indeed for
every sorting routine that keeps the promises of `sort.Slice`; it is the same when
the field lists have been rearranged, in particular when they have been sorted in
place by an earlier run. -/
theorem C18_deterministic_text (rt : Runtime) (hrt : rt.Lawful) (store : Store)
    (hnames : DistinctNames store) (threshold : Int) (hg : 1 ≤ threshold) (fuel : Nat)
    (structName : String) (structType : StructRef) (depth : Nat) :
    (∀ order : List String → List String, (∀ ks, (order ks).Perm ks) →
      generateProtobufStruct ⟨rt.sortSlice, order⟩ store fuel structName structType depth
          threshold
        = generateProtobufStruct rt store fuel structName structType depth threshold) ∧
    (∀ rt2 : Runtime, rt2.Lawful →
      generateProtobufStruct rt2 store fuel structName structType depth threshold
        = generateProtobufStruct rt store fuel structName structType depth threshold) ∧
    (∀ store2 : Store, (∀ ref, (store2 ref).Perm (store ref)) →
      generateProtobufStruct rt store2 fuel structName structType depth threshold
        = generateProtobufStruct rt store fuel structName structType depth threshold) ∧
    generateProtobufStruct rt (fun ref => rt.sortSlice (store ref)) fuel structName structType
        depth threshold
      = generateProtobufStruct rt store fuel structName structType depth threshold := by
  refine ⟨?_, ?_, ?_, ?_⟩
  · intro order horder
    exact (generateProtobufStruct_congr rt ⟨rt.sortSlice, order⟩ hrt
      ⟨hrt.sort_perm, hrt.sort_sorted, horder⟩ store store hnames
      (fun _ => List.Perm.refl _) threshold hg fuel structName structType depth).symm
  · intro rt2 hrt2
    exact (generateProtobufStruct_congr rt rt2 hrt hrt2 store store hnames
      (fun _ => List.Perm.refl _) threshold hg fuel structName structType depth).symm
  · intro store2 hperm
    exact (generateProtobufStruct_congr rt rt hrt hrt store store2 hnames hperm threshold hg
      fuel structName structType depth).symm
  · exact (generateProtobufStruct_congr rt rt hrt hrt store _ hnames
      (fun ref => hrt.sort_perm (store ref)) threshold hg fuel structName structType depth).symm

set_option maxRecDepth 100000 in
/-- C18 at `type User struct { UserName string; UserAge int; Id int64; count int }`
and threshold 2: visiting the two single-member groups in one order or the other
leaves `UserAge` and `UserName` in the `ungrouped` list in different orders, and
the text is the same. -/
theorem C18_witness :
    DistinctNames userStore ∧ (1 : Int) ≤ 2 ∧
    GroupFieldsByPascalCase goRuntime (goRuntime.sortSlice userFields) 2 =
      .ok [("ungrouped", [⟨["Id"], prim "int64"⟩, ⟨["count"], prim "int"⟩,
        ⟨["UserAge"], prim "int"⟩, ⟨["UserName"], prim "string"⟩])] ∧
    GroupFieldsByPascalCase reverseRuntime (goRuntime.sortSlice userFields) 2 =
      .ok [("ungrouped", [⟨["Id"], prim "int64"⟩, ⟨["count"], prim "int"⟩,
        ⟨["UserName"], prim "string"⟩, ⟨["UserAge"], prim "int"⟩])] ∧
    generateProtobufStruct goRuntime userStore 1 "User" 0 0 2 =
      .ok "message User \x7b\n  int64 id = 1;\n  int32 user_age = 2;\n  string user_name = 3;\n  int32 count = 4;\n\x7d" ∧
    generateProtobufStruct reverseRuntime userStore 1 "User" 0 0 2
      = generateProtobufStruct goRuntime userStore 1 "User" 0 0 2 ∧
    generateProtobufStruct goRuntime (fun ref => goRuntime.sortSlice (userStore ref)) 1 "User"
        0 0 2
      = generateProtobufStruct goRuntime userStore 1 "User" 0 0 2 :=
  ⟨userStore_distinct, by decide, by rfl, by rfl, by rfl,
   (C18_deterministic_text goRuntime goRuntime_lawful userStore userStore_distinct 2
      (by decide) 1 "User" 0 0).2.1 reverseRuntime reverseRuntime_lawful,
   (C18_deterministic_text goRuntime goRuntime_lawful userStore userStore_distinct 2
      (by decide) 1 "User" 0 0).2.2.2⟩

/-! ## The recursion budget -/

theorem fieldTypeToStringWith_fuel (gen : String → StructRef → Nat → Except Fault String)
    (e : Expr)
    (h : ∀ ref ∈ mentions e, ∀ name d, gen name ref d ≠ .error .outOfFuel) :
    ∀ depth, fieldTypeToStringWith gen e depth ≠ .error .outOfFuel := by
  induction e with
  | Ident name obj =>
    intro depth
    cases obj with
    | none => simp [fieldTypeToStringWith]
    | some o =>
      obtain ⟨kind, decl⟩ := o
      cases decl with
      | Other =>
        by_cases hk : kind = ObjKind.Typ <;> simp [fieldTypeToStringWith, hk]
      | TypeSpec ty =>
        cases ty with
        | Other =>
          by_cases hk : kind = ObjKind.Typ <;> simp [fieldTypeToStringWith, hk]
        | StructType ref =>
          by_cases hk : kind = ObjKind.Typ
          · simp only [fieldTypeToStringWith, hk, if_true]
            exact h ref (by simp [mentions]) name (depth + 1)
          · simp [fieldTypeToStringWith, hk]
  | StarExpr x ih =>
    intro depth
    simp only [fieldTypeToStringWith]
    exact ih (fun ref hr => h ref (by simpa [mentions] using hr)) 0
  | ArrayType elt ih =>
    intro depth
    have h1 := ih (fun ref hr => h ref (by simpa [mentions] using hr)) 0
    simp only [fieldTypeToStringWith]
    cases hres : fieldTypeToStringWith gen elt 0 with
    | error e =>
      rw [hres] at h1
      simpa using h1
    | ok t => simp
  | MapType key value ihk ihv =>
    intro depth
    have h1 := ihk (fun ref hr => h ref (by simp [mentions, hr])) 0
    have h2 := ihv (fun ref hr => h ref (by simp [mentions, hr])) 0
    simp only [fieldTypeToStringWith]
    cases hres : fieldTypeToStringWith gen key 0 with
    | error e =>
      rw [hres] at h1
      simpa using h1
    | ok t =>
      cases hres2 : fieldTypeToStringWith gen value 0 with
      | error e =>
        rw [hres2] at h2
        simpa using h2
      | ok t2 => simp
  | IndexExpr x index ihx ihi =>
    intro depth
    have h1 := ihx (fun ref hr => h ref (by simp [mentions, hr])) 0
    have h2 := ihi (fun ref hr => h ref (by simp [mentions, hr])) 0
    simp only [fieldTypeToStringWith]
    split
    · cases hres : fieldTypeToStringWith gen index 0 with
      | error e =>
        rw [hres] at h2
        simpa using h2
      | ok t =>
        simp only
        split
        · simp
        · exact h1
    · exact h1
  | SelectorExpr x sel ih =>
    intro depth
    have h1 := ih (fun ref hr => h ref (by simpa [mentions] using hr)) 0
    unfold fieldTypeToStringWith
    split
    · split <;> simp
    · cases hres : fieldTypeToStringWith gen x 0 with
      | error e =>
        rw [hres] at h1
        simpa using h1
      | ok t =>
        simp only
        split <;> simp
  | Other =>
    intro depth
    simp [fieldTypeToStringWith]

theorem generateProtobufStructWith_cases (rt : Runtime)
    (resolve : Expr → Nat → Except Fault String) (structName : String) (fields : List Field)
    (depth : Nat) (threshold : Int) :
    generateProtobufStructWith rt resolve structName fields depth threshold =
      (match SortFieldsByName rt fields with
       | .error e => .error e
       | .ok sorted =>
         match GroupFieldsByPascalCase rt sorted threshold with
         | .error e => .error e
         | .ok groups =>
           numberedRendering resolve structName depth groups
             (rt.sortSlice (groups.get "ungrouped"))
             ((sortStrings groups.keys).filter (fun k => k ≠ "ungrouped"))) := by
  unfold generateProtobufStructWith
  cases SortFieldsByName rt fields with
  | error e => rfl
  | ok sorted =>
    simp only
    cases GroupFieldsByPascalCase rt sorted threshold with
    | error e => rfl
    | ok groups =>
      simp only [ungroupedLoop_eq_collect, numberedRendering, List.nil_append]
      cases collect ((numberedFrom 1 (rt.sortSlice (groups.get "ungrouped"))).map
          (fun p => ungroupedLine resolve depth p.1 p.2)) with
      | error e => rfl
      | ok own =>
        simp only [groupsLoop_eq_collect, Nat.add_comm 1]
        cases collect ((numberedFrom ((rt.sortSlice (groups.get "ungrouped")).length + 1)
            ((sortStrings groups.keys).filter (fun k => k ≠ "ungrouped"))).map
            (fun p => groupBlock resolve depth groups p.1 p.2)) with
        | error e => rfl
        | ok blocks => rfl

theorem SortFieldsByName_fault (rt : Runtime) (fields : List Field) (e : Fault)
    (h : SortFieldsByName rt fields = .error e) : e = .runtimePanic := by
  unfold SortFieldsByName at h
  split at h
  · simp only [Except.error.injEq] at h
    exact h.symm
  · cases h

theorem SortFieldsByName_ok (rt : Runtime) (fields sorted : List Field)
    (h : SortFieldsByName rt fields = .ok sorted) : sorted = rt.sortSlice fields := by
  unfold SortFieldsByName at h
  split at h
  · cases h
  · simp only [Except.ok.injEq] at h
    exact h.symm

theorem groupLoop_fault (threshold : Int) (fields : List Field) (groups : Groups)
    (ungrouped : List Field) (e : Fault)
    (h : groupLoop threshold fields groups ungrouped = .error e) : e = .runtimePanic := by
  induction fields generalizing groups ungrouped with
  | nil => simp [groupLoop] at h
  | cons f rest ih =>
    rw [groupLoop] at h
    cases hfirst : firstName f with
    | error e2 =>
      rw [hfirst] at h
      simp only [Except.error.injEq] at h
      subst h
      unfold firstName at hfirst
      split at hfirst
      · simp only [Except.error.injEq] at hfirst
        exact hfirst.symm
      · cases hfirst
    | ok name =>
      rw [hfirst] at h
      simp only at h
      split at h
      · split at h
        · simp only [Except.error.injEq] at h
          exact h.symm
        · exact ih _ _ h
      · exact ih _ _ h

theorem GroupFieldsByPascalCase_fault (rt : Runtime) (fields : List Field) (threshold : Int)
    (e : Fault) (h : GroupFieldsByPascalCase rt fields threshold = .error e) :
    e = .runtimePanic := by
  unfold GroupFieldsByPascalCase at h
  cases hloop : groupLoop threshold fields [] [] with
  | error e2 =>
    rw [hloop] at h
    simp only [Except.error.injEq] at h
    subst h
    exact groupLoop_fault threshold fields [] [] e2 hloop
  | ok r =>
    rw [hloop] at h
    cases h

theorem groupLoop_negative (threshold : Int) (hneg : threshold < 0) (f : Field)
    (rest : List Field) (groups : Groups) (ungrouped : List Field) :
    ∃ e, groupLoop threshold (f :: rest) groups ungrouped = .error e := by
  rw [groupLoop]
  cases hfirst : firstName f with
  | error e => exact ⟨e, rfl⟩
  | ok name =>
    simp only
    have hc : ((findAllPascal name.data).length : Int) ≥ threshold := by omega
    rw [if_pos hc, if_pos hneg]
    exact ⟨_, rfl⟩

theorem GroupFieldsByPascalCase_mem (rt : Runtime) (fields : List Field) (threshold : Int) (groups : Groups)
    (h : GroupFieldsByPascalCase rt fields threshold = .ok groups) :
    ∀ key, ∀ f ∈ groups.get key, f ∈ fields := by
  have hnames := GroupFieldsByPascalCase_ok_names rt fields threshold groups h
  unfold GroupFieldsByPascalCase at h
  cases hloop : groupLoop threshold fields [] [] with
  | error e => rw [hloop] at h; cases h
  | ok r =>
    obtain ⟨grown, un⟩ := r
    rw [hloop] at h
    simp only [Except.ok.injEq] at h
    have hall : ∀ f ∈ Groups.all grown ++ un, f ∈ fields := by
      by_cases hg : 0 ≤ threshold
      · intro f hf
        have hp := groupLoop_perm threshold hg fields hnames [] [] _ hloop
        have := hp.mem_iff.1 hf
        simpa [Groups.all] using this
      · cases fields with
        | nil =>
          simp only [groupLoop, Except.ok.injEq, Prod.mk.injEq] at hloop
          obtain ⟨h1, h2⟩ := hloop
          subst h1 h2
          simp [Groups.all]
        | cons f rest =>
          obtain ⟨e, he⟩ := groupLoop_negative threshold (by omega) f rest [] []
          rw [he] at hloop
          cases hloop
    have hgnd : grown.keys.Nodup := by
      by_cases hg : 0 ≤ threshold
      · obtain ⟨grown2, h1, _, _, h4⟩ := groupLoop_spec threshold hg fields hnames [] []
        rw [hloop] at h1
        simp only [Except.ok.injEq, Prod.mk.injEq] at h1
        rw [h1.1]
        exact h4 (by simp [Groups.keys])
      · cases fields with
        | nil =>
          simp only [groupLoop, Except.ok.injEq, Prod.mk.injEq] at hloop
          rw [← hloop.1]
          simp [Groups.keys]
        | cons f rest =>
          obtain ⟨e, he⟩ := groupLoop_negative threshold (by omega) f rest [] []
          rw [he] at hloop
          cases hloop
    have hp := dissolveLoop_perm (rt.mapRange grown.keys) grown un hgnd
    intro key f hf
    rw [← h, Groups.get_set] at hf
    apply hall f
    apply hp.mem_iff.1
    by_cases hk : "ungrouped" = key
    · rw [if_pos hk] at hf
      exact List.mem_append_right _ hf
    · rw [if_neg hk] at hf
      exact List.mem_append_left _ ((Groups.get_sublist_all _ key).subset hf)

theorem collect_fuel {α : Type} (l : List (Except Fault α))
    (h : ∀ r ∈ l, r ≠ .error .outOfFuel) : collect l ≠ .error .outOfFuel := by
  induction l with
  | nil => simp [collect]
  | cons r rest ih =>
    have hr := h r (List.mem_cons_self r rest)
    have hrest := ih (fun x hx => h x (List.mem_cons_of_mem r hx))
    cases r with
    | error e => simpa [collect] using hr
    | ok a =>
      simp only [collect]
      cases hc : collect rest with
      | error e =>
        rw [hc] at hrest
        simpa using hrest
      | ok others => simp

theorem ungroupedLine_fuel (resolve : Expr → Nat → Except Fault String) (depth : Nat)
    (f : Field) (n : Nat) (h : resolve f.type depth ≠ .error .outOfFuel) :
    ungroupedLine resolve depth f n ≠ .error .outOfFuel := by
  unfold ungroupedLine
  cases hres : resolve f.type depth with
  | error e =>
    rw [hres] at h
    simpa using h
  | ok t =>
    simp only
    split
    · split <;> simp
    · simp
    · split <;> simp
    · simp

theorem groupedEntry_fuel (resolve : Expr → Nat → Except Fault String) (depth : Nat)
    (f : Field) (n : Nat) (h : resolve f.type depth ≠ .error .outOfFuel) :
    groupedEntry resolve depth f n ≠ .error .outOfFuel := by
  unfold groupedEntry
  cases hres : resolve f.type depth with
  | error e =>
    rw [hres] at h
    simpa using h
  | ok t => simp

theorem mem_of_mem_numberedFrom {α : Type} (start : Nat) (l : List α) (p : α × Nat)
    (h : p ∈ numberedFrom start l) : p.1 ∈ l := by
  obtain ⟨a, n⟩ := p
  exact (List.of_mem_zip h).1

theorem groupBlock_fuel (resolve : Expr → Nat → Except Fault String) (depth : Nat)
    (groups : Groups) (key : String) (n : Nat)
    (h : ∀ f ∈ groups.get key, resolve f.type depth ≠ .error .outOfFuel) :
    groupBlock resolve depth groups key n ≠ .error .outOfFuel := by
  unfold groupBlock
  have hc := collect_fuel ((numberedFrom 1 (groups.get key)).map
      (fun p => groupedEntry resolve depth p.1 p.2))
    (by
      intro r hr
      rw [List.mem_map] at hr
      obtain ⟨p, hp, rfl⟩ := hr
      exact groupedEntry_fuel resolve depth p.1 p.2
        (h p.1 (mem_of_mem_numberedFrom 1 _ p hp)))
  cases hres : collect ((numberedFrom 1 (groups.get key)).map
      (fun p => groupedEntry resolve depth p.1 p.2)) with
  | error e =>
    rw [hres] at hc
    simpa using hc
  | ok nested => simp

theorem numberedRendering_fuel (resolve : Expr → Nat → Except Fault String)
    (structName : String) (depth : Nat) (groups : Groups) (own : List Field)
    (keys : List String)
    (hown : ∀ f ∈ own, resolve f.type depth ≠ .error .outOfFuel)
    (hkeys : ∀ key ∈ keys, ∀ f ∈ groups.get key, resolve f.type depth ≠ .error .outOfFuel) :
    numberedRendering resolve structName depth groups own keys ≠ .error .outOfFuel := by
  unfold numberedRendering
  have hc1 := collect_fuel ((numberedFrom 1 own).map
      (fun p => ungroupedLine resolve depth p.1 p.2))
    (by
      intro r hr
      rw [List.mem_map] at hr
      obtain ⟨p, hp, rfl⟩ := hr
      exact ungroupedLine_fuel resolve depth p.1 p.2
        (hown p.1 (mem_of_mem_numberedFrom 1 _ p hp)))
  have hc2 := collect_fuel ((numberedFrom (own.length + 1) keys).map
      (fun p => groupBlock resolve depth groups p.1 p.2))
    (by
      intro r hr
      rw [List.mem_map] at hr
      obtain ⟨p, hp, rfl⟩ := hr
      exact groupBlock_fuel resolve depth groups p.1 p.2
        (hkeys p.1 (mem_of_mem_numberedFrom _ _ p hp)))
  cases hres : collect ((numberedFrom 1 own).map
      (fun p => ungroupedLine resolve depth p.1 p.2)) with
  | error e =>
    rw [hres] at hc1
    simpa using hc1
  | ok ownLines =>
    simp only
    cases hres2 : collect ((numberedFrom (own.length + 1) keys).map
        (fun p => groupBlock resolve depth groups p.1 p.2)) with
    | error e =>
      rw [hres2] at hc2
      simpa using hc2
    | ok blocks => simp

theorem generateProtobufStructWith_fuel (rt : Runtime)
    (hsort : ∀ l, (rt.sortSlice l).Perm l)
    (resolve : Expr → Nat → Except Fault String) (structName : String) (fields : List Field)
    (depth : Nat) (threshold : Int)
    (h : ∀ f ∈ fields, resolve f.type depth ≠ .error .outOfFuel) :
    generateProtobufStructWith rt resolve structName fields depth threshold
      ≠ .error .outOfFuel := by
  rw [generateProtobufStructWith_cases]
  cases hs : SortFieldsByName rt fields with
  | error e =>
    rw [SortFieldsByName_fault rt fields e hs]
    simp
  | ok sorted =>
    simp only
    have hsorted := SortFieldsByName_ok rt fields sorted hs
    cases hgr : GroupFieldsByPascalCase rt sorted threshold with
    | error e =>
      rw [GroupFieldsByPascalCase_fault rt sorted threshold e hgr]
      simp
    | ok groups =>
      simp only
      have hmem : ∀ key, ∀ f ∈ groups.get key, f ∈ fields := by
        intro key f hf
        have h1 := GroupFieldsByPascalCase_mem rt sorted threshold groups hgr key f hf
        rw [hsorted] at h1
        exact (hsort fields).mem_iff.1 h1
      apply numberedRendering_fuel
      · intro f hf
        exact h f (hmem "ungrouped" f ((hsort _).mem_iff.1 hf))
      · intro key _ f hf
        exact h f (hmem key f hf)

theorem chainsBounded_pos (store : Store) (target : StructRef) (bound : Nat)
    (h : ChainsBounded store target bound) : 1 ≤ bound :=
  h [target] (List.chain'_singleton target) rfl

theorem chainsBounded_step (store : Store) (target ref : StructRef) (bound : Nat)
    (h : ChainsBounded store target (bound + 1)) (hc : containsStruct store target ref) :
    ChainsBounded store ref bound := by
  intro chain hchain hhead
  cases chain with
  | nil => simp at hhead
  | cons a rest =>
    simp only [List.head?_cons, Option.some.injEq] at hhead
    subst hhead
    have hlen := h (target :: a :: rest) (List.Chain'.cons hc hchain) rfl
    simp only [List.length_cons] at hlen ⊢
    omega

theorem generateProtobufStruct_fuel (rt : Runtime) (hsort : ∀ l, (rt.sortSlice l).Perm l)
    (store : Store) (threshold : Int) (fuel : Nat) :
    ∀ (structName : String) (target : StructRef) (depth : Nat),
      ChainsBounded store target fuel →
      generateProtobufStruct rt store fuel structName target depth threshold
        ≠ .error .outOfFuel := by
  induction fuel with
  | zero =>
    intro structName target depth hb
    have := chainsBounded_pos store target 0 hb
    omega
  | succ fuel ih =>
    intro structName target depth hb
    rw [generateProtobufStruct_succ]
    apply generateProtobufStructWith_fuel rt hsort
    intro f hf
    unfold fieldTypeToString
    apply fieldTypeToStringWith_fuel
    intro ref href name d
    exact ih name ref d (chainsBounded_step store target ref fuel hb ⟨f, hf, href⟩)

/-! ## More budget changes no outcome -/

theorem FuelLe.refl {α : Type} (a : Except Fault α) : FuelLe a a := Or.inr rfl

theorem FuelLe.eq_of_ne {α : Type} {a b : Except Fault α} (h : FuelLe a b)
    (hne : a ≠ .error .outOfFuel) : a = b := by
  rcases h with h | h
  · exact absurd h hne
  · exact h

theorem fieldTypeToStringWith_mono (gen gen2 : String → StructRef → Nat → Except Fault String)
    (h : ∀ name ref d, FuelLe (gen name ref d) (gen2 name ref d)) (e : Expr) :
    ∀ depth, FuelLe (fieldTypeToStringWith gen e depth) (fieldTypeToStringWith gen2 e depth) := by
  induction e with
  | Ident name obj =>
    intro depth
    cases obj with
    | none => exact Or.inr rfl
    | some o =>
      obtain ⟨kind, decl⟩ := o
      cases decl with
      | Other => exact Or.inr rfl
      | TypeSpec ty =>
        cases ty with
        | Other => exact Or.inr rfl
        | StructType ref =>
          by_cases hk : kind = ObjKind.Typ
          · simp only [fieldTypeToStringWith, hk, if_true]
            exact h name ref (depth + 1)
          · simp only [fieldTypeToStringWith, hk, if_false]
            exact Or.inr rfl
  | StarExpr x ih =>
    intro depth
    simp only [fieldTypeToStringWith]
    exact ih 0
  | ArrayType elt ih =>
    intro depth
    simp only [fieldTypeToStringWith]
    rcases ih 0 with h1 | h1
    · rw [h1]; exact Or.inl rfl
    · rw [h1]; exact Or.inr rfl
  | MapType key value ihk ihv =>
    intro depth
    simp only [fieldTypeToStringWith]
    rcases ihk 0 with h1 | h1
    · rw [h1]; exact Or.inl rfl
    · rw [h1]
      cases fieldTypeToStringWith gen2 key 0 with
      | error e => exact Or.inr rfl
      | ok t =>
        simp only
        rcases ihv 0 with h2 | h2
        · rw [h2]; exact Or.inl rfl
        · rw [h2]; exact Or.inr rfl
  | IndexExpr x index ihx ihi =>
    intro depth
    simp only [fieldTypeToStringWith]
    split
    · rcases ihi 0 with h2 | h2
      · rw [h2]; exact Or.inl rfl
      · rw [h2]
        cases fieldTypeToStringWith gen2 index 0 with
        | error e => exact Or.inr rfl
        | ok t =>
          simp only
          split
          · exact Or.inr rfl
          · exact ihx 0
    · exact ihx 0
  | SelectorExpr x sel ih =>
    intro depth
    have h1 := ih 0
    unfold fieldTypeToStringWith
    split
    · exact Or.inr rfl
    · rcases h1 with h1 | h1
      · rw [h1]; exact Or.inl rfl
      · rw [h1]; exact Or.inr rfl
  | Other =>
    intro depth
    exact Or.inr rfl

theorem ungroupedLine_mono (resolve resolve2 : Expr → Nat → Except Fault String) (depth : Nat)
    (f : Field) (n : Nat) (h : FuelLe (resolve f.type depth) (resolve2 f.type depth)) :
    FuelLe (ungroupedLine resolve depth f n) (ungroupedLine resolve2 depth f n) := by
  unfold ungroupedLine
  rcases h with h | h
  · rw [h]; exact Or.inl rfl
  · rw [h]; exact Or.inr rfl

theorem groupedEntry_mono (resolve resolve2 : Expr → Nat → Except Fault String) (depth : Nat)
    (f : Field) (n : Nat) (h : FuelLe (resolve f.type depth) (resolve2 f.type depth)) :
    FuelLe (groupedEntry resolve depth f n) (groupedEntry resolve2 depth f n) := by
  unfold groupedEntry
  rcases h with h | h
  · rw [h]; exact Or.inl rfl
  · rw [h]; exact Or.inr rfl

theorem collect_mono {α β : Type} (l : List β) (F F2 : β → Except Fault α)
    (h : ∀ p ∈ l, FuelLe (F p) (F2 p)) : FuelLe (collect (l.map F)) (collect (l.map F2)) := by
  induction l with
  | nil => exact Or.inr rfl
  | cons p rest ih =>
    have hp := h p (List.mem_cons_self p rest)
    have hrest := ih (fun q hq => h q (List.mem_cons_of_mem p hq))
    simp only [List.map_cons, collect]
    rcases hp with hp | hp
    · rw [hp]; exact Or.inl rfl
    · rw [hp]
      cases F2 p with
      | error e => exact Or.inr rfl
      | ok a =>
        simp only
        rcases hrest with hr | hr
        · rw [hr]; exact Or.inl rfl
        · rw [hr]; exact Or.inr rfl

theorem groupBlock_mono (resolve resolve2 : Expr → Nat → Except Fault String) (depth : Nat)
    (groups : Groups) (key : String) (n : Nat)
    (h : ∀ f ∈ groups.get key, FuelLe (resolve f.type depth) (resolve2 f.type depth)) :
    FuelLe (groupBlock resolve depth groups key n) (groupBlock resolve2 depth groups key n) := by
  unfold groupBlock
  have hc := collect_mono (numberedFrom 1 (groups.get key))
    (fun p => groupedEntry resolve depth p.1 p.2)
    (fun p => groupedEntry resolve2 depth p.1 p.2)
    (fun p hp => groupedEntry_mono resolve resolve2 depth p.1 p.2
      (h p.1 (mem_of_mem_numberedFrom 1 _ p hp)))
  rcases hc with hc | hc
  · rw [hc]; exact Or.inl rfl
  · rw [hc]; exact Or.inr rfl

theorem numberedRendering_mono (resolve resolve2 : Expr → Nat → Except Fault String)
    (structName : String) (depth : Nat) (groups : Groups) (own : List Field)
    (keys : List String)
    (hown : ∀ f ∈ own, FuelLe (resolve f.type depth) (resolve2 f.type depth))
    (hkeys : ∀ key ∈ keys, ∀ f ∈ groups.get key,
      FuelLe (resolve f.type depth) (resolve2 f.type depth)) :
    FuelLe (numberedRendering resolve structName depth groups own keys)
      (numberedRendering resolve2 structName depth groups own keys) := by
  unfold numberedRendering
  have hc1 := collect_mono (numberedFrom 1 own)
    (fun p => ungroupedLine resolve depth p.1 p.2)
    (fun p => ungroupedLine resolve2 depth p.1 p.2)
    (fun p hp => ungroupedLine_mono resolve resolve2 depth p.1 p.2
      (hown p.1 (mem_of_mem_numberedFrom 1 _ p hp)))
  have hc2 := collect_mono (numberedFrom (own.length + 1) keys)
    (fun p => groupBlock resolve depth groups p.1 p.2)
    (fun p => groupBlock resolve2 depth groups p.1 p.2)
    (fun p hp => groupBlock_mono resolve resolve2 depth groups p.1 p.2
      (hkeys p.1 (mem_of_mem_numberedFrom _ _ p hp)))
  rcases hc1 with hc1 | hc1
  · rw [hc1]; exact Or.inl rfl
  · rw [hc1]
    cases collect ((numberedFrom 1 own).map (fun p => ungroupedLine resolve2 depth p.1 p.2)) with
    | error e => exact Or.inr rfl
    | ok ownLines =>
      simp only
      rcases hc2 with hc2 | hc2
      · rw [hc2]; exact Or.inl rfl
      · rw [hc2]; exact Or.inr rfl

theorem generateProtobufStructWith_mono (rt : Runtime)
    (resolve resolve2 : Expr → Nat → Except Fault String) (structName : String)
    (fields : List Field) (depth : Nat) (threshold : Int)
    (h : ∀ e d, FuelLe (resolve e d) (resolve2 e d)) :
    FuelLe (generateProtobufStructWith rt resolve structName fields depth threshold)
      (generateProtobufStructWith rt resolve2 structName fields depth threshold) := by
  rw [generateProtobufStructWith_cases, generateProtobufStructWith_cases]
  cases SortFieldsByName rt fields with
  | error e => exact Or.inr rfl
  | ok sorted =>
    simp only
    cases GroupFieldsByPascalCase rt sorted threshold with
    | error e => exact Or.inr rfl
    | ok groups =>
      simp only
      exact numberedRendering_mono resolve resolve2 structName depth groups _ _
        (fun f _ => h f.type depth) (fun _ _ f _ => h f.type depth)

theorem generateProtobufStruct_mono (rt : Runtime) (store : Store) (threshold : Int)
    (fuel : Nat) :
    ∀ (structName : String) (structType : StructRef) (depth : Nat),
      FuelLe (generateProtobufStruct rt store fuel structName structType depth threshold)
        (generateProtobufStruct rt store (fuel + 1) structName structType depth threshold) := by
  induction fuel with
  | zero =>
    intro structName structType depth
    exact Or.inl rfl
  | succ fuel ih =>
    intro structName structType depth
    rw [generateProtobufStruct_succ, generateProtobufStruct_succ]
    apply generateProtobufStructWith_mono
    intro e d
    unfold fieldTypeToString
    exact fieldTypeToStringWith_mono _ _ (fun name ref d2 => ih name ref d2) e d

theorem generateProtobufStruct_stable (rt : Runtime) (store : Store) (threshold : Int)
    (fuel : Nat) (structName : String) (structType : StructRef) (depth : Nat)
    (h : generateProtobufStruct rt store fuel structName structType depth threshold
      ≠ .error .outOfFuel) (more : Nat) :
    generateProtobufStruct rt store (fuel + more) structName structType depth threshold
      = generateProtobufStruct rt store fuel structName structType depth threshold := by
  induction more with
  | zero => rfl
  | succ more ih =>
    have hle := generateProtobufStruct_mono rt store threshold (fuel + more) structName
      structType depth
    rw [ih] at hle
    exact (hle.eq_of_ne h).symm

/-! ## Containment chains of an acyclic declaration set -/

theorem chain_reaches {R : StructRef → StructRef → Prop} (rest : List StructRef) :
    ∀ a, List.Chain' R (a :: rest) → ∀ b ∈ rest, Relation.TransGen R a b := by
  induction rest with
  | nil =>
    intro a _ b hb
    simp at hb
  | cons c rest ih =>
    intro a hchain b hb
    rw [List.chain'_cons] at hchain
    rcases List.mem_cons.1 hb with h | h
    · subst h
      exact Relation.TransGen.single hchain.1
    · exact Relation.TransGen.head hchain.1 (ih c hchain.2 b h)

theorem chain_nodup (store : Store) (chain : List StructRef) :
    ∀ target, NoCycleFrom store target →
      List.Chain' (containsStruct store) chain → chain.head? = some target → chain.Nodup := by
  induction chain with
  | nil =>
    intro _ _ _ _
    exact List.nodup_nil
  | cons a rest ih =>
    intro target hacyclic hchain hhead
    simp only [List.head?_cons, Option.some.injEq] at hhead
    subst hhead
    rw [List.nodup_cons]
    constructor
    · intro hmem
      exact hacyclic a Relation.ReflTransGen.refl (chain_reaches rest a hchain a hmem)
    · cases rest with
      | nil => exact List.nodup_nil
      | cons c rest =>
        have hstep : containsStruct store a c := (List.chain'_cons.1 hchain).1
        apply ih c _ (List.chain'_cons.1 hchain).2 rfl
        intro s hs
        exact hacyclic s (Relation.ReflTransGen.head hstep hs)

theorem chain_below (store : Store) (size : Nat) (hclosed : ClosedBelow store size)
    (chain : List StructRef) :
    ∀ target, target < size →
      List.Chain' (containsStruct store) chain → chain.head? = some target →
      ∀ s ∈ chain, s < size := by
  induction chain with
  | nil =>
    intro _ _ _ _ s hs
    simp at hs
  | cons a rest ih =>
    intro target htarget hchain hhead s hs
    simp only [List.head?_cons, Option.some.injEq] at hhead
    subst hhead
    rcases List.mem_cons.1 hs with h | h
    · subst h
      exact htarget
    · cases rest with
      | nil => simp at h
      | cons c rest =>
        obtain ⟨f, hf, hc⟩ := (List.chain'_cons.1 hchain).1
        exact ih c (hclosed a f hf c hc) (List.chain'_cons.1 hchain).2 rfl s h

theorem chainsBounded_of_noCycle (store : Store) (target size : Nat) (htarget : target < size)
    (hclosed : ClosedBelow store size) (hacyclic : NoCycleFrom store target) :
    ChainsBounded store target size := by
  intro chain hchain hhead
  have hnodup := chain_nodup store chain target hacyclic hchain hhead
  have hbelow := chain_below store size hclosed chain target htarget hchain hhead
  have hsub : chain ⊆ List.range size := fun s hs => List.mem_range.2 (hbelow s hs)
  have := (List.subperm_of_subset hnodup hsub).length_le
  simpa using this

theorem chainsBounded_mono (store : Store) (target : StructRef) (bound bound2 : Nat)
    (h : ChainsBounded store target bound) (hle : bound ≤ bound2) :
    ChainsBounded store target bound2 :=
  fun chain hchain hhead => le_trans (h chain hchain hhead) hle

theorem longest_chain (store : Store) (target : StructRef) (size : Nat)
    (h : ChainsBounded store target size) :
    ∃ longest : List StructRef, List.Chain' (containsStruct store) longest ∧
      longest.head? = some target ∧ longest.length ≤ size ∧
      ChainsBounded store target longest.length := by
  induction size with
  | zero =>
    have := chainsBounded_pos store target 0 h
    omega
  | succ size ih =>
    by_cases hless : ChainsBounded store target size
    · obtain ⟨longest, h1, h2, h3, h4⟩ := ih hless
      exact ⟨longest, h1, h2, Nat.le_succ_of_le h3, h4⟩
    · unfold ChainsBounded at hless
      push_neg at hless
      obtain ⟨chain, hchain, hhead, hlen⟩ := hless
      have hle := h chain hchain hhead
      have heq : chain.length = size + 1 := by omega
      exact ⟨chain, hchain, hhead, hle, by rw [heq]; exact h⟩

theorem generateProtobufStruct_enough (rt : Runtime) (hsort : ∀ l, (rt.sortSlice l).Perm l)
    (store : Store) (threshold : Int) (structName : String) (target : StructRef) (depth : Nat)
    (bound : Nat) (hb : ChainsBounded store target bound) (fuel : Nat) (hfuel : bound ≤ fuel) :
    generateProtobufStruct rt store fuel structName target depth threshold
        ≠ .error .outOfFuel ∧
    generateProtobufStruct rt store fuel structName target depth threshold
      = generateProtobufStruct rt store bound structName target depth threshold := by
  have hne := generateProtobufStruct_fuel rt hsort store threshold bound structName target
    depth hb
  have hst := generateProtobufStruct_stable rt store threshold bound structName target depth
    hne (fuel - bound)
  rw [Nat.add_sub_cancel' hfuel] at hst
  exact ⟨by rw [hst]; exact hne, hst⟩

/-! ## A cycle through two structs -/

theorem cycleStore_outOfFuel (fuel : Nat) :
    ∀ (structName : String) (depth : Nat),
      generateProtobufStruct goRuntime cycleStore fuel structName 0 depth maxInt
        = .error .outOfFuel ∧
      generateProtobufStruct goRuntime cycleStore fuel structName 1 depth maxInt
        = .error .outOfFuel := by
  induction fuel with
  | zero =>
    intro structName depth
    exact ⟨rfl, rfl⟩
  | succ fuel ih =>
    intro structName depth
    constructor
    · rw [(generateProtobufStruct_all_short goRuntime goRuntime_lawful cycleStore fuel structName
        0 depth maxInt (by decide) (by decide) (by decide)).2]
      have hsorted : goRuntime.sortSlice (cycleStore 0)
          = [⟨["B"], .StarExpr (structIdent "B" 1)⟩] := rfl
      rw [hsorted]
      simp only [numberedFrom, List.map_cons, List.map_nil, collect]
      rw [ungroupedLine_pointer_to_struct goRuntime cycleStore fuel maxInt depth _ "B" 1 1 rfl,
        (ih "B" 1).2]
    · rw [(generateProtobufStruct_all_short goRuntime goRuntime_lawful cycleStore fuel structName
        1 depth maxInt (by decide) (by decide) (by decide)).2]
      have hsorted : goRuntime.sortSlice (cycleStore 1)
          = [⟨["A"], .StarExpr (structIdent "A" 0)⟩] := rfl
      rw [hsorted]
      simp only [numberedFrom, List.map_cons, List.map_nil, collect]
      rw [ungroupedLine_pointer_to_struct goRuntime cycleStore fuel maxInt depth _ "A" 0 1 rfl,
        (ih "A" 1).1]

theorem cycleStore_cycle : Relation.TransGen (containsStruct cycleStore) 0 0 := by
  have h01 : containsStruct cycleStore 0 1 :=
    ⟨⟨["B"], .StarExpr (structIdent "B" 1)⟩, by simp [cycleStore], by simp [mentions, structIdent]⟩
  have h10 : containsStruct cycleStore 1 0 :=
    ⟨⟨["A"], .StarExpr (structIdent "A" 0)⟩, by simp [cycleStore], by simp [mentions, structIdent]⟩
  exact Relation.TransGen.head h01 (Relation.TransGen.single h10)

theorem checkRecursiveStruct_cycle : checkRecursiveStruct cycleStore 0 "A" = .ok (false, "") := by
  rfl

theorem exampleStore_closed : ClosedBelow exampleStore 3 := by
  intro s
  match s with
  | 0 => decide
  | 1 => decide
  | 2 => decide
  | n + 3 =>
    intro f hf
    simp [exampleStore] at hf

theorem exampleStore_noCycle : NoCycleFrom exampleStore 1 := by
  have h0 : ∀ x, ¬ containsStruct exampleStore 0 x := by
    rintro x ⟨f, hf, hx⟩
    have hall : ∀ f ∈ exampleStore 0, mentions f.type = [] := by decide
    rw [hall f hf] at hx
    simp at hx
  have h1 : ∀ x, containsStruct exampleStore 1 x → x = 0 := by
    rintro x ⟨f, hf, hx⟩
    have hall : ∀ f ∈ exampleStore 1, ∀ ref ∈ mentions f.type, ref = 0 := by decide
    exact hall f hf x hx
  have hreach : ∀ s, Relation.ReflTransGen (containsStruct exampleStore) 1 s → s = 1 ∨ s = 0 := by
    intro s hs
    induction hs with
    | refl => exact Or.inl rfl
    | tail _ hstep ih =>
      rcases ih with ih | ih
      · subst ih
        exact Or.inr (h1 _ hstep)
      · subst ih
        exact absurd hstep (h0 _)
  intro s hs hcycle
  rcases hreach s hs with h | h
  · subst h
    obtain ⟨b, hb, hrest⟩ := Relation.TransGen.head'_iff.1 hcycle
    have hb0 := h1 b hb
    subst hb0
    rcases Relation.ReflTransGen.cases_head hrest with h | ⟨c, hc, _⟩
    · exact absurd h (by decide)
    · exact h0 c hc
  · subst h
    obtain ⟨b, hb, _⟩ := Relation.TransGen.head'_iff.1 hcycle
    exact h0 b hb

/-- C19: for a declaration set of `size` struct types in which no containment cycle is
reachable from the target, there is a longest containment chain from the target, of at
most `size` structs, and a recursion budget of its length is enough: with that many
nested activations of generateProtobufStruct or more, generateProtobufStruct on the
target and fieldTypeToString on each of its field types never run out of budget, and
the outcome is the same for every larger budget. The self-pointer guard does not ensure
this: for `type A struct { B *B }; type B struct { A *A }` the guard finds nothing, A
contains itself through B, and no budget is enough. -/
theorem C19_recursion_terminates (rt : Runtime) (hsort : ∀ l, (rt.sortSlice l).Perm l)
    (store : Store) (target : StructRef) (size : Nat) (htarget : target < size)
    (hclosed : ClosedBelow store size) (hacyclic : NoCycleFrom store target)
    (threshold : Int) :
    (∃ longest : List StructRef, List.Chain' (containsStruct store) longest ∧
      longest.head? = some target ∧ longest.length ≤ size ∧
      ChainsBounded store target longest.length ∧
      ∀ fuel, longest.length ≤ fuel →
        (∀ (structName : String) (depth : Nat),
          generateProtobufStruct rt store fuel structName target depth threshold
            ≠ .error .outOfFuel ∧
          generateProtobufStruct rt store fuel structName target depth threshold
            = generateProtobufStruct rt store longest.length structName target depth
                threshold) ∧
        (∀ f ∈ store target, ∀ depth,
          fieldTypeToString rt store fuel f.type depth threshold ≠ .error .outOfFuel)) ∧
    (checkRecursiveStruct cycleStore 0 "A" = .ok (false, "") ∧
      Relation.TransGen (containsStruct cycleStore) 0 0 ∧
      ∀ fuel depth,
        generateProtobufStruct goRuntime cycleStore fuel "A" 0 depth maxInt
          = .error .outOfFuel) := by
  refine ⟨?_, checkRecursiveStruct_cycle, cycleStore_cycle,
    fun fuel depth => (cycleStore_outOfFuel fuel "A" depth).1⟩
  obtain ⟨longest, hchain, hhead, hlen, hb⟩ := longest_chain store target size
    (chainsBounded_of_noCycle store target size htarget hclosed hacyclic)
  refine ⟨longest, hchain, hhead, hlen, hb, ?_⟩
  intro fuel hfuel
  refine ⟨fun structName depth =>
    generateProtobufStruct_enough rt hsort store threshold structName target depth
      longest.length hb fuel hfuel, ?_⟩
  intro f hf depth
  unfold fieldTypeToString
  apply fieldTypeToStringWith_fuel
  intro ref href name d
  have hpos := chainsBounded_pos store target longest.length hb
  have hstep : ChainsBounded store ref (longest.length - 1) := by
    apply chainsBounded_step store target ref (longest.length - 1) _ ⟨f, hf, href⟩
    rw [Nat.sub_add_cancel hpos]
    exact hb
  exact generateProtobufStruct_fuel rt hsort store threshold fuel name ref d
    (chainsBounded_mono store ref _ fuel hstep (by omega))

theorem C19_witness :
    (∀ l, (goRuntime.sortSlice l).Perm l) ∧ 1 < 3 ∧ ClosedBelow exampleStore 3 ∧
    NoCycleFrom exampleStore 1 ∧
    (∃ longest : List StructRef, List.Chain' (containsStruct exampleStore) longest ∧
      longest.head? = some 1 ∧ longest.length ≤ 3 ∧
      ChainsBounded exampleStore 1 longest.length ∧
      ∀ fuel, longest.length ≤ fuel →
        (∀ (structName : String) (depth : Nat),
          generateProtobufStruct goRuntime exampleStore fuel structName 1 depth maxInt
            ≠ .error .outOfFuel ∧
          generateProtobufStruct goRuntime exampleStore fuel structName 1 depth maxInt
            = generateProtobufStruct goRuntime exampleStore longest.length structName 1 depth
                maxInt) ∧
        (∀ f ∈ exampleStore 1, ∀ depth,
          fieldTypeToString goRuntime exampleStore fuel f.type depth maxInt
            ≠ .error .outOfFuel)) :=
  ⟨goRuntime_lawful.sort_perm, by decide, exampleStore_closed, exampleStore_noCycle,
    (C19_recursion_terminates goRuntime goRuntime_lawful.sort_perm exampleStore 1 3 (by decide)
      exampleStore_closed exampleStore_noCycle maxInt).1⟩

/-! ## Declarations on which the rendering returns -/

theorem fieldTypeToStringWith_ok (gen : String → StructRef → Nat → Except Fault String)
    (e : Expr) (hres : resolvable e = true)
    (h : ∀ ref ∈ mentions e, ∀ name d, ∃ t, gen name ref d = .ok t) :
    ∀ depth, ∃ t, fieldTypeToStringWith gen e depth = .ok t := by
  induction e with
  | Ident name obj =>
    intro depth
    cases obj with
    | none => exact ⟨name, by simp [fieldTypeToStringWith]⟩
    | some o =>
      obtain ⟨kind, decl⟩ := o
      cases decl with
      | Other =>
        by_cases hk : kind = ObjKind.Typ
        · subst hk
          simp [resolvable] at hres
        · exact ⟨name, by simp [fieldTypeToStringWith, hk]⟩
      | TypeSpec ty =>
        cases ty with
        | Other =>
          by_cases hk : kind = ObjKind.Typ
          · exact ⟨name, by simp [fieldTypeToStringWith, hk]⟩
          · exact ⟨name, by simp [fieldTypeToStringWith, hk]⟩
        | StructType ref =>
          by_cases hk : kind = ObjKind.Typ
          · simp only [fieldTypeToStringWith, hk, if_true]
            exact h ref (by simp [mentions]) name (depth + 1)
          · exact ⟨name, by simp [fieldTypeToStringWith, hk]⟩
  | StarExpr x ih =>
    intro depth
    simp only [fieldTypeToStringWith]
    exact ih (by simpa [resolvable] using hres)
      (fun ref hr => h ref (by simpa [mentions] using hr)) 0
  | ArrayType elt ih =>
    intro depth
    obtain ⟨t, ht⟩ := ih (by simpa [resolvable] using hres)
      (fun ref hr => h ref (by simpa [mentions] using hr)) 0
    exact ⟨"repeated " ++ t, by simp [fieldTypeToStringWith, ht]⟩
  | MapType key value ihk ihv =>
    intro depth
    simp only [resolvable, Bool.and_eq_true] at hres
    obtain ⟨t1, ht1⟩ := ihk hres.1 (fun ref hr => h ref (by simp [mentions, hr])) 0
    obtain ⟨t2, ht2⟩ := ihv hres.2 (fun ref hr => h ref (by simp [mentions, hr])) 0
    exact ⟨"map[" ++ t1 ++ "]" ++ t2, by simp [fieldTypeToStringWith, ht1, ht2]⟩
  | IndexExpr x index ihx ihi =>
    intro depth
    simp only [resolvable, Bool.and_eq_true] at hres
    have h1 := ihx hres.1 (fun ref hr => h ref (by simp [mentions, hr])) 0
    obtain ⟨t2, ht2⟩ := ihi hres.2 (fun ref hr => h ref (by simp [mentions, hr])) 0
    simp only [fieldTypeToStringWith]
    split
    · rw [ht2]
      simp only
      split
      · exact ⟨_, rfl⟩
      · exact h1
    · exact h1
  | SelectorExpr x sel ih =>
    intro depth
    obtain ⟨t, ht⟩ := ih (by simpa [resolvable] using hres)
      (fun ref hr => h ref (by simpa [mentions] using hr)) 0
    unfold fieldTypeToStringWith
    split
    · split <;> exact ⟨_, rfl⟩
    · rw [ht]
      simp only
      split <;> exact ⟨_, rfl⟩
  | Other =>
    intro depth
    exact ⟨"", by simp [fieldTypeToStringWith]⟩

theorem ungroupedLine_ok (resolve : Expr → Nat → Except Fault String) (depth : Nat)
    (f : Field) (n : Nat) (hp : pointsToIdent f = true)
    (hr : ∃ t, resolve f.type depth = .ok t) :
    ∃ line, ungroupedLine resolve depth f n = .ok line := by
  obtain ⟨t, ht⟩ := hr
  unfold ungroupedLine
  rw [ht]
  simp only
  split
  · split <;> exact ⟨_, rfl⟩
  · rename_i x hx heq
    unfold pointsToIdent at hp
    rw [heq] at hp
    cases x with
    | Ident name obj => exact absurd rfl (hx name obj)
    | _ => simp at hp
  · split <;> exact ⟨_, rfl⟩
  · exact ⟨_, rfl⟩

theorem groupedEntry_ok (resolve : Expr → Nat → Except Fault String) (depth : Nat)
    (f : Field) (n : Nat) (hr : ∃ t, resolve f.type depth = .ok t) :
    ∃ line, groupedEntry resolve depth f n = .ok line := by
  obtain ⟨t, ht⟩ := hr
  unfold groupedEntry
  rw [ht]
  exact ⟨_, rfl⟩

theorem collect_eq_ok {α : Type} (l : List (Except Fault α)) (results : List α)
    (h : collect l = .ok results) : l = results.map Except.ok := by
  induction l generalizing results with
  | nil =>
    simp only [collect, Except.ok.injEq] at h
    rw [← h]
    rfl
  | cons r rest ih =>
    cases r with
    | error e => simp [collect] at h
    | ok a =>
      simp only [collect] at h
      cases hc : collect rest with
      | error e => rw [hc] at h; cases h
      | ok others =>
        rw [hc] at h
        simp only [Except.ok.injEq] at h
        rw [← h, List.map_cons, ← ih others hc]

theorem groupBlock_ok (resolve : Expr → Nat → Except Fault String) (depth : Nat)
    (groups : Groups) (key : String) (n : Nat)
    (h : ∀ f ∈ groups.get key, ∃ t, resolve f.type depth = .ok t) :
    ∃ block, groupBlock resolve depth groups key n = .ok block := by
  unfold groupBlock
  obtain ⟨nested, hc, _⟩ := collect_ok_of_forall ((numberedFrom 1 (groups.get key)).map
      (fun p => groupedEntry resolve depth p.1 p.2))
    (by
      intro r hr
      rw [List.mem_map] at hr
      obtain ⟨p, hp, rfl⟩ := hr
      exact groupedEntry_ok resolve depth p.1 p.2
        (h p.1 (mem_of_mem_numberedFrom 1 _ p hp)))
  rw [hc]
  exact ⟨_, rfl⟩

theorem numberedRendering_ok (resolve : Expr → Nat → Except Fault String)
    (structName : String) (depth : Nat) (groups : Groups) (own : List Field)
    (keys : List String)
    (hown : ∀ f ∈ own, pointsToIdent f = true ∧ ∃ t, resolve f.type depth = .ok t)
    (hkeys : ∀ key ∈ keys, ∀ f ∈ groups.get key, ∃ t, resolve f.type depth = .ok t) :
    ∃ text, numberedRendering resolve structName depth groups own keys = .ok text := by
  unfold numberedRendering
  obtain ⟨ownLines, hc1, _⟩ := collect_ok_of_forall ((numberedFrom 1 own).map
      (fun p => ungroupedLine resolve depth p.1 p.2))
    (by
      intro r hr
      rw [List.mem_map] at hr
      obtain ⟨p, hp, rfl⟩ := hr
      have hf := hown p.1 (mem_of_mem_numberedFrom 1 _ p hp)
      exact ungroupedLine_ok resolve depth p.1 p.2 hf.1 hf.2)
  obtain ⟨blocks, hc2, _⟩ := collect_ok_of_forall ((numberedFrom (own.length + 1) keys).map
      (fun p => groupBlock resolve depth groups p.1 p.2))
    (by
      intro r hr
      rw [List.mem_map] at hr
      obtain ⟨p, hp, rfl⟩ := hr
      exact groupBlock_ok resolve depth groups p.1 p.2
        (hkeys p.1 (mem_of_mem_numberedFrom _ _ p hp)))
  rw [hc1]
  simp only
  rw [hc2]
  exact ⟨_, rfl⟩

theorem generateProtobufStructWith_ok (rt : Runtime) (hrt : rt.Lawful)
    (resolve : Expr → Nat → Except Fault String) (structName : String) (fields : List Field)
    (depth : Nat) (threshold : Int) (hthr : 0 ≤ threshold)
    (hnames : ∀ f ∈ fields, f.Names ≠ [])
    (h : ∀ f ∈ fields, pointsToIdent f = true ∧ ∃ t, resolve f.type depth = .ok t) :
    ∃ text, generateProtobufStructWith rt resolve structName fields depth threshold
      = .ok text := by
  have hsnames : ∀ f ∈ rt.sortSlice fields, f.Names ≠ [] :=
    fun f hf => hnames f ((hrt.sort_perm fields).mem_iff.1 hf)
  obtain ⟨groups, _, hgroups, _⟩ := GroupFieldsByPascalCase_spec rt hrt.range_perm
    (rt.sortSlice fields) threshold hthr hsnames
  rw [generateProtobufStructWith_eq rt resolve structName fields depth threshold groups hnames
    hgroups]
  have hmem : ∀ key, ∀ f ∈ groups.get key, f ∈ fields := by
    intro key f hf
    exact (hrt.sort_perm fields).mem_iff.1
      (GroupFieldsByPascalCase_mem rt _ threshold groups hgroups key f hf)
  apply numberedRendering_ok
  · intro f hf
    exact h f (hmem "ungrouped" f ((hrt.sort_perm _).mem_iff.1 hf))
  · intro key _ f hf
    exact (h f (hmem key f hf)).2

theorem renderableFrom_step (store : Store) (target ref : StructRef)
    (h : RenderableFrom store target) (hc : containsStruct store target ref) :
    RenderableFrom store ref :=
  fun s hs => h s (Relation.ReflTransGen.head hc hs)

theorem generateProtobufStruct_ok (rt : Runtime) (hrt : rt.Lawful) (store : Store)
    (threshold : Int) (hthr : 0 ≤ threshold) (fuel : Nat) :
    ∀ (structName : String) (target : StructRef) (depth : Nat),
      ChainsBounded store target fuel → RenderableFrom store target →
      ∃ text, generateProtobufStruct rt store fuel structName target depth threshold
        = .ok text := by
  induction fuel with
  | zero =>
    intro structName target depth hb
    have := chainsBounded_pos store target 0 hb
    omega
  | succ fuel ih =>
    intro structName target depth hb hwell
    rw [generateProtobufStruct_succ]
    have hfields := hwell target Relation.ReflTransGen.refl
    apply generateProtobufStructWith_ok rt hrt _ structName (store target) depth threshold hthr
      (fun f hf => (hfields f hf).1)
    intro f hf
    refine ⟨(hfields f hf).2.2.2, ?_⟩
    unfold fieldTypeToString
    apply fieldTypeToStringWith_ok _ _ (hfields f hf).2.2.1
    intro ref href name d
    exact ih name ref d (chainsBounded_step store target ref fuel hb ⟨f, hf, href⟩)
      (renderableFrom_step store target ref hwell ⟨f, hf, href⟩)

/-! ## The rendering without groups -/

theorem exampleStore_reach (s : StructRef)
    (hs : Relation.ReflTransGen (containsStruct exampleStore) 1 s) : s = 1 ∨ s = 0 := by
  have h0 : ∀ x, ¬ containsStruct exampleStore 0 x := by
    rintro x ⟨f, hf, hx⟩
    have hall : ∀ f ∈ exampleStore 0, mentions f.type = [] := by decide
    rw [hall f hf] at hx
    simp at hx
  have h1 : ∀ x, containsStruct exampleStore 1 x → x = 0 := by
    rintro x ⟨f, hf, hx⟩
    have hall : ∀ f ∈ exampleStore 1, ∀ ref ∈ mentions f.type, ref = 0 := by decide
    exact hall f hf x hx
  induction hs with
  | refl => exact Or.inl rfl
  | tail _ hstep ih =>
    rcases ih with ih | ih
    · subst ih
      exact Or.inr (h1 _ hstep)
    · subst ih
      exact absurd hstep (h0 _)

theorem exampleStore_renderable : RenderableFrom exampleStore 1 := by
  intro s hs
  rcases exampleStore_reach s hs with h | h
  · subst h
    decide
  · subst h
    decide

theorem generateProtobufDefinition_cycle (fuel : Nat) :
    generateProtobufDefinition goRuntime cycleStore fuel (some cycleFile) "A" 0 maxInt
      = .error .outOfFuel := by
  rw [generateProtobufDefinition_located goRuntime cycleStore fuel cycleFile "A" 0 maxInt 0
    (by decide) (by rfl)]
  simp only [guardThenGenerate, checkRecursiveStruct_cycle, (cycleStore_outOfFuel fuel "A" 0).1]

/-- C1, as amended: for a struct whose fields have distinct first names, a
threshold above the token count of every first name, fields that are renderable in
the struct and in every struct it reaches, and containment chains of at most
`fuel + 1` structs, the grouper forms no group and `generateProtobufStruct`
returns, with `fuel + 1` nested activations or more at its disposal, the message of
one entry per declared field: the fields in ascending order of first name, numbered
1, ..., n.  The entry of a field that points to a known struct `S` is the rendering
of `S` at depth 1 (one level deeper than a struct rendered at depth 0, the depth of
the entry point) followed by a field line of type `S`.  On `MyStruct` of the test
data with threshold `math.MaxInt`, `generateProtobufDefinition` returns the
expected text of `TestGenerateProtobufDefinition`. -/
theorem C1_ungrouped_rendering (rt : Runtime) (hrt : rt.Lawful) (store : Store) (fuel : Nat)
    (structName : String) (structType : StructRef) (depth : Nat) (threshold : Int)
    (hdistinct : ((store structType).map firstNameD).Nodup)
    (hshort : ∀ f ∈ store structType, ((tokensOf f).length : Int) < threshold)
    (hrenderable : RenderableFrom store structType)
    (hchains : ChainsBounded store structType (fuel + 1)) :
    ∃ (sorted : List Field) (lines : List String),
      sorted.Perm (store structType) ∧
      sorted.Pairwise (fun a b => (firstNameD a).data < (firstNameD b).data) ∧
      GroupFieldsByPascalCase rt sorted threshold = .ok [("ungrouped", sorted)] ∧
      (∀ more, generateProtobufStruct rt store (fuel + 1 + more) structName structType depth
          threshold = .ok (messageText structName depth lines)) ∧
      lines.length = (store structType).length ∧
      (numberedFrom 1 sorted).map (fun p =>
          ungroupedLine (fun e d => fieldTypeToString rt store fuel e d threshold)
            depth p.1 p.2)
        = lines.map Except.ok ∧
      (∀ f ∈ sorted, ∀ (S : String) (nested : StructRef) (n : Nat),
        f.type = .StarExpr (structIdent S nested) →
        ∃ text, generateProtobufStruct rt store fuel S nested 1 threshold = .ok text ∧
          ungroupedLine (fun e d => fieldTypeToString rt store fuel e d threshold) depth f n =
            .ok (spaces ((depth + 1) * 2) ++ text ++ "\n"
              ++ fieldLine ((depth + 1) * 2) S f.Names n)) ∧
      generateProtobufDefinition rt exampleStore 2 (some exampleFile) "MyStruct" 0 maxInt
        = .ok (.ok expectedMyStruct) := by
  have hfields := hrenderable structType Relation.ReflTransGen.refl
  have hnames : ∀ f ∈ store structType, f.Names ≠ [] := fun f hf => (hfields f hf).1
  obtain ⟨hgroups, hrender⟩ := generateProtobufStruct_all_short rt hrt store fuel structName
    structType depth threshold hnames hdistinct hshort
  have hperm := hrt.sort_perm (store structType)
  have hnested : ∀ f ∈ store structType, ∀ ref ∈ mentions f.type, ∀ name d,
      ∃ text, generateProtobufStruct rt store fuel name ref d threshold = .ok text := by
    intro f hf ref href name d
    have hthr : 0 ≤ threshold := by
      have := hshort f hf
      omega
    exact generateProtobufStruct_ok rt hrt store threshold hthr fuel name ref d
      (chainsBounded_step store structType ref fuel hchains ⟨f, hf, href⟩)
      (renderableFrom_step store structType ref hrenderable ⟨f, hf, href⟩)
  have hentry : ∀ f ∈ rt.sortSlice (store structType), ∀ n, ∃ line,
      ungroupedLine (fun e d => fieldTypeToString rt store fuel e d threshold) depth f n
        = .ok line := by
    intro f hf n
    have hf2 := hperm.mem_iff.1 hf
    apply ungroupedLine_ok _ depth f n (hfields f hf2).2.2.2
    unfold fieldTypeToString
    exact fieldTypeToStringWith_ok _ _ (hfields f hf2).2.2.1 (hnested f hf2) depth
  obtain ⟨lines, hc, hlen⟩ := collect_ok_of_forall
    ((numberedFrom 1 (rt.sortSlice (store structType))).map (fun p =>
      ungroupedLine (fun e d => fieldTypeToString rt store fuel e d threshold) depth p.1 p.2))
    (by
      intro r hr
      rw [List.mem_map] at hr
      obtain ⟨p, hp, rfl⟩ := hr
      exact hentry p.1 (mem_of_mem_numberedFrom 1 _ p hp) p.2)
  have hgen : generateProtobufStruct rt store (fuel + 1) structName structType depth threshold
      = .ok (messageText structName depth lines) := by
    rw [hrender, hc]
  refine ⟨rt.sortSlice (store structType), lines, hperm,
    sortSlice_strict rt hrt _ hdistinct, hgroups, ?_, ?_, collect_eq_ok _ lines hc, ?_,
    generateProtobufDefinition_MyStruct_any rt hrt⟩
  · intro more
    rw [generateProtobufStruct_stable rt store threshold (fuel + 1) structName structType depth
      (by rw [hgen]; simp) more, hgen]
  · rw [hlen]
    simp [numberedFrom, hperm.length_eq]
  · intro f hf S nested n hty
    have hf2 := hperm.mem_iff.1 hf
    obtain ⟨text, htext⟩ := hnested f hf2 nested (by rw [hty]; simp [mentions, structIdent]) S 1
    refine ⟨text, htext, ?_⟩
    rw [ungroupedLine_pointer_to_struct rt store fuel threshold depth f S nested n hty, htext]

/-- C1 at `MyStruct` of the test data and `math.MaxInt`: the five fields in
ascending order, no group, and the text the test expects. -/
theorem C1_witness :
    ((exampleStore 1).map firstNameD).Nodup ∧
    (∀ f ∈ exampleStore 1, ((tokensOf f).length : Int) < maxInt) ∧
    RenderableFrom exampleStore 1 ∧
    ChainsBounded exampleStore 1 (2 + 1) ∧
    generateProtobufStruct goRuntime exampleStore 2 "MyStruct" 1 0 maxInt
      = .ok expectedMyStruct ∧
    ∃ (sorted : List Field) (lines : List String),
      sorted.Perm (exampleStore 1) ∧
      sorted.Pairwise (fun a b => (firstNameD a).data < (firstNameD b).data) ∧
      GroupFieldsByPascalCase goRuntime sorted maxInt = .ok [("ungrouped", sorted)] ∧
      (∀ more, generateProtobufStruct goRuntime exampleStore (2 + 1 + more) "MyStruct" 1 0
          maxInt = .ok (messageText "MyStruct" 0 lines)) ∧
      lines.length = (exampleStore 1).length ∧
      (numberedFrom 1 sorted).map (fun p =>
          ungroupedLine (fun e d => fieldTypeToString goRuntime exampleStore 2 e d maxInt)
            0 p.1 p.2)
        = lines.map Except.ok ∧
      (∀ f ∈ sorted, ∀ (S : String) (nested : StructRef) (n : Nat),
        f.type = .StarExpr (structIdent S nested) →
        ∃ text, generateProtobufStruct goRuntime exampleStore 2 S nested 1 maxInt = .ok text ∧
          ungroupedLine (fun e d => fieldTypeToString goRuntime exampleStore 2 e d maxInt) 0 f n =
            .ok (spaces ((0 + 1) * 2) ++ text ++ "\n"
              ++ fieldLine ((0 + 1) * 2) S f.Names n)) ∧
      generateProtobufDefinition goRuntime exampleStore 2 (some exampleFile) "MyStruct" 0 maxInt
        = .ok (.ok expectedMyStruct) :=
  ⟨by decide, by decide, exampleStore_renderable,
   chainsBounded_of_noCycle exampleStore 1 3 (by decide) exampleStore_closed exampleStore_noCycle,
   generateProtobufStruct_MyStruct,
   C1_ungrouped_rendering goRuntime goRuntime_lawful exampleStore 2 "MyStruct" 1 0 maxInt
     (by decide) (by decide) exampleStore_renderable
     (chainsBounded_of_noCycle exampleStore 1 3 (by decide) exampleStore_closed
       exampleStore_noCycle)⟩

/-- C1 fails on `type A struct { B *B }; type B struct { A *A }` with threshold
`math.MaxInt`: the one field of `A` has a name of one token, the guard finds no
pointer to `A` itself, and neither `generateProtobufStruct` nor
`generateProtobufDefinition` returns a text for `A`, however many nested
activations they are given. -/
theorem C1_counterexample_cycle :
    (∀ f ∈ cycleStore 0, f.Names ≠ []) ∧
    ((cycleStore 0).map firstNameD).Nodup ∧
    (∀ f ∈ cycleStore 0, ((tokensOf f).length : Int) < maxInt) ∧
    checkRecursiveStruct cycleStore 0 "A" = .ok (false, "") ∧
    (¬ ∃ fuel text, generateProtobufStruct goRuntime cycleStore fuel "A" 0 0 maxInt
      = .ok text) ∧
    (¬ ∃ fuel result, generateProtobufDefinition goRuntime cycleStore fuel (some cycleFile) "A"
      0 maxInt = .ok result) := by
  refine ⟨by decide, by decide, by decide, checkRecursiveStruct_cycle, ?_, ?_⟩
  · rintro ⟨fuel, text, h⟩
    rw [(cycleStore_outOfFuel fuel "A" 0).1] at h
    cases h
  · rintro ⟨fuel, result, h⟩
    rw [generateProtobufDefinition_cycle fuel] at h
    cases h

end StructToProto
